import Mathlib

/-!
# Plugin manager: loader, signature validator and registry

A shallow embedding of `pkg/plugins/manager/signature.go`,
`pkg/plugins/manager/loader/loader.go`, `pkg/plugins/manager/loader.go` and
`pkg/plugins/manager/managerv2.go`.

Conventions of the embedding:

* Go maps are association lists with pairwise distinct keys (`GoMap`); the order in
  which a `range` loop visits a map is unspecified in Go, so every `range` over a map
  takes its order from an oracle (`LoaderEnv.rangeOrder`).
* Pointers to plugin records are keys into the map that owns the records
  (`loadedPlugins` is keyed by plugin directory); a field assignment through a pointer
  is an update of the record stored under that key.
* Paths are Unix paths (`filepath.Separator = '/'`, `runtime.GOOS != "windows"`).
* Collaborators outside the sources (file system, signature calculation, initializer,
  finder) are fields of `LoaderEnv`.
-/

namespace PluginManager

/-! ## Data model -/

/-- Modelled from the spec: `plugins.PluginSignatureStatus` is a Go string type whose
declaration is not among the sources; the spec names the five states. -/
abbrev PluginSignatureStatus := String

/-- Modelled from the spec: signature state `internal`. -/
def PluginSignatureInternal : PluginSignatureStatus := "internal"
/-- Modelled from the spec: signature state `valid`. -/
def PluginSignatureValid : PluginSignatureStatus := "valid"
/-- Modelled from the spec: signature state `invalid`. -/
def PluginSignatureInvalid : PluginSignatureStatus := "invalid"
/-- Modelled from the spec: signature state `modified`. -/
def PluginSignatureModified : PluginSignatureStatus := "modified"
/-- Modelled from the spec: signature state `unsigned`. -/
def PluginSignatureUnsigned : PluginSignatureStatus := "unsigned"

/-- Modelled from the spec: the trust class `plugins.PluginClass`
(`core | bundled | external | unknown`), declared outside the sources. -/
inductive PluginClass where
  | Core
  | Bundled
  | External
  | Unknown
  deriving DecidableEq, Repr

/-- Modelled from the spec: `plugins.PluginType` is a Go string type declared outside the
sources. -/
abbrev PluginType := String

/-- Modelled from the spec: `plugins.PluginTypes`, the closed enumeration
datasource, panel, app, renderer. -/
def PluginTypes : List PluginType := ["datasource", "panel", "app", "renderer"]

/-- Modelled from the spec: `PluginType.IsValid`, membership in the closed enumeration. -/
def PluginType.IsValid (t : PluginType) : Bool := decide (t ∈ PluginTypes)

/-- Modelled from the spec: the error codes of the signature subfamily
(`signature-missing`, `signature-invalid`, `signature-modified`); the constants
`signatureMissing`, `signatureInvalid`, `signatureModified` are declared outside the
sources. -/
inductive ErrorCode where
  | signatureMissing
  | signatureInvalid
  | signatureModified
  deriving DecidableEq, Repr

/-- The value `plugins.PluginError` as `validate` builds it: only `ErrorCode` is set. -/
structure PluginError where
  ErrorCode : ErrorCode
  deriving DecidableEq, Repr

/-- The fields of `plugins.JSONData` that the embedded code reads (`Type_` is the field
`Type`). -/
structure JSONData where
  ID : String
  Type_ : PluginType
  Version : String := ""
  Backend : Bool := false
  deriving DecidableEq, Repr

/-- The record `plugins.PluginV2`. `Parent` and `Children` are pointers in the source; here
they are the plugin directories of the records pointed to (the key of the record in
`loadedPlugins`). `decommissioned` is the flag read by `IsDecommissioned()`. -/
structure PluginV2 where
  JSONData : JSONData
  PluginDir : String
  Class : PluginClass
  Signature : PluginSignatureStatus := ""
  SignatureType : String := ""
  SignatureOrg : String := ""
  Parent : Option String := none
  Children : List String := []
  decommissioned : Bool := false
  deriving DecidableEq, Repr

/-- The promoted field `plugin.ID` of the embedded `JSONData`. -/
def PluginV2.ID (p : PluginV2) : String := p.JSONData.ID

/-- The promoted field `plugin.Type` of the embedded `JSONData`. -/
def PluginV2.Type_ (p : PluginV2) : PluginType := p.JSONData.Type_

/-- Modelled from the spec: `IsCorePlugin` of `plugins.PluginV2` (declared outside the
sources); a record is a core plugin when its trust class is `core`. -/
def PluginV2.IsCorePlugin (p : PluginV2) : Bool := decide (p.Class = PluginClass.Core)

/-- Modelled from the spec: `IsExternalPlugin` of `plugins.PluginV2`; the trust class is
`external`. -/
def PluginV2.IsExternalPlugin (p : PluginV2) : Bool := decide (p.Class = PluginClass.External)

/-- Modelled from the spec: `IsRenderer` of `plugins.PluginV2`; the type is `renderer`. -/
def PluginV2.IsRenderer (p : PluginV2) : Bool := decide (p.Type_ = "renderer")

/-- Modelled from the spec: `IsDecommissioned` of `plugins.PluginV2`; reads the
decommissioned flag of the record. -/
def PluginV2.IsDecommissioned (p : PluginV2) : Bool := p.decommissioned

/-- Modelled from the spec: `setting.Dev`, the name of the development environment. -/
def Dev : String := "development"

/-- The fields of `setting.Cfg` that the embedded code reads. -/
structure Cfg where
  Env : String := "production"
  PluginsAllowUnsigned : List String := []
  StaticRootPath : String := ""
  BundledPluginsPath : String := ""
  PluginsPath : String := ""

/-! ## Signature validator (`signature.go`) -/

/-- The struct `PluginSignatureValidator`. A nil `allowUnsignedPluginsCondition` is `none`. -/
structure PluginSignatureValidator where
  cfg : Cfg
  requireSigned : Bool
  errors : List String := []
  allowUnsignedPluginsCondition : Option (PluginV2 → Bool) := none

/-- The constructor `newSignatureValidator`. -/
def newSignatureValidator (cfg : Cfg) (requireSigned : Bool)
    (unsignedCond : Option (PluginV2 → Bool)) : PluginSignatureValidator :=
  { cfg := cfg, requireSigned := requireSigned, allowUnsignedPluginsCondition := unsignedCond }

/-- The method `allowUnsigned`: an injected condition, when present, decides alone;
otherwise development mode or the allow-list admit. -/
def PluginSignatureValidator.allowUnsigned (s : PluginSignatureValidator)
    (plugin : PluginV2) : Bool :=
  match s.allowUnsignedPluginsCondition with
  | some cond => cond plugin
  | none =>
    if s.cfg.Env = Dev then true
    else s.cfg.PluginsAllowUnsigned.any (fun plug => decide (plug = plugin.ID))

/-- What a call of `validate` leaves behind: the record (whose `Signature` the call may have
overwritten), the validator's `errors` slice, and the returned `*plugins.PluginError`
(`none` for nil). -/
structure ValidateResult where
  plugin : PluginV2
  errors : List String
  err : Option PluginError

/-- The part of `validate` from `if !s.requireSigned` to the end: the switch on the
(possibly inherited) signature state. -/
def PluginSignatureValidator.validateSwitch (s : PluginSignatureValidator)
    (plugin : PluginV2) : ValidateResult :=
  if !s.requireSigned then
    { plugin := plugin, errors := s.errors, err := none }
  else if plugin.Signature = PluginSignatureUnsigned then
    if !s.allowUnsigned plugin then
      { plugin := plugin
        errors := s.errors ++ ["plugin '" ++ plugin.ID ++ "' is unsigned"]
        err := some { ErrorCode := ErrorCode.signatureMissing } }
    else
      { plugin := plugin, errors := s.errors, err := none }
  else if plugin.Signature = PluginSignatureInvalid then
    { plugin := plugin
      errors := s.errors ++ ["plugin '" ++ plugin.ID ++ "' has an invalid signature"]
      err := some { ErrorCode := ErrorCode.signatureInvalid } }
  else if plugin.Signature = PluginSignatureModified then
    { plugin := plugin
      errors := s.errors ++ ["plugin '" ++ plugin.ID ++ "' has a modified signature"]
      err := some { ErrorCode := ErrorCode.signatureModified } }
  else
    { plugin := plugin, errors := s.errors, err := some { ErrorCode := ErrorCode.signatureInvalid } }

/-- The method `validate`. `parent` is the record that `plugin.Parent` points to (`none`
when the pointer is nil). -/
def PluginSignatureValidator.validate (s : PluginSignatureValidator)
    (plugin : PluginV2) (parent : Option PluginV2) : ValidateResult :=
  if plugin.Signature = PluginSignatureValid then
    { plugin := plugin, errors := s.errors, err := none }
  else
    match parent with
    | some root =>
      if plugin.IsCorePlugin || decide (plugin.Signature = PluginSignatureInternal) then
        s.validateSwitch plugin
      else
        let plugin := { plugin with Signature := root.Signature }
        if plugin.Signature = PluginSignatureValid then
          { plugin := plugin, errors := s.errors, err := none }
        else
          s.validateSwitch plugin
    | none => s.validateSwitch plugin

/-! ## Go maps -/

/-- A Go `map[string]α`: an association list whose keys are pairwise distinct (every
operation below preserves that). -/
abbrev GoMap (α : Type) := List (String × α)

/-- The lookup `v, ok := m[k]`. -/
def mapGet {α : Type} : GoMap α → String → Option α
  | [], _ => none
  | (k', v) :: m, k => if k' = k then some v else mapGet m k

/-- The assignment `m[k] = v`. -/
def mapSet {α : Type} : GoMap α → String → α → GoMap α
  | [], k, v => [(k, v)]
  | (k', v') :: m, k, v => if k' = k then (k, v) :: m else (k', v') :: mapSet m k v

/-- The statement `delete(m, k)`. -/
def mapDelete {α : Type} : GoMap α → String → GoMap α
  | [], _ => []
  | (k', v') :: m, k => if k' = k then mapDelete m k else (k', v') :: mapDelete m k

/-- The keys of a map. -/
def mapKeys {α : Type} (m : GoMap α) : List String := m.map Prod.fst

/-- A write through a pointer to the record stored under `k`: the record is replaced by
`f` of it; other records, and the map's keys, are untouched. -/
def mapModify {α : Type} : GoMap α → String → (α → α) → GoMap α
  | [], _, _ => []
  | (k', v') :: m, k, f => if k' = k then (k', f v') :: m else (k', v') :: mapModify m k f

/-- A `for` loop over keys whose body may `return` an error: the state reached, and the
error that ended the loop early, if any. -/
def rangeLoop {σ ε : Type} (body : σ → String → σ × Option ε) : σ → List String → σ × Option ε
  | st, [] => (st, none)
  | st, k :: ks =>
    match body st k with
    | (st', none) => rangeLoop body st' ks
    | (st', some e) => (st', some e)

/-! ## Paths (`strings`, `path/filepath` on Unix) -/

/-- The elements of `strings.Split(s, "/")`, on character lists. -/
def splitSep : List Char → List (List Char)
  | [] => [[]]
  | c :: cs =>
    if c = '/' then [] :: splitSep cs
    else
      match splitSep cs with
      | [] => [[c]]
      | w :: ws => (c :: w) :: ws

/-- The call `strings.Split(s, string(filepath.Separator))`. -/
def Split (s : String) : List String := (splitSep s.data).map String.mk

/-- The call `strings.Join(elems, "/")`, on character lists. -/
def joinSep : List (List Char) → List Char
  | [] => []
  | [e] => e
  | e :: e' :: es => e ++ '/' :: joinSep (e' :: es)

/-- One path element processed by `filepath.Clean`; `out` is the stack of elements written
so far, last written first. Empty and `.` elements are dropped; `..` removes the element
before it when there is one that is not itself `..`, is dropped at the root of a rooted
path, and is kept otherwise. -/
def cleanStep (rooted : Bool) (out : List (List Char)) (e : List Char) : List (List Char) :=
  if e = [] ∨ e = ['.'] then out
  else if e = ['.', '.'] then
    match out with
    | top :: below => if top = ['.', '.'] then e :: out else below
    | [] => if rooted then out else [e]
  else e :: out

/-- The function `filepath.Clean`, on character lists. -/
def cleanChars (path : List Char) : List Char :=
  if path = [] then ['.']
  else
    let rooted := decide (path.head? = some '/')
    let out := ((splitSep path).foldl (cleanStep rooted) []).reverse
    if rooted then '/' :: joinSep out
    else if out = [] then ['.'] else joinSep out

/-- The function `filepath.Clean`. -/
def Clean (path : String) : String := ⟨cleanChars path.data⟩

/-- The call `filepath.Join(a, b)`: the non-empty arguments joined by the separator, then
cleaned; the empty string when both are empty. -/
def Join (a b : String) : String :=
  if a ≠ "" then Clean (a ++ "/" ++ b)
  else if b ≠ "" then Clean b
  else ""

/-- The function `filepath.IsAbs` on Unix: the path starts with the separator. -/
def IsAbs (path : String) : Bool := decide (path.data.head? = some '/')

/-- The function `filepath.Dir`: the path up to and including its last separator,
cleaned. -/
def Dir (path : String) : String :=
  Clean ⟨(path.data.reverse.dropWhile (fun c => decide (c ≠ '/'))).reverse⟩

/-- The function `filepath.Ext`: the suffix of the last path element that starts at its
last dot; empty when there is none. -/
def Ext (path : String) : String :=
  let tail := path.data.reverse.takeWhile (fun c => decide (c ≠ '/') && decide (c ≠ '.'))
  match path.data.reverse.drop tail.length with
  | c :: _ => if c = '.' then ⟨('.' :: tail.reverse)⟩ else ""
  | [] => ""

/-- The call `strings.EqualFold(ext, ".json")`: equality under simple Unicode case folding.
The letters j, o, n fold only with their capitals; s also folds with U+017F. -/
def EqualFoldJSON (ext : String) : Bool :=
  match ext.data with
  | [c0, c1, c2, c3, c4] =>
    decide (c0 = '.') && (decide (c1 = 'j') || decide (c1 = 'J')) &&
      (decide (c2 = 's') || decide (c2 = 'S') || decide (c2 = Char.ofNat 0x17F)) &&
      (decide (c3 = 'o') || decide (c3 = 'O')) && (decide (c4 = 'n') || decide (c4 = 'N'))
  | _ => false

/-- The call `strings.HasPrefix(s, p)`. -/
def HasPrefix (s p : String) : Bool := p.data.isPrefixOf s.data

/-- The element-matching loop of `filepath.Rel`. `b` and `t` are what is left of the cleaned
base and target from the positions `b0` and `t0`. The loop runs while both are non-empty;
it compares the next element of each, stops at the first pair that differs, and otherwise
steps over the element and the separator after it. Returns the base element at which the
loop stopped (empty when it ran out) and what is left of base and target. -/
def relLoop : Nat → List Char → List Char → List Char × List Char × List Char
  | 0, b, t => ([], b, t)
  | fuel + 1, b, t =>
    if b = [] ∨ t = [] then ([], b, t)
    else
      let eb := b.takeWhile (fun c => decide (c ≠ '/'))
      let et := t.takeWhile (fun c => decide (c ≠ '/'))
      if eb ≠ et then (eb, b, t)
      else relLoop fuel ((b.drop eb.length).drop 1) ((t.drop et.length).drop 1)

/-- The function `filepath.Rel` on Unix; `none` is the error return. -/
def Rel (basepath targpath : String) : Option String :=
  let base := cleanChars basepath.data
  let targ := cleanChars targpath.data
  if targ = base then some "."
  else
    let base := if base = ['.'] then [] else base
    let baseSlashed := decide (base.head? = some '/')
    let targSlashed := decide (targ.head? = some '/')
    if baseSlashed ≠ targSlashed then none
    else
      match relLoop (base.length + 1) base targ with
      | (eb, b, t) =>
        if eb = ['.', '.'] then none
        else if b ≠ [] then
          let ups := (List.replicate (b.count '/') ['/', '.', '.']).flatten
          some ⟨['.', '.'] ++ ups ++ (if t ≠ [] then '/' :: t else [])⟩
        else some ⟨t⟩

/-! ## Loader: the parts shared by `loader/loader.go` and `manager/loader.go` -/

/-- The errors a load can return. -/
inductive LoadError where
  | InvalidPluginJSON
  | InvalidPluginJSONFilePath
  | other (msg : String)
  deriving DecidableEq, Repr

/-- The result of `signature.CalculateState` / `pluginSignatureState`. -/
structure SignatureState where
  Status : PluginSignatureStatus
  Type_ : String := ""
  SigningOrg : String := ""

/-- The collaborators of the loaders that are outside the sources, and the iteration order
of the loaders' `range` loops over maps.

* `find`: `pluginFinder.Find` (its error is only logged).
* `openAndDecode`: `os.Open` followed by the JSON decoding of the file.
* `abs`: `filepath.Abs`.
* `calculateState`: `signature.CalculateState` / `pluginSignatureState`.
* `fileExists`: `fs.Exists`.
* `pluginInitializer`: the call `pluginInitializer.Initialize(p)`; it prepares the transport of the record and
  touches none of the fields of `PluginV2` kept here.
* `requireSigned`: whether the validator built for a trust class requires signatures
  (`signature.NewValidator(cfg, plugin.Class, cond)`; the mapping from the class to
  `requireSigned` is outside the sources).
* `rangeOrder i keys`: the order in which the `i`-th `range` loop over a map with these
  keys visits them; Go leaves it unspecified, a well-behaved oracle returns a permutation
  of `keys`. -/
structure LoaderEnv where
  find : List String → List String
  openAndDecode : String → Except LoadError JSONData
  abs : String → Except LoadError String
  calculateState : PluginV2 → Except LoadError SignatureState
  fileExists : String → Except LoadError Bool
  pluginInitializer : PluginV2 → Except LoadError Unit
  requireSigned : PluginClass → Bool
  rangeOrder : Nat → List String → List String

/-- The function `validatePluginJSON`; `none` is the nil error. -/
def validatePluginJSON (data : JSONData) : Option LoadError :=
  if data.ID = "" ∨ !data.Type_.IsValid then some LoadError.InvalidPluginJSON else none

/-- The method `readPluginJSON`. A failure to close the file is only logged. -/
def readPluginJSON (env : LoaderEnv) (pluginJSONPath : String) : Except LoadError JSONData :=
  if !EqualFoldJSON (Ext pluginJSONPath) then .error LoadError.InvalidPluginJSONFilePath
  else
    match env.openAndDecode pluginJSONPath with
    | .error err => .error err
    | .ok plugin =>
      match validatePluginJSON plugin with
      | some err => .error err
      | none => .ok plugin

/-- The closure `isSubDir` of `pluginClass`. -/
def isSubDir (base target : String) : Bool :=
  match Rel base target with
  | none => false
  | some path => !HasPrefix path ".."

/-- The method `pluginClass`. -/
def pluginClass (cfg : Cfg) (pluginDir : String) : PluginClass :=
  let corePluginsDir := Join cfg.StaticRootPath "app/plugins"
  if isSubDir corePluginsDir pluginDir then PluginClass.Core
  else if isSubDir cfg.BundledPluginsPath pluginDir then PluginClass.Bundled
  else if isSubDir cfg.PluginsPath pluginDir then PluginClass.External
  else PluginClass.Unknown

/-- The first loop of `loadPlugins` / `LoadAll`: read every descriptor and map its
directory to its JSON data; the first error aborts the load. -/
def readAll (env : LoaderEnv) : List String → GoMap JSONData → Except LoadError (GoMap JSONData)
  | [], foundPlugins => .ok foundPlugins
  | pluginJSONPath :: rest, foundPlugins =>
    match readPluginJSON env pluginJSONPath with
    | .error err => .error err
    | .ok plugin =>
      match env.abs pluginJSONPath with
      | .error err => .error err
      | .ok pluginJSONAbsPath => readAll env rest (mapSet foundPlugins (Dir pluginJSONAbsPath) plugin)

/-- The body of the loop "calculate initial signature state": build the record of one
directory and store it in `loadedPlugins`. -/
def calcStateStep (cfg : Cfg) (env : LoaderEnv) (foundPlugins : GoMap JSONData)
    (loadedPlugins : GoMap PluginV2) (pluginDir : String) :
    GoMap PluginV2 × Option LoadError :=
  match mapGet foundPlugins pluginDir with
  | none => (loadedPlugins, none)
  | some pluginJSON =>
    let plugin : PluginV2 :=
      { JSONData := pluginJSON, PluginDir := pluginDir, Class := pluginClass cfg pluginDir }
    match env.calculateState plugin with
    | .error err => (loadedPlugins, some err)
    | .ok signatureState =>
      let plugin := { plugin with
        Signature := signatureState.Status
        SignatureType := signatureState.Type_
        SignatureOrg := signatureState.SigningOrg }
      (mapSet loadedPlugins plugin.PluginDir plugin, none)

/-- The inner loop of "wire up plugin dependencies": extend `pluginPath` by one ancestor
after the other, from the root downwards, and stop at the first path that is a key of
`loadedPlugins`. Returns that key, or `none` when the loop ends without a `break`. -/
def walkAncestors (loadedPlugins : GoMap PluginV2) : String → List String → Option String
  | _, [] => none
  | pluginPath, ancestor :: rest =>
    let pluginPath := Join pluginPath ancestor
    if (mapGet loadedPlugins pluginPath).isSome then some pluginPath
    else walkAncestors loadedPlugins pluginPath rest

/-- The directory of the record that the dependency loop makes the parent of a record with
directory `pluginDir`, if any. -/
def findParent (loadedPlugins : GoMap PluginV2) (pluginDir : String) : Option String :=
  let ancestors := (Split pluginDir).dropLast
  let pluginPath := if IsAbs pluginDir then "/" else ""
  walkAncestors loadedPlugins pluginPath ancestors

/-- The body of the loop "wire up plugin dependencies" for the record stored under `dir`:
`plugin.Parent = parentPlugin` and
`plugin.Parent.Children = append(plugin.Parent.Children, plugin)`. -/
def linkStep (loadedPlugins : GoMap PluginV2) (dir : String) : GoMap PluginV2 :=
  match mapGet loadedPlugins dir with
  | none => loadedPlugins
  | some plugin =>
    match findParent loadedPlugins plugin.PluginDir with
    | none => loadedPlugins
    | some parentDir =>
      let loadedPlugins :=
        mapModify loadedPlugins dir (fun p => { p with Parent := some parentDir })
      mapModify loadedPlugins parentDir (fun p => { p with Children := p.Children ++ [dir] })

/-- The loop "wire up plugin dependencies" over the keys in the order `order`. -/
def linkDependencies (order : List String) (loadedPlugins : GoMap PluginV2) : GoMap PluginV2 :=
  order.foldl linkStep loadedPlugins

/-- The record a parent pointer refers to (`none` for the nil pointer). -/
def derefParent (loadedPlugins : GoMap PluginV2) (plugin : PluginV2) : Option PluginV2 :=
  match plugin.Parent with
  | none => none
  | some parentDir => mapGet loadedPlugins parentDir

/-- The call `newSignatureValidator(cfg, plugin.Class, cond).validate(plugin)` of the loop
"validate signatures" (`signature.NewValidator(...).Validate(plugin)` in package `loader`,
whose validator is taken to be the one of `signature.go`), on a record of
`loadedPlugins`. -/
def validateAt (cfg : Cfg) (env : LoaderEnv) (cond : Option (PluginV2 → Bool))
    (loadedPlugins : GoMap PluginV2) (plugin : PluginV2) : ValidateResult :=
  (newSignatureValidator cfg (env.requireSigned plugin.Class) cond).validate plugin
    (derefParent loadedPlugins plugin)

/-- The body of the loop "validate signatures" for the record stored under `dir`. The state
is `loadedPlugins` (the validator may overwrite the record's `Signature`) and the error
map. A rejected record gets its error stored under its ID and the loop `continue`s: the
record stays in `loadedPlugins`. An admitted record that is neither a renderer nor a core
plugin has the presence of `module.js` checked; only an error of `fs.Exists` ends the
load. -/
def validateStep (cfg : Cfg) (env : LoaderEnv) (cond : Option (PluginV2 → Bool))
    (st : GoMap PluginV2 × GoMap PluginError) (dir : String) :
    (GoMap PluginV2 × GoMap PluginError) × Option LoadError :=
  match mapGet st.1 dir with
  | none => (st, none)
  | some plugin =>
    let r := validateAt cfg env cond st.1 plugin
    let loadedPlugins := mapModify st.1 dir (fun _ => r.plugin)
    match r.err with
    | some signingError => ((loadedPlugins, mapSet st.2 r.plugin.ID signingError), none)
    | none =>
      if !r.plugin.IsRenderer && !r.plugin.IsCorePlugin then
        match env.fileExists (Join r.plugin.PluginDir "module.js") with
        | .error err => ((loadedPlugins, st.2), some err)
        | .ok _ => ((loadedPlugins, st.2), none)
      else ((loadedPlugins, st.2), none)

/-! ## Loader of `manager/loader.go` (package `manager`) -/

/-- The struct `Loader` of package `manager`. -/
structure Loader where
  Cfg : Cfg
  allowUnsignedPluginsCondition : Option (PluginV2 → Bool) := none

/-- The method `LoadAll` of package `manager`. The error map is local to the call. The
result is built from every entry of `loadedPlugins`. -/
def Loader.LoadAll (l : Loader) (env : LoaderEnv) (pluginJSONPaths : List String) :
    Except LoadError (List PluginV2) :=
  match readAll env pluginJSONPaths [] with
  | .error err => .error err
  | .ok foundPlugins =>
    match rangeLoop (calcStateStep l.Cfg env foundPlugins) []
        (env.rangeOrder 0 (mapKeys foundPlugins)) with
    | (_, some err) => .error err
    | (loadedPlugins, none) =>
      let loadedPlugins :=
        linkDependencies (env.rangeOrder 1 (mapKeys loadedPlugins)) loadedPlugins
      match rangeLoop (validateStep l.Cfg env l.allowUnsignedPluginsCondition)
          (loadedPlugins, []) (env.rangeOrder 2 (mapKeys loadedPlugins)) with
      | (_, some err) => .error err
      | ((loadedPlugins, _), none) =>
        .ok ((env.rangeOrder 3 (mapKeys loadedPlugins)).filterMap (mapGet loadedPlugins))

namespace loader

/-! ## Loader of `loader/loader.go` (package `loader`) -/

/-- The struct `Loader` of package `loader`. -/
structure Loader where
  cfg : Cfg
  errs : GoMap PluginError := []
  AllowUnsignedPluginsCondition : Option (PluginV2 → Bool) := none

/-- The body of the loop of `stripDuplicates`. The state is the map `f` and the set
`pluginsByID`. -/
def stripStep (existingPlugins : List String) (st : GoMap JSONData × List String)
    (path : String) : GoMap JSONData × List String :=
  match mapGet st.1 path with
  | none => st
  | some scannedPlugin =>
    if scannedPlugin.ID ∈ st.2 then (mapDelete st.1 path, st.2)
    else if scannedPlugin.ID ∈ existingPlugins then (mapDelete st.1 path, st.2)
    else (st.1, scannedPlugin.ID :: st.2)

/-- The method `stripDuplicates`; `order` is the order in which the loop visits the keys of
`f`, and `existingPlugins` the key set of the map of that name. -/
def stripDuplicates (order : List String) (f : GoMap JSONData)
    (existingPlugins : List String) : GoMap JSONData :=
  (order.foldl (stripStep existingPlugins) (f, [])).1

/-- The body of the last loop of `loadPlugins`: hand the record to the initializer and
append it to `res`. -/
def initStep (env : LoaderEnv) (loadedPlugins : GoMap PluginV2) (res : List PluginV2)
    (dir : String) : List PluginV2 × Option LoadError :=
  match mapGet loadedPlugins dir with
  | none => (res, none)
  | some p =>
    match env.pluginInitializer p with
    | .error err => (res, some err)
    | .ok _ => (res ++ [p], none)

/-- The method `loadPlugins` up to and including the loop "wire up plugin dependencies":
the map `loadedPlugins` as the loop "validate signatures" finds it, or the error that
ended the load before. -/
def Loader.wiredPlugins (l : Loader) (env : LoaderEnv) (pluginJSONPaths : List String)
    (existingPlugins : List String) : Except LoadError (GoMap PluginV2) :=
  match readAll env pluginJSONPaths [] with
  | .error err => .error err
  | .ok foundPlugins =>
    let foundPlugins :=
      stripDuplicates (env.rangeOrder 0 (mapKeys foundPlugins)) foundPlugins existingPlugins
    match rangeLoop (calcStateStep l.cfg env foundPlugins) []
        (env.rangeOrder 1 (mapKeys foundPlugins)) with
    | (_, some err) => .error err
    | (loadedPlugins, none) =>
      .ok (linkDependencies (env.rangeOrder 2 (mapKeys loadedPlugins)) loadedPlugins)

/-- The method `loadPlugins`. Returns the loader (its `errs` map is written by the loop
"validate signatures", also in a load that fails later) and the returned list or error.
The loop that only logs `l.errs` is left out. The result is built from every entry of
`loadedPlugins`. -/
def Loader.loadPlugins (l : Loader) (env : LoaderEnv) (pluginJSONPaths : List String)
    (existingPlugins : List String) : Loader × Except LoadError (List PluginV2) :=
  match l.wiredPlugins env pluginJSONPaths existingPlugins with
  | .error err => (l, .error err)
  | .ok loadedPlugins =>
    match rangeLoop (validateStep l.cfg env l.AllowUnsignedPluginsCondition)
        (loadedPlugins, l.errs) (env.rangeOrder 3 (mapKeys loadedPlugins)) with
    | ((_, errs), some err) => ({ l with errs := errs }, .error err)
    | ((loadedPlugins, errs), none) =>
      match rangeLoop (initStep env loadedPlugins) []
          (env.rangeOrder 4 (mapKeys loadedPlugins)) with
      | (_, some err) => ({ l with errs := errs }, .error err)
      | (res, none) => ({ l with errs := errs }, .ok res)

/-- The method `LoadAll` of package `loader`. -/
def Loader.LoadAll (l : Loader) (env : LoaderEnv) (path : List String)
    (ignore : List String) : Loader × Except LoadError (List PluginV2) :=
  l.loadPlugins env (env.find path) ignore

/-- The method `Errors`. -/
def Loader.Errors (l : Loader) : GoMap PluginError := l.errs

end loader

/-! ## Registry (`managerv2.go`) -/

/-- The fields of `PluginManagerV2` that the read operations use; `plugins` is keyed by
plugin ID. -/
structure PluginManagerV2 where
  Cfg : Cfg
  plugins : GoMap PluginV2 := []

/-- The entries a `range` over a map yields when it visits the keys in the order
`order keys`. -/
def rangeMap {α : Type} (order : List String → List String) (m : GoMap α) : List α :=
  (order (mapKeys m)).filterMap (mapGet m)

/-- The method `Plugin`; `none` is the nil pointer. -/
def PluginManagerV2.Plugin (m : PluginManagerV2) (pluginID : String) : Option PluginV2 :=
  match mapGet m.plugins pluginID with
  | some p => if p.IsDecommissioned then none else some p
  | none => none

/-- The method `PluginByType`. -/
def PluginManagerV2.PluginByType (m : PluginManagerV2) (pluginID : String)
    (pluginType : PluginType) : Option PluginV2 :=
  match mapGet m.plugins pluginID with
  | some p => if p.IsDecommissioned || decide (p.Type_ ≠ pluginType) then none else some p
  | none => none

/-- The method `Plugins`; `order` is the order in which the loop visits `m.plugins`. -/
def PluginManagerV2.Plugins (m : PluginManagerV2) (order : List String → List String)
    (pluginTypes : List PluginType) : List PluginV2 :=
  let pluginTypes := if pluginTypes.length = 0 then PluginTypes else pluginTypes
  let requestedTypes := pluginTypes
  (rangeMap order m.plugins).filter (fun p => decide (p.Type_ ∈ requestedTypes))

/-- The method `Renderer`; `order` is the order in which the loop visits `m.plugins`. -/
def PluginManagerV2.Renderer (m : PluginManagerV2) (order : List String → List String) :
    Option PluginV2 :=
  (rangeMap order m.plugins).find? (fun p => p.IsRenderer)

/-- The method `registeredPlugins`: the set of the IDs of the records in the registry. -/
def PluginManagerV2.registeredPlugins (m : PluginManagerV2) : List String :=
  m.plugins.map (fun e => e.2.ID)

/-! ## Registry mutations and `Uninstall` (`managerv2.go`)

The methods `Plugin`, `isRegistered`, `register` and `unregister` are embedded as the
sequential code between their lock operations: each takes `pluginsMu` and gives it back
before it returns, so a call made while the mutex is free returns and leaves it free.
`unregisterAndStop` calls `Plugin` while it holds the mutex; it and `Uninstall` are embedded
with the lock operations (section on `pluginsMu` below). -/

/-- Modelled from the spec: the sentinel errors `plugins.ErrPluginNotInstalled`,
`plugins.ErrUninstallCorePlugin` and `plugins.ErrUninstallOutsideOfPluginDir` (declared
outside the sources); `other` is any other error, with its message. -/
inductive ManagerError where
  | ErrPluginNotInstalled
  | ErrUninstallCorePlugin
  | ErrUninstallOutsideOfPluginDir
  | other (msg : String)
  deriving DecidableEq, Repr

/-- The collaborators of `Uninstall` outside the sources: `Decommission` and `Stop` of the
record (`none` is the nil error; a successful `Decommission` sets the decommissioned flag),
and `pluginInstaller.Uninstall`. -/
structure ManagerEnv where
  Decommission : PluginV2 → Option String
  Stop : PluginV2 → Option String
  installerUninstall : String → Option String

/-- The method `isRegistered`. -/
def PluginManagerV2.isRegistered (m : PluginManagerV2) (pluginID : String) : Bool :=
  match m.Plugin pluginID with
  | none => false
  | some p => !p.IsDecommissioned

/-- The method `register`: the registry afterwards and the returned error (`none` for
nil). -/
def PluginManagerV2.register (m : PluginManagerV2) (p : PluginV2) :
    PluginManagerV2 × Option String :=
  let pluginID := p.ID
  if (mapGet m.plugins pluginID).isSome then
    (m, some ("plugin " ++ pluginID ++ " already registered"))
  else
    ({ m with plugins := mapSet m.plugins pluginID p }, none)

/-- The method `unregister`; it always returns nil. -/
def PluginManagerV2.unregister (m : PluginManagerV2) (plugin : PluginV2) : PluginManagerV2 :=
  { m with plugins := mapDelete m.plugins plugin.ID }

/-! ## The mutex `pluginsMu`, `unregisterAndStop` and `Uninstall` (`managerv2.go`)

The embedding follows one goroutine, with no other goroutine at work on the registry. A
`sync.RWMutex` is not reentrant: a lock operation that has to wait for a lock which the
calling goroutine holds itself never returns. -/

/-- The state of the `sync.RWMutex` `pluginsMu`: whether it is held for writing, and the
number of read locks held. -/
structure RWMutex where
  writer : Bool := false
  readers : Nat := 0
  deriving DecidableEq, Repr

/-- The call `Lock` of `sync.RWMutex`: `none` when the mutex is held, for writing or for
reading, and the call has to wait. -/
def RWMutex.Lock (rw : RWMutex) : Option RWMutex :=
  if rw.writer || decide (rw.readers ≠ 0) then none else some { rw with writer := true }

/-- The call `Unlock` of `sync.RWMutex`. -/
def RWMutex.Unlock (rw : RWMutex) : RWMutex := { rw with writer := false }

/-- The call `RLock` of `sync.RWMutex`: `none` when the mutex is held for writing and the
call has to wait. -/
def RWMutex.RLock (rw : RWMutex) : Option RWMutex :=
  if rw.writer then none else some { rw with readers := rw.readers + 1 }

/-- The call `RUnlock` of `sync.RWMutex`. -/
def RWMutex.RUnlock (rw : RWMutex) : RWMutex := { rw with readers := rw.readers - 1 }

/-- How a call ends: it returns an error (`none` is nil), or it waits for ever for
`pluginsMu` and never returns. -/
inductive Outcome where
  | returned (err : Option ManagerError)
  | blocked
  deriving DecidableEq, Repr

/-- The method `Plugin` with its lock operations, called while `pluginsMu` is in the state
`mu`: `RLock`, the lookup, `RUnlock`, then the test of the decommissioned flag. `none`: the
call never returns. Otherwise the state of the mutex afterwards and the returned pointer. -/
def PluginManagerV2.lockedPlugin (m : PluginManagerV2) (mu : RWMutex) (pluginID : String) :
    Option (RWMutex × Option PluginV2) :=
  match mu.RLock with
  | none => none
  | some mu => some (mu.RUnlock, m.Plugin pluginID)

/-- The method `isRegistered` with the lock operations of its call of `Plugin`. -/
def PluginManagerV2.lockedIsRegistered (m : PluginManagerV2) (mu : RWMutex)
    (pluginID : String) : Option (RWMutex × Bool) :=
  match m.lockedPlugin mu pluginID with
  | none => none
  | some (mu, none) => some (mu, false)
  | some (mu, some p) => some (mu, !p.IsDecommissioned)

/-- The method `unregister` with its lock operations: `Lock`, the deferred `Unlock`, the
deletion. `none`: the call never returns. -/
def PluginManagerV2.lockedUnregister (m : PluginManagerV2) (mu : RWMutex)
    (plugin : PluginV2) : Option (PluginManagerV2 × RWMutex) :=
  match mu.Lock with
  | none => none
  | some mu => some (m.unregister plugin, mu.Unlock)

/-- The method `unregisterAndStop`, called while `pluginsMu` is in the state `mu`: the
registry and the mutex it leaves behind, and how the call ends. It takes `Lock`, defers
`Unlock` to its return, and then calls `Plugin`, which takes `RLock` on the same mutex. -/
def PluginManagerV2.unregisterAndStop (m : PluginManagerV2) (env : ManagerEnv)
    (mu : RWMutex) (pluginID : String) : PluginManagerV2 × RWMutex × Outcome :=
  match mu.Lock with
  | none => (m, mu, Outcome.blocked)
  | some mu =>
    match m.lockedPlugin mu pluginID with
    | none => (m, mu, Outcome.blocked)
    | some (mu, none) =>
      (m, mu.Unlock,
        Outcome.returned (some (ManagerError.other ("plugin " ++ pluginID ++ " is not registered"))))
    | some (mu, some p) =>
      match env.Decommission p with
      | some err => (m, mu.Unlock, Outcome.returned (some (ManagerError.other err)))
      | none =>
        let m :=
          { m with plugins := mapModify m.plugins pluginID (fun q => { q with decommissioned := true }) }
        match env.Stop p with
        | some err => (m, mu.Unlock, Outcome.returned (some (ManagerError.other err)))
        | none => ({ m with plugins := mapDelete m.plugins pluginID }, mu.Unlock, Outcome.returned none)

/-- What a call of `Uninstall` leaves behind: the registry, the state of `pluginsMu`, the
directories it passed to `pluginInstaller.Uninstall`, and how the call ended. -/
structure UninstallResult where
  manager : PluginManagerV2
  pluginsMu : RWMutex
  uninstalled : List String
  outcome : Outcome

/-- The method `Uninstall`, called while `pluginsMu` is in the state `mu`. -/
def PluginManagerV2.Uninstall (m : PluginManagerV2) (env : ManagerEnv) (mu : RWMutex)
    (pluginID : String) : UninstallResult :=
  match m.lockedPlugin mu pluginID with
  | none => { manager := m, pluginsMu := mu, uninstalled := [], outcome := Outcome.blocked }
  | some (mu, none) =>
    { manager := m, pluginsMu := mu, uninstalled := [],
      outcome := Outcome.returned (some ManagerError.ErrPluginNotInstalled) }
  | some (mu, some plugin) =>
    if !plugin.IsExternalPlugin then
      { manager := m, pluginsMu := mu, uninstalled := [],
        outcome := Outcome.returned (some ManagerError.ErrUninstallCorePlugin) }
    else
      match Rel m.Cfg.PluginsPath plugin.PluginDir with
      | none =>
        { manager := m, pluginsMu := mu, uninstalled := [],
          outcome := Outcome.returned (some ManagerError.ErrUninstallOutsideOfPluginDir) }
      | some path =>
        if HasPrefix path "../" then
          { manager := m, pluginsMu := mu, uninstalled := [],
            outcome := Outcome.returned (some ManagerError.ErrUninstallOutsideOfPluginDir) }
        else
          match m.lockedIsRegistered mu pluginID with
          | none => { manager := m, pluginsMu := mu, uninstalled := [], outcome := Outcome.blocked }
          | some (mu, registered) =>
            let stopped :=
              if registered then m.unregisterAndStop env mu pluginID
              else (m, mu, Outcome.returned none)
            match stopped with
            | (m, mu, Outcome.blocked) =>
              { manager := m, pluginsMu := mu, uninstalled := [], outcome := Outcome.blocked }
            | (m, mu, Outcome.returned (some err)) =>
              { manager := m, pluginsMu := mu, uninstalled := [],
                outcome := Outcome.returned (some err) }
            | (m, mu, Outcome.returned none) =>
              match m.lockedUnregister mu plugin with
              | none =>
                { manager := m, pluginsMu := mu, uninstalled := [], outcome := Outcome.blocked }
              | some (m, mu) =>
                { manager := m, pluginsMu := mu, uninstalled := [plugin.PluginDir]
                  outcome :=
                    Outcome.returned
                      ((env.installerUninstall plugin.PluginDir).map ManagerError.other) }

/-! ## Resource response stream (`managerv2.go`)

The stream is embedded as a state machine. The channel `stream` is unbuffered and is
closed by `Close` only, together with the assignment `s.closed = true`; the flag `closed`
stands for both. What the other side of the channel and the context do is an argument of
`Send` and `Recv`. -/

/-- The errors of the stream: `io.EOF`, the error of the context, and the errors made by
`errors.New`, with their message. -/
inductive StreamError where
  | EOF
  | ctxErr
  | new (msg : String)
  deriving DecidableEq, Repr

/-- The struct `callResourceResponseStream`: `ctxDone` says whether `s.ctx.Done()` is
closed, `closed` whether `Close` has run. -/
structure callResourceResponseStream where
  ctxDone : Bool := false
  closed : Bool := false
  deriving DecidableEq, Repr

/-- The constructor `newCallResourceResponseStream`, for a context that is done or not. -/
def newCallResourceResponseStream (ctxDone : Bool) : callResourceResponseStream :=
  { ctxDone := ctxDone, closed := false }

/-- The case a `select` with two cases runs: `some true` the first, `some false` the second,
`none` when neither is ready (the statement blocks). When both are ready the choice is Go's;
`pick` stands for it. -/
def select2 (ready1 ready2 pick : Bool) : Option Bool :=
  if ready1 && ready2 then some pick
  else if ready1 then some true
  else if ready2 then some false
  else none

/-- The outcome of `Send`: an error, the frame handed to the receiver (nil error), or a
call that blocks. -/
inductive SendResult (α : Type) where
  | error (err : StreamError)
  | delivered (res : α)
  | blocks

/-- The outcome of `Recv`: a frame, an error, or a call that blocks. -/
inductive RecvResult (α : Type) where
  | frame (res : α)
  | error (err : StreamError)
  | blocks

/-- The method `Send`; `receiverWaiting` says whether a `Recv` is waiting on the channel. -/
def callResourceResponseStream.Send {α : Type} (s : callResourceResponseStream) (res : α)
    (receiverWaiting pick : Bool) : SendResult α :=
  if s.closed then SendResult.error (StreamError.new "cannot send to a closed stream")
  else
    match select2 s.ctxDone receiverWaiting pick with
    | some true => SendResult.error (StreamError.new "cancelled")
    | some false => SendResult.delivered res
    | none => SendResult.blocks

/-- The method `Recv`; `offered` is the frame a blocked `Send` offers on the channel, if
any. A closed channel is always ready and yields `ok = false`. -/
def callResourceResponseStream.Recv {α : Type} (s : callResourceResponseStream)
    (offered : Option α) (pick : Bool) : RecvResult α :=
  match select2 s.ctxDone (s.closed || offered.isSome) pick with
  | some true => RecvResult.error StreamError.ctxErr
  | some false =>
    if s.closed then RecvResult.error StreamError.EOF
    else
      match offered with
      | some res => RecvResult.frame res
      | none => RecvResult.blocks
  | none => RecvResult.blocks

/-- The method `Close`: the stream afterwards and the returned error. -/
def callResourceResponseStream.Close (s : callResourceResponseStream) :
    callResourceResponseStream × Option StreamError :=
  if s.closed then (s, some (StreamError.new "cannot close a closed stream"))
  else ({ s with closed := true }, none)

/-! ## `flushStream` (`managerv2.go`) -/

/-- The fields of `backend.CallResourceResponse`; a nil `Headers` map is `none`. -/
structure CallResourceResponse where
  Status : Int
  Headers : Option (GoMap (List String)) := none
  Body : String := ""

/-- The calls on the `http.ResponseWriter` that write the response. -/
inductive WriterCall where
  | WriteHeader (status : Int)
  | Write (body : String)
  | Flush
  deriving DecidableEq, Repr

/-- Whether a call on the writer is a call of `WriteHeader`. -/
def WriterCall.isWriteHeader : WriterCall → Bool
  | WriterCall.WriteHeader _ => true
  | _ => false

/-- The outbound `http.ResponseWriter`: its header map `w.Header()`, the calls made on it in
their order, and whether it implements `http.Flusher`. -/
structure ResponseWriter where
  header : GoMap (List String) := []
  calls : List WriterCall := []
  isFlusher : Bool := true

/-- The bytes `textproto` accepts in a header field name: letters, digits and the
punctuation of an HTTP token (given by code point). -/
def validHeaderFieldByte (c : Char) : Bool :=
  c.isAlphanum ||
    [33, 35, 36, 37, 38, 39, 42, 43, 45, 46, 94, 95, 96, 124, 126].contains c.toNat

/-- The canonical form of the bytes of a header field name: upper case for the first
letter and for a letter after a dash, lower case for the others. -/
def canonicalBytes : Bool → List Char → List Char
  | _, [] => []
  | upper, c :: cs =>
    let c := if upper then c.toUpper else c.toLower
    c :: canonicalBytes (decide (c = '-')) cs

/-- The function `textproto.CanonicalMIMEHeaderKey`: a key with a byte that is not valid in
a field name is returned unchanged. -/
def CanonicalMIMEHeaderKey (s : String) : String :=
  if s.data.all validHeaderFieldByte then ⟨canonicalBytes true s.data⟩ else s

/-- The call `w.Header().Add(k, v)`: the value is appended under the canonical key. -/
def headerAdd (header : GoMap (List String)) (k v : String) : GoMap (List String) :=
  let key := CanonicalMIMEHeaderKey k
  mapSet header key ((mapGet header key).getD [] ++ [v])

/-- The header part of the first frame in `flushStream`: make sure the frame has a
`Content-Type`, then add every value of every key of the frame except `Set-Cookie` to the
outbound header; `order` is the order in which the loop visits `resp.Headers`. -/
def forwardHeaders (order : List String → List String) (header : GoMap (List String))
    (headers : GoMap (List String)) : GoMap (List String) :=
  let headers :=
    if (mapGet headers "Content-Type").isSome then headers
    else mapSet headers "Content-Type" ["application/json"]
  (order (mapKeys headers)).foldl
    (fun header k =>
      if k = "Set-Cookie" then header
      else
        match mapGet headers k with
        | none => header
        | some values => values.foldl (fun header v => headerAdd header k v) header)
    header

/-- How the sequence of frames that `stream.Recv()` yields ends: with `io.EOF` or with
another error. -/
inductive RecvEnd where
  | EOF
  | err (msg : String)

/-- The body of the loop of `flushStream` for a received frame: the header part when the
frame is the first and its header map is not nil, then `w.Write(resp.Body)` (an error of
`w.Write` is only logged) and the flush. -/
def flushFrame (order : List String → List String) (processedStreams : Nat)
    (w : ResponseWriter) (resp : CallResourceResponse) : ResponseWriter :=
  let w :=
    match resp.Headers with
    | some headers =>
      if processedStreams = 0 then
        { w with
          header := forwardHeaders order w.header headers
          calls := w.calls ++ [WriterCall.WriteHeader resp.Status] }
      else w
    | none => w
  let w := { w with calls := w.calls ++ [WriterCall.Write resp.Body] }
  if w.isFlusher then { w with calls := w.calls ++ [WriterCall.Flush] } else w

/-- The loop of `flushStream`. `frames` and `ending` are what the successive calls of
`stream.Recv()` return, `closeResult` what `stream.Close()` returns, `processedStreams` the
counter of that name. -/
def flushLoop (order : List String → List String) (closeResult : Option String) :
    Nat → ResponseWriter → List CallResourceResponse → RecvEnd → ResponseWriter × Option String
  | processedStreams, w, [], RecvEnd.EOF =>
    if processedStreams = 0 then (w, some "received empty resource response") else (w, none)
  | processedStreams, w, [], RecvEnd.err msg =>
    if processedStreams = 0 then
      (w, some ("failed to receive response from resource call: " ++ msg))
    else (w, closeResult)
  | processedStreams, w, resp :: rest, ending =>
    flushLoop order closeResult (processedStreams + 1) (flushFrame order processedStreams w resp)
      rest ending

/-- The function `flushStream`. -/
def flushStream (order : List String → List String) (closeResult : Option String)
    (w : ResponseWriter) (frames : List CallResourceResponse) (ending : RecvEnd) :
    ResponseWriter × Option String :=
  flushLoop order closeResult 0 w frames ending

/-! ## Vocabulary of the statements -/

/-- Every `range` loop of a load visits each key of its map exactly once. -/
def OrderOK (env : LoaderEnv) : Prop :=
  ∀ (i : Nat) (keys : List String), (env.rangeOrder i keys).Perm keys

/-- A path element as it occurs in a cleaned path: non-empty, without a separator, and
neither `.` nor `..`. -/
def IsElem (e : String) : Prop :=
  e.data ≠ [] ∧ '/' ∉ e.data ∧ e.data ≠ ['.'] ∧ e.data ≠ ['.', '.']

/-- The cleaned absolute path with the given elements: `/` for none, `/a/b` for `a`, `b`. -/
def absPath (elems : List String) : String := ⟨'/' :: joinSep (elems.map String.data)⟩

instance (e : String) : Decidable (IsElem e) := by
  unfold IsElem
  infer_instance

/-- The map `m'` holds, under the same keys as `m`, records with the descriptors that
the records of `m` have: what the loops of a load that write through record pointers
leave unchanged. -/
def SameDescriptors (m m' : GoMap PluginV2) : Prop :=
  mapKeys m' = mapKeys m ∧
    ∀ k r', mapGet m' k = some r' → ∃ r, mapGet m k = some r ∧ r'.JSONData = r.JSONData

/-- The map `m'` holds, under the same keys as `m`, the records of `m` with at most the
field `Signature` changed: what the loop "validate signatures" leaves unchanged. -/
def SameButSignature (m m' : GoMap PluginV2) : Prop :=
  mapKeys m' = mapKeys m ∧
    ∀ k r', mapGet m' k = some r' →
      ∃ r, mapGet m k = some r ∧ r' = { r with Signature := r'.Signature }

/-- The elements written one after the other, each preceded by a separator: `/a/b` for
`a`, `b`. -/
def sepCat : List (List Char) → List Char
  | [] => []
  | x :: xs => '/' :: x ++ sepCat xs

/-! ## Scenarios -/

/-- A descriptor tree on disk, as the collaborators of the loader present it: the files
below are the descriptors that exist; every signature state is `unsigned` except for
the plugin `parent`, whose manifest is valid; only external plugins require
signatures; every `range` loop visits the keys in the order of the map. -/
def scenarioEnv : LoaderEnv :=
  { find := fun _ => []
    openAndDecode := fun p =>
      if p = "/e/foo/plugin.json" then .ok { ID := "foo", Type_ := "datasource" }
      else if p = "/e/parent/plugin.json" then .ok { ID := "parent", Type_ := "app" }
      else if p = "/e/parent/nested/plugin.json" then .ok { ID := "nested", Type_ := "panel" }
      else if p = "/c/app/plugins/datasource/foo/plugin.json" then
        .ok { ID := "foo", Type_ := "datasource" }
      else .error (LoadError.other "no such file")
    abs := fun p => .ok p
    calculateState := fun p =>
      .ok { Status := if p.ID = "parent" then PluginSignatureValid else PluginSignatureUnsigned }
    fileExists := fun _ => .ok true
    pluginInitializer := fun _ => .ok ()
    requireSigned := fun c => decide (c = PluginClass.External)
    rangeOrder := fun _ keys => keys }

/-- The configuration of the scenarios of the spec: roots `/c`, `/b`, `/e`, production
mode, empty allow-list. -/
def scenarioCfg : Cfg :=
  { StaticRootPath := "/c", BundledPluginsPath := "/b", PluginsPath := "/e" }

/-- The record of the plugin `foo` of scenario S2, as the loader builds it. -/
def fooRecord : PluginV2 :=
  { JSONData := { ID := "foo", Type_ := "datasource" }, PluginDir := "/e/foo",
    Class := PluginClass.External, Signature := PluginSignatureUnsigned }

/-- The record of the plugin `parent` of scenario S3 when it is loaded alone. -/
def parentRecord : PluginV2 :=
  { JSONData := { ID := "parent", Type_ := "app" }, PluginDir := "/e/parent",
    Class := PluginClass.External, Signature := PluginSignatureValid }

/-- A record with the given directory and no parent. -/
def recordAt (id dir : String) : PluginV2 :=
  { JSONData := { ID := id, Type_ := "panel" }, PluginDir := dir,
    Class := PluginClass.External, Signature := PluginSignatureUnsigned }

/-- The map `loadedPlugins` for plugins at `/a`, `/a/b` and `/a/b/c`. -/
def nestedPlugins : GoMap PluginV2 :=
  [("/a", recordAt "a" "/a"), ("/a/b", recordAt "b" "/a/b"), ("/a/b/c", recordAt "c" "/a/b/c")]

/-- A renderer record whose decommissioned flag is set. -/
def decommissionedRenderer : PluginV2 :=
  { JSONData := { ID := "r", Type_ := "renderer" }, PluginDir := "/e/r",
    Class := PluginClass.External, Signature := PluginSignatureValid, decommissioned := true }

/-- The configuration under which the plugin of `escapedRegistry` was loaded: the external
root is `/e`. -/
def rootAtLoad : Cfg := { PluginsPath := "/e" }

/-- The record of a plugin at `/e` with the class that the classifier gives the directory
under `rootAtLoad`. -/
def escapedRecord : PluginV2 := { recordAt "x" "/e" with Class := pluginClass rootAtLoad "/e" }

/-- A registry that holds a plugin at `/e`, classified when the external root was `/e`
(`rootAtLoad`), while the `Cfg` of the manager names `/e/plugins` as the external root: the
plugin directory is the parent directory of the external root. -/
def escapedRegistry : PluginManagerV2 :=
  { Cfg := { PluginsPath := "/e/plugins" }, plugins := [("x", escapedRecord)] }

/-- Collaborators of `Uninstall` that never fail. -/
def quietEnv : ManagerEnv :=
  { Decommission := fun _ => none, Stop := fun _ => none, installerUninstall := fun _ => none }

/-- The frame of scenario S5: status 200, an empty header map, body `x`. -/
def frameS5 : CallResourceResponse := { Status := 200, Headers := some [], Body := "x" }

/-- A first frame whose header map has a cookie under the key `set-cookie`. -/
def cookieFrame : CallResourceResponse :=
  { Status := 200, Headers := some [("set-cookie", ["session=1"])], Body := "x" }

/-- The map `loadedPlugins` for plugins at the filesystem root `/` and at `/a`. -/
def rootPlugins : GoMap PluginV2 :=
  [("/", recordAt "root" "/"), ("/a", recordAt "a" "/a")]

/-- The records that a load of scenario S3 returns: the plugin `parent` with the nested
plugin in its children list, and the nested plugin with its parent pointer and the
inherited state `valid`. -/
def scenarioS3 : List PluginV2 :=
  [{ parentRecord with Children := ["/e/parent/nested"] },
    { JSONData := { ID := "nested", Type_ := "panel" }, PluginDir := "/e/parent/nested",
      Class := PluginClass.External, Signature := PluginSignatureValid,
      Parent := some "/e/parent" }]


/-! # Theorems -/

/-! ## Signature validator -/

theorem validateSwitch_plugin (s : PluginSignatureValidator) (plugin : PluginV2) :
    (s.validateSwitch plugin).plugin = plugin := by
  unfold PluginSignatureValidator.validateSwitch
  split_ifs <;> rfl

theorem validateSwitch_not_required (s : PluginSignatureValidator) (plugin : PluginV2)
    (h : s.requireSigned = false) : (s.validateSwitch plugin).err = none := by
  unfold PluginSignatureValidator.validateSwitch
  simp [h]

/-- When `validate` reaches the switch, the record it leaves behind is the one the switch
saw; otherwise the record left behind has a valid signature. -/
theorem validate_cases (s : PluginSignatureValidator) (plugin : PluginV2)
    (parent : Option PluginV2) :
    ((s.validate plugin parent).plugin.Signature = PluginSignatureValid ∧
        (s.validate plugin parent).err = none) ∨
      s.validate plugin parent = s.validateSwitch (s.validate plugin parent).plugin := by
  unfold PluginSignatureValidator.validate
  by_cases h1 : plugin.Signature = PluginSignatureValid
  · left; simp [h1]
  · cases parent with
    | none => right; simp [h1, validateSwitch_plugin]
    | some root =>
      by_cases h2 : (plugin.IsCorePlugin || decide (plugin.Signature = PluginSignatureInternal)) = true
      · right; simp only [h1, h2, if_true, if_false, validateSwitch_plugin]
      · by_cases h3 : root.Signature = PluginSignatureValid
        · left; simp only [h1, h2, h3, if_true, if_false]; simp
        · right
          simp only [h1, h2, h3, if_true, if_false]
          simp [validateSwitch_plugin]

/-- Claim C2, as stated, fails: a validator in development mode with an injected condition
that answers false rejects an unsigned record with `signature-missing`, although the host
runs in development mode. -/
theorem C2_counterexample :
    let s := newSignatureValidator { Env := Dev } true (some (fun _ => false))
    let p : PluginV2 :=
      { JSONData := { ID := "foo", Type_ := "datasource" }, PluginDir := "/e/foo",
        Class := PluginClass.External, Signature := PluginSignatureUnsigned }
    s.requireSigned = true ∧ s.cfg.Env = Dev ∧
      (s.validate p none).plugin.Signature = PluginSignatureUnsigned ∧
      (s.validate p none).err = some { ErrorCode := ErrorCode.signatureMissing } := by
  decide

/-- Claim C2, amended: for a validator that requires signatures and a record whose
(possibly inherited) signature state is unsigned, `validate` admits the record iff the
injected condition, when there is one, returns true for the record, or, when there is
none, the host runs in development mode or the plugin ID is on the unsigned allow-list;
in every other case the error code is `signature-missing`. -/
theorem C2_unsigned_policy (s : PluginSignatureValidator) (plugin : PluginV2)
    (parent : Option PluginV2) (hreq : s.requireSigned = true)
    (hstate : (s.validate plugin parent).plugin.Signature = PluginSignatureUnsigned) :
    ((s.validate plugin parent).err = none ↔
        match s.allowUnsignedPluginsCondition with
        | some cond => cond (s.validate plugin parent).plugin = true
        | none => s.cfg.Env = Dev ∨ plugin.ID ∈ s.cfg.PluginsAllowUnsigned) ∧
      ((s.validate plugin parent).err ≠ none →
        (s.validate plugin parent).err = some { ErrorCode := ErrorCode.signatureMissing }) := by
  have hid : (s.validate plugin parent).plugin.ID = plugin.ID := by
    unfold PluginSignatureValidator.validate
    by_cases h1 : plugin.Signature = PluginSignatureValid
    · simp [h1]
    · cases parent with
      | none => simp [h1, validateSwitch_plugin]
      | some root =>
        simp only [h1, if_false]
        split_ifs <;> simp [validateSwitch_plugin, PluginV2.ID]
  rcases validate_cases s plugin parent with ⟨hv, _⟩ | hsw
  · rw [hv] at hstate; exact absurd hstate (by decide)
  · generalize s.validate plugin parent = r at hstate hsw hid ⊢
    generalize r.plugin = q at hstate hsw hid
    subst hsw
    unfold PluginSignatureValidator.validateSwitch PluginSignatureValidator.allowUnsigned
    simp only [hreq, hstate]
    cases hc : s.allowUnsignedPluginsCondition with
    | some cond =>
      cases hq : cond q <;> simp [hq]
    | none =>
      by_cases hdev : s.cfg.Env = Dev
      · simp [hdev]
      · cases hany : s.cfg.PluginsAllowUnsigned.any (fun plug => decide (plug = q.ID))
        · have : plugin.ID ∉ s.cfg.PluginsAllowUnsigned := by
            intro hmem
            have := List.any_eq_true.mpr
              (show ∃ x, x ∈ s.cfg.PluginsAllowUnsigned ∧ decide (x = q.ID) = true from
                ⟨plugin.ID, hmem, decide_eq_true hid.symm⟩)
            rw [hany] at this; exact absurd this (by decide)
          simp [hdev, this, hany]
        · have : plugin.ID ∈ s.cfg.PluginsAllowUnsigned := by
            obtain ⟨x, hx, hxe⟩ := List.any_eq_true.mp hany
            have : x = q.ID := by simpa using hxe
            rw [← hid, ← this]; exact hx
          simp [hdev, this, hany]

/-- The amended claim C2 at the record of scenario S2 with `foo` on the allow-list. -/
theorem C2_unsigned_policy_witness :
    let s := newSignatureValidator { PluginsAllowUnsigned := ["foo"] } true none
    let p : PluginV2 :=
      { JSONData := { ID := "foo", Type_ := "datasource" }, PluginDir := "/e/foo",
        Class := PluginClass.External, Signature := PluginSignatureUnsigned }
    s.requireSigned = true ∧
      (s.validate p none).plugin.Signature = PluginSignatureUnsigned ∧
      ((s.validate p none).err = none ↔
        match s.allowUnsignedPluginsCondition with
        | some cond => cond (s.validate p none).plugin = true
        | none => s.cfg.Env = Dev ∨ p.ID ∈ s.cfg.PluginsAllowUnsigned) ∧
      ((s.validate p none).err ≠ none →
        (s.validate p none).err = some { ErrorCode := ErrorCode.signatureMissing }) :=
  ⟨by decide, by decide,
    C2_unsigned_policy (newSignatureValidator { PluginsAllowUnsigned := ["foo"] } true none)
      { JSONData := { ID := "foo", Type_ := "datasource" }, PluginDir := "/e/foo",
        Class := PluginClass.External, Signature := PluginSignatureUnsigned }
      none (by decide) (by decide)⟩

/-- Claim C3: `validate` returns no error when the record's own signature state is valid;
and when the record has a parent, is not a core plugin, its own state is not internal and
the parent's state is valid, `validate` returns no error and leaves the record with the
state valid. Neither case depends on `requireSigned` or on the unsigned policy. -/
theorem C3_valid_or_inherited_valid (s : PluginSignatureValidator) (plugin : PluginV2) :
    (∀ parent : Option PluginV2, plugin.Signature = PluginSignatureValid →
        (s.validate plugin parent).err = none) ∧
      (∀ root : PluginV2, plugin.IsCorePlugin = false →
        plugin.Signature ≠ PluginSignatureInternal →
        root.Signature = PluginSignatureValid →
        (s.validate plugin (some root)).err = none ∧
          (s.validate plugin (some root)).plugin.Signature = PluginSignatureValid) := by
  refine ⟨?_, ?_⟩
  · intro parent h
    simp [PluginSignatureValidator.validate, h]
  · intro root hcore hint hroot
    unfold PluginSignatureValidator.validate
    by_cases h1 : plugin.Signature = PluginSignatureValid
    · simp [h1]
    · simp [h1, hcore, hint, hroot]

/-- Claim C3 at scenario S3: an unsigned nested record under a parent with a valid
signature, and the parent itself. -/
theorem C3_valid_or_inherited_valid_witness :
    let s := newSignatureValidator {} true none
    let parent : PluginV2 :=
      { JSONData := { ID := "parent", Type_ := "app" }, PluginDir := "/e/parent",
        Class := PluginClass.External, Signature := PluginSignatureValid }
    let nested : PluginV2 :=
      { JSONData := { ID := "nested", Type_ := "panel" }, PluginDir := "/e/parent/nested",
        Class := PluginClass.External, Signature := PluginSignatureUnsigned,
        Parent := some "/e/parent" }
    (parent.Signature = PluginSignatureValid ∧ (s.validate parent none).err = none) ∧
      (nested.IsCorePlugin = false ∧ nested.Signature ≠ PluginSignatureInternal ∧
        parent.Signature = PluginSignatureValid ∧
        (s.validate nested (some parent)).err = none ∧
        (s.validate nested (some parent)).plugin.Signature = PluginSignatureValid) :=
  ⟨⟨by decide,
      (C3_valid_or_inherited_valid (newSignatureValidator {} true none)
        { JSONData := { ID := "parent", Type_ := "app" }, PluginDir := "/e/parent",
          Class := PluginClass.External, Signature := PluginSignatureValid }).1 none
        (by decide)⟩,
    by decide, by decide, by decide,
    (C3_valid_or_inherited_valid (newSignatureValidator {} true none)
      { JSONData := { ID := "nested", Type_ := "panel" }, PluginDir := "/e/parent/nested",
        Class := PluginClass.External, Signature := PluginSignatureUnsigned,
        Parent := some "/e/parent" }).2
      { JSONData := { ID := "parent", Type_ := "app" }, PluginDir := "/e/parent",
        Class := PluginClass.External, Signature := PluginSignatureValid }
      (by decide) (by decide) (by decide)⟩

/-- Claim C4: for a validator that requires signatures and a record whose (possibly
inherited) signature state is neither valid nor unsigned, `validate` returns an error whose
code depends on that state alone: `signature-invalid` for invalid, `signature-modified` for
modified, `signature-invalid` for every other state (internal and unrecognised values
included). -/
theorem C4_error_code_by_state (s : PluginSignatureValidator) (plugin : PluginV2)
    (parent : Option PluginV2) (hreq : s.requireSigned = true)
    (hvalid : (s.validate plugin parent).plugin.Signature ≠ PluginSignatureValid)
    (hunsigned : (s.validate plugin parent).plugin.Signature ≠ PluginSignatureUnsigned) :
    (s.validate plugin parent).err =
      some { ErrorCode :=
        if (s.validate plugin parent).plugin.Signature = PluginSignatureInvalid then
          ErrorCode.signatureInvalid
        else if (s.validate plugin parent).plugin.Signature = PluginSignatureModified then
          ErrorCode.signatureModified
        else ErrorCode.signatureInvalid } := by
  rcases validate_cases s plugin parent with ⟨hv, _⟩ | hsw
  · exact absurd hv hvalid
  · generalize s.validate plugin parent = r at hvalid hunsigned hsw ⊢
    generalize r.plugin = q at hvalid hunsigned hsw
    subst hsw
    unfold PluginSignatureValidator.validateSwitch
    simp only [hreq, hunsigned]
    by_cases hi : q.Signature = PluginSignatureInvalid
    · simp [hi]
    · by_cases hm : q.Signature = PluginSignatureModified
      · simp only [if_neg hi, if_pos hm]; simp
      · simp only [if_neg hi, if_neg hm]; simp

/-- Claim C4 at an external record without a parent whose state is modified. -/
theorem C4_error_code_by_state_witness :
    let s := newSignatureValidator {} true none
    let modified : PluginV2 :=
      { JSONData := { ID := "m", Type_ := "panel" }, PluginDir := "/e/m",
        Class := PluginClass.External, Signature := PluginSignatureModified }
    s.requireSigned = true ∧
      (s.validate modified none).plugin.Signature ≠ PluginSignatureValid ∧
      (s.validate modified none).plugin.Signature ≠ PluginSignatureUnsigned ∧
      (s.validate modified none).err =
        some { ErrorCode :=
          if (s.validate modified none).plugin.Signature = PluginSignatureInvalid then
            ErrorCode.signatureInvalid
          else if (s.validate modified none).plugin.Signature = PluginSignatureModified then
            ErrorCode.signatureModified
          else ErrorCode.signatureInvalid } ∧
      (s.validate modified none).err = some { ErrorCode := ErrorCode.signatureModified } :=
  ⟨by decide, by decide, by decide,
    C4_error_code_by_state (newSignatureValidator {} true none)
      { JSONData := { ID := "m", Type_ := "panel" }, PluginDir := "/e/m",
        Class := PluginClass.External, Signature := PluginSignatureModified }
      none (by decide) (by decide) (by decide),
    by decide⟩

/-- Claim C5: a validator built by `newSignatureValidator` for a trust class that does not
require signatures returns no error, for every record, every signature state of the record
and every parent. -/
theorem C5_not_required_admits (cfg : Cfg) (unsignedCond : Option (PluginV2 → Bool))
    (plugin : PluginV2) (parent : Option PluginV2) :
    ((newSignatureValidator cfg false unsignedCond).validate plugin parent).err = none := by
  rcases validate_cases (newSignatureValidator cfg false unsignedCond) plugin parent with
    ⟨_, he⟩ | hsw
  · exact he
  · rw [hsw]
    exact validateSwitch_not_required _ _ rfl

/-! ## Loader and registry at concrete inputs -/

set_option maxRecDepth 100000 in
/-- Claim C1 is violated by the code: in scenario S2 the validator rejects `foo` (the error is
stored under its ID), and `loadPlugins` returns the record of `foo` all the same. The
method `LoadAll` of package `manager` returns it too. -/
theorem C1_rejected_record_is_returned :
    (validateAt scenarioCfg scenarioEnv none [("/e/foo", fooRecord)] fooRecord).err =
        some { ErrorCode := ErrorCode.signatureMissing } ∧
      (({ cfg := scenarioCfg } : loader.Loader).loadPlugins scenarioEnv
          ["/e/foo/plugin.json"] []).1.Errors =
        [("foo", { ErrorCode := ErrorCode.signatureMissing })] ∧
      (({ cfg := scenarioCfg } : loader.Loader).loadPlugins scenarioEnv
          ["/e/foo/plugin.json"] []).2 = .ok [fooRecord] ∧
      ({ Cfg := scenarioCfg } : Loader).LoadAll scenarioEnv ["/e/foo/plugin.json"] =
        .ok [fooRecord] := by
  refine ⟨by decide, by decide, rfl, rfl⟩

/-- Claim C7 is violated by the code: with a decommissioned renderer in the registry, `Plugins()`
and `Renderer()` return the decommissioned record, while `Plugin` does not. -/
theorem C7_decommissioned_record_is_returned :
    let m : PluginManagerV2 := { Cfg := scenarioCfg, plugins := [("r", decommissionedRenderer)] }
    decommissionedRenderer.IsDecommissioned = true ∧
      m.Plugins id [] = [decommissionedRenderer] ∧
      m.Plugins id ["renderer"] = [decommissionedRenderer] ∧
      m.Renderer id = some decommissionedRenderer ∧
      m.Plugin "r" = none := by
  decide

/-- Claim C6, as stated, fails: with loaded plugins at `/a`, `/a/b` and `/a/b/c`, the
dependency loop makes `/a` the parent of `/a/b/c`, not `/a/b`. -/
theorem C6_counterexample :
    (mapGet (linkDependencies ["/a", "/a/b", "/a/b/c"] nestedPlugins) "/a/b/c").map
        (fun p => p.Parent) = some (some "/a") ∧
      (mapGet nestedPlugins "/a/b").isSome = true := by
  decide

/-! ## Go maps -/

theorem mapGet_mem {α : Type} (m : GoMap α) (k : String) (v : α) (h : mapGet m k = some v) :
    (k, v) ∈ m := by
  induction m with
  | nil => simp [mapGet] at h
  | cons e m ih =>
    obtain ⟨k', v'⟩ := e
    unfold mapGet at h
    by_cases hk : k' = k
    · simp only [hk, if_true, Option.some.injEq] at h
      subst hk; subst h; exact List.mem_cons_self _ _
    · simp only [hk, if_false] at h
      exact List.mem_cons_of_mem _ (ih h)

theorem mapGet_isSome_iff {α : Type} (m : GoMap α) (k : String) :
    (mapGet m k).isSome = true ↔ k ∈ mapKeys m := by
  induction m with
  | nil => simp [mapGet, mapKeys]
  | cons e m ih =>
    obtain ⟨k', v'⟩ := e
    unfold mapGet
    by_cases hk : k' = k
    · simp [hk, mapKeys]
    · simp only [hk, if_false, ih]
      simp only [mapKeys, List.map_cons, List.mem_cons]
      constructor
      · intro h; exact Or.inr h
      · rintro (h | h)
        · exact absurd h.symm hk
        · exact h

theorem mapGet_eq_none_iff {α : Type} (m : GoMap α) (k : String) :
    mapGet m k = none ↔ k ∉ mapKeys m := by
  rw [← mapGet_isSome_iff]
  cases mapGet m k <;> simp

theorem mapGet_of_mem {α : Type} (m : GoMap α) (k : String) (v : α)
    (hnd : (mapKeys m).Nodup) (h : (k, v) ∈ m) : mapGet m k = some v := by
  induction m with
  | nil => simp at h
  | cons e m ih =>
    obtain ⟨k', v'⟩ := e
    simp only [mapKeys, List.map_cons, List.nodup_cons] at hnd
    unfold mapGet
    rcases List.mem_cons.mp h with h | h
    · injection h with h1 h2; subst h1; subst h2; simp
    · have hk : k' ≠ k := by
        intro hk; subst hk
        exact hnd.1 (List.mem_map.mpr ⟨(k', v), h, rfl⟩)
      simp only [hk, if_false]
      exact ih hnd.2 h

theorem mapKeys_mapModify {α : Type} (m : GoMap α) (k : String) (f : α → α) :
    mapKeys (mapModify m k f) = mapKeys m := by
  induction m with
  | nil => rfl
  | cons e m ih =>
    obtain ⟨k', v'⟩ := e
    unfold mapModify
    by_cases hk : k' = k
    · simp [hk, mapKeys]
    · simp only [hk, if_false]
      simp only [mapKeys, List.map_cons] at ih ⊢
      rw [ih]

theorem mapGet_mapModify {α : Type} (m : GoMap α) (k k' : String) (f : α → α) :
    mapGet (mapModify m k f) k' = if k = k' then (mapGet m k').map f else mapGet m k' := by
  induction m with
  | nil => simp [mapGet, mapModify]
  | cons e m ih =>
    obtain ⟨k0, v0⟩ := e
    unfold mapModify
    by_cases h0 : k0 = k
    · subst h0
      by_cases h1 : k0 = k'
      · simp [mapGet, h1]
      · simp [mapGet, h1]
    · simp only [h0, if_false]
      unfold mapGet
      by_cases h1 : k0 = k'
      · subst h1
        have : ¬ k = k0 := fun h => h0 h.symm
        simp [this]
      · simp only [h1, if_false]
        exact ih

theorem mem_mapModify {α : Type} (m : GoMap α) (k : String) (f : α → α) (e : String × α)
    (h : e ∈ mapModify m k f) : ∃ v, (e.1, v) ∈ m ∧ (e.2 = v ∨ e.2 = f v) := by
  induction m with
  | nil => simp [mapModify] at h
  | cons e0 m ih =>
    obtain ⟨k0, v0⟩ := e0
    unfold mapModify at h
    by_cases h0 : k0 = k
    · simp only [h0, if_true] at h
      rcases List.mem_cons.mp h with h | h
      · subst h; exact ⟨v0, by simp [h0], Or.inr rfl⟩
      · exact ⟨e.2, List.mem_cons_of_mem _ h, Or.inl rfl⟩
    · simp only [h0, if_false] at h
      rcases List.mem_cons.mp h with h | h
      · subst h; exact ⟨v0, List.mem_cons_self _ _, Or.inl rfl⟩
      · obtain ⟨v, hv, hor⟩ := ih h
        exact ⟨v, List.mem_cons_of_mem _ hv, hor⟩

theorem mapGet_mapSet {α : Type} (m : GoMap α) (k k' : String) (v : α) :
    mapGet (mapSet m k v) k' = if k = k' then some v else mapGet m k' := by
  induction m with
  | nil => simp [mapGet, mapSet]
  | cons e m ih =>
    obtain ⟨k0, v0⟩ := e
    unfold mapSet
    by_cases h0 : k0 = k
    · subst h0
      by_cases h1 : k0 = k' <;> simp [mapGet, h1]
    · simp only [h0, if_false]
      unfold mapGet
      by_cases h1 : k0 = k'
      · subst h1
        have : ¬ k = k0 := fun h => h0 h.symm
        simp [this]
      · simp only [h1, if_false]
        exact ih

theorem mem_mapKeys_mapSet {α : Type} (m : GoMap α) (k k' : String) (v : α) :
    k' ∈ mapKeys (mapSet m k v) ↔ k' = k ∨ k' ∈ mapKeys m := by
  rw [← mapGet_isSome_iff, ← mapGet_isSome_iff, mapGet_mapSet]
  by_cases h : k = k'
  · simp [h]
  · have : ¬ k' = k := fun h' => h h'.symm
    simp [h, this]

theorem nodup_mapKeys_mapSet {α : Type} (m : GoMap α) (k : String) (v : α)
    (hnd : (mapKeys m).Nodup) : (mapKeys (mapSet m k v)).Nodup := by
  induction m with
  | nil => simp [mapSet, mapKeys]
  | cons e m ih =>
    obtain ⟨k0, v0⟩ := e
    have hnd' : k0 ∉ mapKeys m ∧ (mapKeys m).Nodup := by
      simpa [mapKeys] using hnd
    unfold mapSet
    by_cases h0 : k0 = k
    · subst h0
      simpa [mapKeys] using hnd
    · simp only [h0, if_false]
      have h1 : k0 ∉ mapKeys (mapSet m k v) := by
        rw [mem_mapKeys_mapSet]
        rintro (h | h)
        · exact h0 h
        · exact hnd'.1 h
      have h2 := ih hnd'.2
      simp only [mapKeys, List.map_cons, List.nodup_cons] at h1 h2 ⊢
      exact ⟨h1, h2⟩

theorem mem_mapSet {α : Type} (m : GoMap α) (k : String) (v : α) (e : String × α)
    (h : e ∈ mapSet m k v) : e = (k, v) ∨ e ∈ m := by
  induction m with
  | nil =>
    simp only [mapSet, List.mem_singleton] at h
    exact Or.inl h
  | cons e0 m ih =>
    obtain ⟨k0, v0⟩ := e0
    unfold mapSet at h
    by_cases h0 : k0 = k
    · simp only [h0, if_true] at h
      rcases List.mem_cons.mp h with h | h
      · exact Or.inl h
      · exact Or.inr (List.mem_cons_of_mem _ h)
    · simp only [h0, if_false] at h
      rcases List.mem_cons.mp h with h | h
      · exact Or.inr (h ▸ List.mem_cons_self _ _)
      · rcases ih h with h | h
        · exact Or.inl h
        · exact Or.inr (List.mem_cons_of_mem _ h)

theorem mapDelete_eq_filter {α : Type} (m : GoMap α) (k : String) :
    mapDelete m k = m.filter (fun e => decide (e.1 ≠ k)) := by
  induction m with
  | nil => rfl
  | cons e m ih =>
    obtain ⟨k0, v0⟩ := e
    unfold mapDelete
    by_cases h0 : k0 = k
    · simp [h0, ih]
    · simp [h0, ih]

theorem mapGet_mapDelete_ne {α : Type} (m : GoMap α) (k k' : String) (h : k ≠ k') :
    mapGet (mapDelete m k) k' = mapGet m k' := by
  induction m with
  | nil => rfl
  | cons e m ih =>
    obtain ⟨k0, v0⟩ := e
    unfold mapDelete
    by_cases h0 : k0 = k
    · subst h0
      simp only [if_true, ih]
      simp [mapGet, h]
    · simp only [h0, if_false]
      unfold mapGet
      by_cases h1 : k0 = k'
      · simp [h1]
      · simp only [h1, if_false]; exact ih

theorem entry_unique {α : Type} (m : GoMap α) (hnd : (mapKeys m).Nodup) (e1 e2 : String × α)
    (h1 : e1 ∈ m) (h2 : e2 ∈ m) (hk : e1.1 = e2.1) : e1 = e2 :=
  List.inj_on_of_nodup_map hnd h1 h2 hk

/-! ## Paths -/

theorem splitSep_slash (cs : List Char) : splitSep ('/' :: cs) = [] :: splitSep cs := by
  rw [splitSep]; simp

theorem splitSep_ne (c : Char) (cs w : List Char) (ws : List (List Char)) (hc : c ≠ '/')
    (hs : splitSep cs = w :: ws) : splitSep (c :: cs) = (c :: w) :: ws := by
  rw [splitSep]; simp [hc, hs]

theorem splitSep_append_sepCat (xs : List (List Char)) :
    ∀ w : List Char, '/' ∉ w → (∀ x ∈ xs, '/' ∉ x) → splitSep (w ++ sepCat xs) = w :: xs := by
  induction xs with
  | nil =>
    intro w hw _
    induction w with
    | nil => rfl
    | cons c w ihw =>
      have hc : c ≠ '/' := fun h => hw (h ▸ List.mem_cons_self _ _)
      have hw' : '/' ∉ w := fun h => hw (List.mem_cons_of_mem _ h)
      exact splitSep_ne c _ _ _ hc (ihw hw')
  | cons x xs ih =>
    intro w hw hxs
    have hx : '/' ∉ x := hxs x (List.mem_cons_self _ _)
    have hxs' : ∀ y ∈ xs, '/' ∉ y := fun y hy => hxs y (List.mem_cons_of_mem _ hy)
    induction w with
    | nil =>
      show splitSep ('/' :: (x ++ sepCat xs)) = [] :: x :: xs
      rw [splitSep_slash, ih x hx hxs']
    | cons c w ihw =>
      have hc : c ≠ '/' := fun h => hw (h ▸ List.mem_cons_self _ _)
      have hw' : '/' ∉ w := fun h => hw (List.mem_cons_of_mem _ h)
      exact splitSep_ne c _ _ _ hc (ihw hw')

theorem cons_joinSep (xs : List (List Char)) (h : xs ≠ []) : '/' :: joinSep xs = sepCat xs := by
  induction xs with
  | nil => exact absurd rfl h
  | cons x xs ih =>
    cases xs with
    | nil => simp [joinSep, sepCat]
    | cons y ys =>
      have := ih (by simp)
      show '/' :: (x ++ '/' :: joinSep (y :: ys)) = '/' :: x ++ sepCat (y :: ys)
      rw [this]; rfl

theorem sepCat_append (xs ys : List (List Char)) : sepCat (xs ++ ys) = sepCat xs ++ sepCat ys := by
  induction xs with
  | nil => rfl
  | cons x xs ih => simp [sepCat, ih]

theorem foldl_cleanStep (rooted : Bool) (xs : List (List Char)) :
    ∀ acc : List (List Char), (∀ x ∈ xs, x ≠ [] ∧ x ≠ ['.'] ∧ x ≠ ['.', '.']) →
      xs.foldl (cleanStep rooted) acc = xs.reverse ++ acc := by
  induction xs with
  | nil => intro acc _; rfl
  | cons x xs ih =>
    intro acc h
    have hx := h x (List.mem_cons_self _ _)
    have hstep : cleanStep rooted acc x = x :: acc := by
      unfold cleanStep
      simp [hx.1, hx.2.1, hx.2.2]
    rw [List.foldl_cons, hstep, ih _ (fun y hy => h y (List.mem_cons_of_mem _ hy))]
    simp

theorem cleanChars_slash (cs : List Char) :
    cleanChars ('/' :: cs) =
      '/' :: joinSep ((splitSep ('/' :: cs)).foldl (cleanStep true) []).reverse := by
  simp [cleanChars]

theorem cleanStep_nil (rooted : Bool) (out : List (List Char)) : cleanStep rooted out [] = out := by
  simp [cleanStep]

/-- Cleaning a rooted path made of separators and proper elements, possibly with a doubled
separator at the front, gives the path of the elements. -/
theorem cleanChars_rooted (xs : List (List Char)) (hne : xs ≠ [])
    (hx : ∀ x ∈ xs, '/' ∉ x ∧ x ≠ [] ∧ x ≠ ['.'] ∧ x ≠ ['.', '.']) :
    cleanChars (sepCat xs) = '/' :: joinSep xs ∧
      cleanChars ('/' :: sepCat xs) = '/' :: joinSep xs := by
  have hgood : ∀ x ∈ xs, x ≠ [] ∧ x ≠ ['.'] ∧ x ≠ ['.', '.'] := fun x h => (hx x h).2
  have hslash : ∀ x ∈ xs, '/' ∉ x := fun x h => (hx x h).1
  have hsplit : splitSep (sepCat xs) = [] :: xs := by
    have := splitSep_append_sepCat xs [] (by simp) hslash
    simpa using this
  have hfold : xs.foldl (cleanStep true) [] = xs.reverse := by
    rw [foldl_cleanStep true xs [] hgood]; simp
  constructor
  · obtain ⟨x, xs', rfl⟩ := List.exists_cons_of_ne_nil hne
    show cleanChars ('/' :: (x ++ sepCat xs')) = _
    rw [cleanChars_slash]
    have : splitSep ('/' :: (x ++ sepCat xs')) = [] :: x :: xs' := hsplit
    rw [this, List.foldl_cons, cleanStep_nil, hfold, List.reverse_reverse]
  · rw [cleanChars_slash, splitSep_slash, hsplit, List.foldl_cons, cleanStep_nil,
      List.foldl_cons, cleanStep_nil, hfold, List.reverse_reverse]

theorem isElem_data (e : String) (h : IsElem e) :
    '/' ∉ e.data ∧ e.data ≠ [] ∧ e.data ≠ ['.'] ∧ e.data ≠ ['.', '.'] :=
  ⟨h.2.1, h.1, h.2.2.1, h.2.2.2⟩

/-- Extending a cleaned absolute path by one element with `filepath.Join`. -/
theorem Join_absPath (pre : List String) (e : String) (hpre : ∀ x ∈ pre, IsElem x)
    (he : IsElem e) : Join (absPath pre) e = absPath (pre ++ [e]) := by
  have hne : absPath pre ≠ "" := by
    intro h
    have := congrArg String.data h
    simp [absPath] at this
  unfold Join
  rw [if_pos hne]
  have hall : ∀ x ∈ (pre ++ [e]).map String.data,
      '/' ∉ x ∧ x ≠ [] ∧ x ≠ ['.'] ∧ x ≠ ['.', '.'] := by
    intro x hx
    obtain ⟨y, hy, rfl⟩ := List.mem_map.mp hx
    rcases List.mem_append.mp hy with hy | hy
    · exact isElem_data y (hpre y hy)
    · rw [List.mem_singleton] at hy; subst hy; exact isElem_data y he
  have hnil : (pre ++ [e]).map String.data ≠ [] := by simp
  have hc := cleanChars_rooted _ hnil hall
  unfold Clean absPath
  congr 1
  show cleanChars (('/' :: joinSep (pre.map String.data)) ++ ['/'] ++ e.data) = _
  cases pre with
  | nil =>
    simp only [List.map_nil, joinSep, List.nil_append, List.map_cons] at hc ⊢
    have := hc.2
    simp only [sepCat, List.append_nil] at this
    simpa using this
  | cons p ps =>
    have h1 := cons_joinSep ((p :: ps).map String.data) (by simp)
    rw [h1]
    have h2 : sepCat ((p :: ps).map String.data) ++ ['/'] ++ e.data =
        sepCat (((p :: ps) ++ [e]).map String.data) := by
      rw [List.map_append, sepCat_append]
      simp [sepCat]
    rw [h2]
    exact hc.1

theorem Split_absPath (elems : List String) (hne : elems ≠ []) (h : ∀ x ∈ elems, IsElem x) :
    Split (absPath elems) = "" :: elems := by
  unfold Split absPath
  show (splitSep ('/' :: joinSep (elems.map String.data))).map String.mk = _
  rw [cons_joinSep _ (by simpa using hne)]
  have := splitSep_append_sepCat (elems.map String.data) [] (by simp)
    (by
      intro x hx
      obtain ⟨y, hy, rfl⟩ := List.mem_map.mp hx
      exact (h y hy).2.1)
  simp only [List.nil_append] at this
  rw [this]
  simp only [List.map_cons, List.map_map]
  congr 1
  conv_rhs => rw [← List.map_id elems]
  apply List.map_congr_left
  intro a _
  rfl

theorem IsAbs_absPath (elems : List String) : IsAbs (absPath elems) = true := by
  simp [IsAbs, absPath]

/-! ## Dependency loop -/

theorem walkAncestors_absPath (loaded : GoMap PluginV2) (rest : List String) :
    ∀ pre : List String, (∀ x ∈ pre, IsElem x) → (∀ x ∈ rest, IsElem x) → ∀ p : String,
      (walkAncestors loaded (absPath pre) rest = some p ↔
        ∃ i, i < rest.length ∧ p = absPath (pre ++ rest.take (i + 1)) ∧ p ∈ mapKeys loaded ∧
          ∀ j, j < i → absPath (pre ++ rest.take (j + 1)) ∉ mapKeys loaded) := by
  induction rest with
  | nil =>
    intro pre _ _ p
    simp [walkAncestors]
  | cons e rest ih =>
    intro pre hpre hrest p
    have he : IsElem e := hrest e (List.mem_cons_self _ _)
    have hrest' : ∀ x ∈ rest, IsElem x := fun x hx => hrest x (List.mem_cons_of_mem _ hx)
    have hpre' : ∀ x ∈ pre ++ [e], IsElem x := by
      intro x hx
      rcases List.mem_append.mp hx with hx | hx
      · exact hpre x hx
      · rw [List.mem_singleton] at hx; subst hx; exact he
    unfold walkAncestors
    simp only [Join_absPath pre e hpre he]
    by_cases hmem : absPath (pre ++ [e]) ∈ mapKeys loaded
    · have hs : (mapGet loaded (absPath (pre ++ [e]))).isSome = true :=
        (mapGet_isSome_iff _ _).mpr hmem
      rw [if_pos hs]
      constructor
      · intro h
        injection h with h
        subst h
        exact ⟨0, by simp, by simp, hmem, fun j hj => absurd hj (Nat.not_lt_zero j)⟩
      · rintro ⟨i, _, hp, _, hlt⟩
        cases i with
        | zero => simp at hp; rw [hp]
        | succ i =>
          have := hlt 0 (Nat.succ_pos i)
          simp at this
          exact absurd hmem this
    · have hs : ¬ (mapGet loaded (absPath (pre ++ [e]))).isSome = true := fun h =>
        hmem ((mapGet_isSome_iff _ _).mp h)
      rw [if_neg hs]
      rw [ih (pre ++ [e]) hpre' hrest' p]
      constructor
      · rintro ⟨i, hi, hp, hk, hlt⟩
        refine ⟨i + 1, by simpa using hi, by simpa using hp, hk, ?_⟩
        intro j hj
        cases j with
        | zero => simpa using hmem
        | succ j =>
          have := hlt j (by omega)
          simpa using this
      · rintro ⟨i, hi, hp, hk, hlt⟩
        cases i with
        | zero =>
          simp at hp
          rw [hp] at hk
          exact absurd hk hmem
        | succ i =>
          refine ⟨i, by simpa using hi, by simpa using hp, hk, ?_⟩
          intro j hj
          have := hlt (j + 1) (by omega)
          simpa using this

theorem Join_root_empty : Join "/" "" = absPath [] := by decide

/-- The parent the dependency loop finds for a cleaned absolute directory below the root:
the first of its proper ancestors, from the root downwards, that is a key of the map. -/
theorem findParent_absPath (loaded : GoMap PluginV2) (elems : List String)
    (hne : elems ≠ []) (helems : ∀ x ∈ elems, IsElem x) (p : String) :
    findParent loaded (absPath elems) = some p ↔
      ∃ i, i < elems.length ∧ p = absPath (elems.take i) ∧ p ∈ mapKeys loaded ∧
        ∀ j, j < i → absPath (elems.take j) ∉ mapKeys loaded := by
  have hlen : 0 < elems.length := List.length_pos.mpr hne
  unfold findParent
  simp only [Split_absPath elems hne helems, IsAbs_absPath, if_true]
  have hdl : ("" :: elems).dropLast = "" :: elems.dropLast := by
    obtain ⟨x, xs, rfl⟩ := List.exists_cons_of_ne_nil hne
    rfl
  rw [hdl]
  unfold walkAncestors
  simp only [Join_root_empty]
  have hdrop : ∀ x ∈ elems.dropLast, IsElem x := fun x hx =>
    helems x (List.dropLast_subset _ hx)
  have htake : ∀ i, i < elems.length → elems.dropLast.take i = elems.take i := by
    intro i hi
    rw [List.dropLast_eq_take, List.take_take]
    congr 1
    omega
  by_cases hroot : absPath [] ∈ mapKeys loaded
  · have hs : (mapGet loaded (absPath [])).isSome = true := (mapGet_isSome_iff _ _).mpr hroot
    rw [if_pos hs]
    constructor
    · intro h
      injection h with h
      subst h
      exact ⟨0, hlen, by simp, hroot, fun j hj => absurd hj (Nat.not_lt_zero j)⟩
    · rintro ⟨i, _, hp, _, hlt⟩
      cases i with
      | zero => simp at hp; rw [hp]
      | succ i =>
        have := hlt 0 (Nat.succ_pos i)
        simp at this
        exact absurd hroot this
  · have hs : ¬ (mapGet loaded (absPath [])).isSome = true := fun h =>
      hroot ((mapGet_isSome_iff _ _).mp h)
    rw [if_neg hs]
    rw [walkAncestors_absPath loaded elems.dropLast [] (by simp) hdrop p]
    simp only [List.nil_append, List.length_dropLast]
    constructor
    · rintro ⟨i, hi, hp, hk, hlt⟩
      refine ⟨i + 1, by omega, ?_, hk, ?_⟩
      · rw [hp, htake (i + 1) (by omega)]
      · intro j hj
        cases j with
        | zero => simpa using hroot
        | succ j =>
          have := hlt j (by omega)
          rwa [htake (j + 1) (by omega)] at this
    · rintro ⟨i, hi, hp, hk, hlt⟩
      cases i with
      | zero =>
        simp at hp
        rw [hp] at hk
        exact absurd hk hroot
      | succ i =>
        refine ⟨i, by omega, ?_, hk, ?_⟩
        · rw [hp, htake (i + 1) (by omega)]
        · intro j hj
          have := hlt (j + 1) (by omega)
          rwa [htake (j + 1) (by omega)]

/-- A record at the filesystem root: the walk of the dependency loop ends at the record's own
directory. -/
theorem findParent_root (loaded : GoMap PluginV2) (h : "/" ∈ mapKeys loaded) :
    findParent loaded "/" = some "/" := by
  have hs : (mapGet loaded "/").isSome = true := (mapGet_isSome_iff _ _).mpr h
  have h1 : (Split "/").dropLast = [""] := by decide
  have h2 : IsAbs "/" = true := by decide
  have h3 : Join "/" "" = "/" := by decide
  unfold findParent
  simp only [h1, h2, if_true]
  unfold walkAncestors
  simp only [h3, hs, if_true]

theorem walkAncestors_congr (m m' : GoMap PluginV2) (h : mapKeys m = mapKeys m')
    (rest : List String) : ∀ pluginPath : String,
      walkAncestors m pluginPath rest = walkAncestors m' pluginPath rest := by
  induction rest with
  | nil => intro _; rfl
  | cons a rest ih =>
    intro pluginPath
    unfold walkAncestors
    have hs : (mapGet m (Join pluginPath a)).isSome = (mapGet m' (Join pluginPath a)).isSome := by
      rw [Bool.eq_iff_iff, mapGet_isSome_iff, mapGet_isSome_iff, h]
    simp only [hs, ih]

theorem findParent_congr (m m' : GoMap PluginV2) (h : mapKeys m = mapKeys m') (dir : String) :
    findParent m dir = findParent m' dir := by
  unfold findParent
  exact walkAncestors_congr m m' h _ _

theorem linkStep_absent (m : GoMap PluginV2) (dir : String) (h : mapGet m dir = none) :
    linkStep m dir = m := by
  simp [linkStep, h]

theorem linkStep_no_parent (m : GoMap PluginV2) (dir : String) (plugin : PluginV2)
    (h : mapGet m dir = some plugin) (hf : findParent m plugin.PluginDir = none) :
    linkStep m dir = m := by
  simp [linkStep, h, hf]

theorem linkStep_parent (m : GoMap PluginV2) (dir : String) (plugin : PluginV2)
    (parentDir : String) (h : mapGet m dir = some plugin)
    (hf : findParent m plugin.PluginDir = some parentDir) :
    linkStep m dir =
      mapModify (mapModify m dir (fun p => { p with Parent := some parentDir })) parentDir
        (fun p => { p with Children := p.Children ++ [dir] }) := by
  simp [linkStep, h, hf]

theorem mapKeys_linkStep (m : GoMap PluginV2) (dir : String) :
    mapKeys (linkStep m dir) = mapKeys m := by
  cases hg : mapGet m dir with
  | none => rw [linkStep_absent m dir hg]
  | some plugin =>
    cases hf : findParent m plugin.PluginDir with
    | none => rw [linkStep_no_parent m dir plugin hg hf]
    | some parentDir =>
      rw [linkStep_parent m dir plugin parentDir hg hf]
      simp only [mapKeys_mapModify]

/-- What one pass of the dependency loop does to the record stored under `k`: directory and
descriptor stay; the parent pointer changes only for the visited record, and only to the
directory the walk found. -/
theorem mapGet_linkStep (m : GoMap PluginV2) (dir k : String) (r' : PluginV2)
    (h : mapGet (linkStep m dir) k = some r') :
    ∃ r, mapGet m k = some r ∧ r'.PluginDir = r.PluginDir ∧ r'.JSONData = r.JSONData ∧
      r'.Signature = r.Signature ∧ r'.Class = r.Class ∧
      ((k ≠ dir ∨ findParent m r.PluginDir = none) → r'.Parent = r.Parent) ∧
      (k = dir → ∀ pd, findParent m r.PluginDir = some pd → r'.Parent = some pd) := by
  cases hg : mapGet m dir with
  | none =>
    rw [linkStep_absent m dir hg] at h
    refine ⟨r', h, rfl, rfl, rfl, rfl, fun _ => rfl, ?_⟩
    intro hk
    rw [hk, hg] at h
    exact absurd h (by simp)
  | some plugin =>
    cases hf : findParent m plugin.PluginDir with
    | none =>
      rw [linkStep_no_parent m dir plugin hg hf] at h
      refine ⟨r', h, rfl, rfl, rfl, rfl, fun _ => rfl, ?_⟩
      intro hk pd hpd
      rw [hk, hg] at h
      injection h with h
      subst h
      rw [hf] at hpd
      exact absurd hpd (by simp)
    | some parentDir =>
      rw [linkStep_parent m dir plugin parentDir hg hf] at h
      simp only [mapGet_mapModify] at h
      by_cases hk : dir = k
      · subst hk
        rw [hg] at h
        simp only [if_true, Option.map_some'] at h
        refine ⟨plugin, hg, ?_, ?_, ?_, ?_, ?_, ?_⟩
        · split_ifs at h <;> (simp at h; subst h; rfl)
        · split_ifs at h <;> (simp at h; subst h; rfl)
        · split_ifs at h <;> (simp at h; subst h; rfl)
        · split_ifs at h <;> (simp at h; subst h; rfl)
        · rintro (hne | hnone)
          · exact absurd rfl hne
          · rw [hf] at hnone; exact absurd hnone (by simp)
        · intro _ pd hpd
          rw [hf] at hpd
          injection hpd with hpd
          subst hpd
          split_ifs at h <;> (simp at h; subst h; rfl)
      · simp only [hk, if_false] at h
        cases hgk : mapGet m k with
        | none => rw [hgk] at h; simp at h
        | some r =>
          rw [hgk] at h
          refine ⟨r, rfl, ?_, ?_, ?_, ?_, ?_, ?_⟩
          · split_ifs at h <;> (simp at h; subst h; rfl)
          · split_ifs at h <;> (simp at h; subst h; rfl)
          · split_ifs at h <;> (simp at h; subst h; rfl)
          · split_ifs at h <;> (simp at h; subst h; rfl)
          · intro _
            split_ifs at h <;> (simp at h; subst h; rfl)
          · intro hkd
            exact absurd hkd.symm hk

/-- The dependency loop, visited key after visited key: the keys never change, and the
parent pointer of the record under `k` is the result of the walk from the root once `k`
has been visited. -/
theorem linkDependencies_inv (loaded : GoMap PluginV2) (order : List String) :
    ∀ (m : GoMap PluginV2) (done : List String),
      mapKeys m = mapKeys loaded →
      (∀ k r, mapGet m k = some r →
        r.PluginDir = k ∧ r.Parent = if k ∈ done then findParent loaded k else none) →
      mapKeys (linkDependencies order m) = mapKeys loaded ∧
        ∀ k r, mapGet (linkDependencies order m) k = some r →
          r.PluginDir = k ∧
            r.Parent = if k ∈ done ∨ k ∈ order then findParent loaded k else none := by
  induction order with
  | nil =>
    intro m done hk hinv
    refine ⟨hk, ?_⟩
    intro k r hr
    simpa using hinv k r hr
  | cons d order ih =>
    intro m done hk hinv
    have hkeys : mapKeys (linkStep m d) = mapKeys loaded := by rw [mapKeys_linkStep, hk]
    have hstep : ∀ k r, mapGet (linkStep m d) k = some r →
        r.PluginDir = k ∧ r.Parent = if k ∈ d :: done then findParent loaded k else none := by
      intro k r' hr'
      obtain ⟨r, hr, hdir, _, _, _, hsame, hset⟩ := mapGet_linkStep m d k r' hr'
      obtain ⟨hrd, hrp⟩ := hinv k r hr
      refine ⟨by rw [hdir, hrd], ?_⟩
      rw [hrd, findParent_congr m loaded hk] at hsame hset
      by_cases hkd : k = d
      · have hmem : k ∈ d :: done := by rw [hkd]; exact List.mem_cons_self _ _
        rw [if_pos hmem]
        cases hf : findParent loaded k with
        | none =>
          rw [hsame (Or.inr hf), hrp]
          split_ifs
          · exact hf
          · rfl
        | some pd => exact hset hkd pd hf
      · rw [hsame (Or.inl hkd), hrp]
        have : k ∈ d :: done ↔ k ∈ done := by
          simp [hkd]
        simp only [this]
    have := ih (linkStep m d) (d :: done) hkeys hstep
    refine ⟨this.1, ?_⟩
    intro k r hr
    have h2 := this.2 k r hr
    refine ⟨h2.1, ?_⟩
    rw [h2.2]
    have : (k ∈ d :: done ∨ k ∈ order) ↔ (k ∈ done ∨ k ∈ d :: order) := by
      simp only [List.mem_cons]
      tauto
    simp only [this]

theorem proper_prefix_iff (pre elems : List String) :
    (pre <+: elems ∧ pre ≠ elems) ↔ ∃ i, i < elems.length ∧ pre = elems.take i := by
  constructor
  · rintro ⟨hp, hne⟩
    refine ⟨pre.length, ?_, List.prefix_iff_eq_take.mp hp⟩
    rcases Nat.lt_or_ge pre.length elems.length with h | h
    · exact h
    · exact absurd (hp.eq_of_length (Nat.le_antisymm hp.length_le h)) hne
  · rintro ⟨i, hi, rfl⟩
    refine ⟨List.take_prefix _ _, ?_⟩
    intro h
    have := congrArg List.length h
    simp at this
    omega

/-- Claim C6, amended: the parent assigned to a record `R` (whose directory is a cleaned
absolute path below the root) by the dependency loop is the loaded record whose directory
is the shallowest proper ancestor directory of `R`, i.e. the first loaded one on the way
from the filesystem root down to `R`; `R` has no parent iff no proper ancestor directory
of `R` is a loaded record. -/
theorem C6_parent_is_shallowest_loaded_ancestor (loaded : GoMap PluginV2)
    (order : List String) (elems : List String)
    (hdir : ∀ e ∈ loaded, e.2.PluginDir = e.1)
    (hfresh : ∀ e ∈ loaded, e.2.Parent = none)
    (hperm : order.Perm (mapKeys loaded))
    (helems : ∀ x ∈ elems, IsElem x) (hne : elems ≠ [])
    (hR : absPath elems ∈ mapKeys loaded) :
    ∃ R, mapGet (linkDependencies order loaded) (absPath elems) = some R ∧
      (∀ p, R.Parent = some p ↔
        ∃ pre, pre <+: elems ∧ pre ≠ elems ∧ p = absPath pre ∧ p ∈ mapKeys loaded ∧
          ∀ pre', pre' <+: pre → pre' ≠ pre → absPath pre' ∉ mapKeys loaded) ∧
      (R.Parent = none ↔
        ∀ pre, pre <+: elems → pre ≠ elems → absPath pre ∉ mapKeys loaded) := by
  have hinv := linkDependencies_inv loaded order loaded [] rfl (by
    intro k r hr
    have hm := mapGet_mem loaded k r hr
    exact ⟨hdir _ hm, by simpa using hfresh _ hm⟩)
  have hsome : (mapGet (linkDependencies order loaded) (absPath elems)).isSome = true := by
    rw [mapGet_isSome_iff, hinv.1]; exact hR
  obtain ⟨R, hRget⟩ := Option.isSome_iff_exists.mp hsome
  have hpar : R.Parent = findParent loaded (absPath elems) := by
    have := (hinv.2 _ R hRget).2
    rw [this, if_pos (Or.inr (hperm.mem_iff.mpr hR))]
  have hchar := findParent_absPath loaded elems hne helems
  have hsomeiff : ∀ p, R.Parent = some p ↔
      ∃ pre, pre <+: elems ∧ pre ≠ elems ∧ p = absPath pre ∧ p ∈ mapKeys loaded ∧
        ∀ pre', pre' <+: pre → pre' ≠ pre → absPath pre' ∉ mapKeys loaded := by
    intro p
    rw [hpar, hchar p]
    constructor
    · rintro ⟨i, hi, hp, hk, hlt⟩
      obtain ⟨hpre, hprene⟩ := (proper_prefix_iff _ elems).mpr ⟨i, hi, rfl⟩
      refine ⟨elems.take i, hpre, hprene, hp, hk, ?_⟩
      intro pre' hpre' hne'
      obtain ⟨j, hj, rfl⟩ := (proper_prefix_iff pre' _).mp ⟨hpre', hne'⟩
      have hji : j < i := by
        simp only [List.length_take] at hj
        omega
      rw [List.take_take, Nat.min_eq_left (Nat.le_of_lt hji)]
      exact hlt j hji
    · rintro ⟨pre, hpre, hprene, hp, hk, hlt⟩
      obtain ⟨i, hi, rfl⟩ := (proper_prefix_iff pre elems).mp ⟨hpre, hprene⟩
      refine ⟨i, hi, hp, hk, ?_⟩
      intro j hj
      have h1 : elems.take j <+: elems.take i := by
        rw [← Nat.min_eq_left (Nat.le_of_lt hj), ← List.take_take]
        exact List.take_prefix _ _
      have h2 : elems.take j ≠ elems.take i := by
        intro h
        have := congrArg List.length h
        simp only [List.length_take] at this
        omega
      exact hlt _ h1 h2
  refine ⟨R, hRget, hsomeiff, ?_⟩
  constructor
  · intro hnone pre hpre hprene hmem
    classical
    have hex : ∃ i, i < elems.length ∧ absPath (elems.take i) ∈ mapKeys loaded := by
      obtain ⟨i, hi, rfl⟩ := (proper_prefix_iff pre elems).mp ⟨hpre, hprene⟩
      exact ⟨i, hi, hmem⟩
    have hmin := Nat.find_spec hex
    have hlt : ∀ j, j < Nat.find hex → absPath (elems.take j) ∉ mapKeys loaded := by
      intro j hj hjm
      exact Nat.find_min hex hj ⟨Nat.lt_trans hj hmin.1, hjm⟩
    have : findParent loaded (absPath elems) = some (absPath (elems.take (Nat.find hex))) :=
      (hchar _).mpr ⟨Nat.find hex, hmin.1, rfl, hmin.2, hlt⟩
    rw [hpar, this] at hnone
    exact absurd hnone (by simp)
  · intro hall
    cases hp : R.Parent with
    | none => rfl
    | some p =>
      obtain ⟨pre, hpre, hprene, hpe, hk, _⟩ := (hsomeiff p).mp hp
      rw [hpe] at hk
      exact absurd hk (hall pre hpre hprene)

/-- Claim C6 (amended) at the plugins `/a`, `/a/b`, `/a/b/c`, for the record at `/a/b/c`. -/
theorem C6_parent_is_shallowest_loaded_ancestor_witness :
    (∀ e ∈ nestedPlugins, e.2.PluginDir = e.1) ∧
      (∀ e ∈ nestedPlugins, e.2.Parent = none) ∧
      ["/a/b/c", "/a", "/a/b"].Perm (mapKeys nestedPlugins) ∧
      (∀ x ∈ ["a", "b", "c"], IsElem x) ∧
      absPath ["a", "b", "c"] ∈ mapKeys nestedPlugins ∧
      ∃ R, mapGet (linkDependencies ["/a/b/c", "/a", "/a/b"] nestedPlugins)
          (absPath ["a", "b", "c"]) = some R ∧
        (∀ p, R.Parent = some p ↔
          ∃ pre, pre <+: ["a", "b", "c"] ∧ pre ≠ ["a", "b", "c"] ∧ p = absPath pre ∧
            p ∈ mapKeys nestedPlugins ∧
            ∀ pre', pre' <+: pre → pre' ≠ pre → absPath pre' ∉ mapKeys nestedPlugins) ∧
        (R.Parent = none ↔
          ∀ pre, pre <+: ["a", "b", "c"] → pre ≠ ["a", "b", "c"] →
            absPath pre ∉ mapKeys nestedPlugins) :=
  ⟨by decide, by decide, by decide, by decide, by decide,
    C6_parent_is_shallowest_loaded_ancestor nestedPlugins ["/a/b/c", "/a", "/a/b"]
      ["a", "b", "c"] (by decide) (by decide) (by decide) (by decide) (by decide) (by decide)⟩

/-! ## Loops of the loader -/

theorem rangeLoop_cons_ok {σ ε : Type} (body : σ → String → σ × Option ε) (st st1 : σ)
    (k : String) (ks : List String) (h : body st k = (st1, none)) :
    rangeLoop body st (k :: ks) = rangeLoop body st1 ks := by
  rw [rangeLoop, h]

theorem rangeLoop_cons_err {σ ε : Type} (body : σ → String → σ × Option ε) (st st1 : σ)
    (k : String) (ks : List String) (e : ε) (h : body st k = (st1, some e)) :
    rangeLoop body st (k :: ks) = (st1, some e) := by
  rw [rangeLoop, h]

theorem rangeLoop_append {σ ε : Type} (body : σ → String → σ × Option ε) (ks ks' : List String) :
    ∀ st : σ, rangeLoop body st (ks ++ ks') =
      match rangeLoop body st ks with
      | (st', none) => rangeLoop body st' ks'
      | (st', some e) => (st', some e) := by
  induction ks with
  | nil => intro st; rfl
  | cons k ks ih =>
    intro st
    show rangeLoop body st (k :: (ks ++ ks')) = _
    rcases hb : body st k with ⟨st1, _ | e⟩
    · rw [rangeLoop_cons_ok body st st1 k _ hb, rangeLoop_cons_ok body st st1 k _ hb, ih]
    · rw [rangeLoop_cons_err body st st1 k _ e hb, rangeLoop_cons_err body st st1 k _ e hb]

/-- A property of the loop state that every pass of the body keeps holds when the loop
ends, however it ends. -/
theorem rangeLoop_inv {σ ε : Type} (body : σ → String → σ × Option ε) (P : σ → Prop)
    (hstep : ∀ st k, P st → P (body st k).1) (ks : List String) :
    ∀ st : σ, P st → P (rangeLoop body st ks).1 := by
  induction ks with
  | nil => intro st h; exact h
  | cons k ks ih =>
    intro st h
    have h1 := hstep st k h
    rcases hb : body st k with ⟨st1, _ | e⟩
    · rw [rangeLoop_cons_ok body st st1 k _ hb]
      rw [hb] at h1
      exact ih st1 h1
    · rw [rangeLoop_cons_err body st st1 k _ e hb]
      rw [hb] at h1
      exact h1

theorem readAll_nodup (env : LoaderEnv) (paths : List String) :
    ∀ (acc found : GoMap JSONData), readAll env paths acc = .ok found →
      (mapKeys acc).Nodup → (mapKeys found).Nodup := by
  induction paths with
  | nil =>
    intro acc found h hnd
    simp only [readAll] at h
    injection h with h
    subst h
    exact hnd
  | cons p paths ih =>
    intro acc found h hnd
    unfold readAll at h
    cases hr : readPluginJSON env p with
    | error e => rw [hr] at h; simp at h
    | ok plugin =>
      rw [hr] at h
      cases ha : env.abs p with
      | error e => rw [ha] at h; simp at h
      | ok a =>
        rw [ha] at h
        exact ih _ found h (nodup_mapKeys_mapSet _ _ _ hnd)

/-! ## `stripDuplicates` -/

/-- The invariant of the loop of `stripDuplicates`, for the keys `done` visited so far:
the map is a part of the scanned map, and the survivors among the visited entries have
their IDs in `pluginsByID`, outside `existingPlugins`, and pairwise distinct. -/
theorem stripStep_inv (existing : List String) (f : GoMap JSONData)
    (hnd : (mapKeys f).Nodup) (order : List String) :
    ∀ (st : GoMap JSONData × List String) (done : List String),
      st.1.Sublist f →
      (∀ e ∈ st.1, e.1 ∈ done → e.2.ID ∈ st.2 ∧ e.2.ID ∉ existing) →
      (∀ e1 ∈ st.1, ∀ e2 ∈ st.1, e1.1 ∈ done → e2.1 ∈ done → e1.2.ID = e2.2.ID → e1.1 = e2.1) →
      let g := (order.foldl (loader.stripStep existing) st).1
      g.Sublist f ∧
        (∀ e ∈ g, e.1 ∈ done ∨ e.1 ∈ order → e.2.ID ∉ existing) ∧
        (∀ e1 ∈ g, ∀ e2 ∈ g, e1.1 ∈ done ∨ e1.1 ∈ order → e2.1 ∈ done ∨ e2.1 ∈ order →
          e1.2.ID = e2.2.ID → e1.1 = e2.1) := by
  induction order with
  | nil =>
    intro st done hsub h2 h3
    refine ⟨hsub, ?_, ?_⟩
    · intro e he hd
      exact (h2 e he (by simpa using hd)).2
    · intro e1 he1 e2 he2 hd1 hd2
      exact h3 e1 he1 e2 he2 (by simpa using hd1) (by simpa using hd2)
  | cons k order ih =>
    intro st done hsub h2 h3
    have hndst : (mapKeys st.1).Nodup := (hsub.map Prod.fst).nodup hnd
    have key : ∀ st' : GoMap JSONData × List String,
        loader.stripStep existing st k = st' →
        st'.1.Sublist f ∧
          (∀ e ∈ st'.1, e.1 ∈ k :: done → e.2.ID ∈ st'.2 ∧ e.2.ID ∉ existing) ∧
          (∀ e1 ∈ st'.1, ∀ e2 ∈ st'.1, e1.1 ∈ k :: done → e2.1 ∈ k :: done →
            e1.2.ID = e2.2.ID → e1.1 = e2.1) := by
      intro st' hst'
      unfold loader.stripStep at hst'
      cases hg : mapGet st.1 k with
      | none =>
        simp only [hg] at hst'
        subst hst'
        have hk : k ∉ mapKeys st.1 := (mapGet_eq_none_iff _ _).mp hg
        have hne : ∀ e ∈ st.1, e.1 ≠ k := fun e he hek =>
          hk (hek ▸ List.mem_map_of_mem Prod.fst he)
        refine ⟨hsub, ?_, ?_⟩
        · intro e he hd
          rcases List.mem_cons.mp hd with hd | hd
          · exact absurd hd (hne e he)
          · exact h2 e he hd
        · intro e1 he1 e2 he2 hd1 hd2
          rcases List.mem_cons.mp hd1 with hd1 | hd1
          · exact absurd hd1 (hne e1 he1)
          rcases List.mem_cons.mp hd2 with hd2 | hd2
          · exact absurd hd2 (hne e2 he2)
          exact h3 e1 he1 e2 he2 hd1 hd2
      | some v =>
        simp only [hg] at hst'
        have hdel : ∀ st' : GoMap JSONData × List String, st' = (mapDelete st.1 k, st.2) →
            st'.1.Sublist f ∧
              (∀ e ∈ st'.1, e.1 ∈ k :: done → e.2.ID ∈ st'.2 ∧ e.2.ID ∉ existing) ∧
              (∀ e1 ∈ st'.1, ∀ e2 ∈ st'.1, e1.1 ∈ k :: done → e2.1 ∈ k :: done →
                e1.2.ID = e2.2.ID → e1.1 = e2.1) := by
          intro st' hst'
          subst hst'
          simp only [mapDelete_eq_filter]
          have hmem : ∀ e, e ∈ st.1.filter (fun e => decide (e.1 ≠ k)) → e ∈ st.1 ∧ e.1 ≠ k := by
            intro e he
            have := List.mem_filter.mp he
            exact ⟨this.1, by simpa using this.2⟩
          refine ⟨(List.filter_sublist _).trans hsub, ?_, ?_⟩
          · intro e he hd
            obtain ⟨he1, he2⟩ := hmem e he
            rcases List.mem_cons.mp hd with hd | hd
            · exact absurd hd he2
            · exact h2 e he1 hd
          · intro e1 he1 e2 he2 hd1 hd2
            obtain ⟨h11, h12⟩ := hmem e1 he1
            obtain ⟨h21, h22⟩ := hmem e2 he2
            rcases List.mem_cons.mp hd1 with hd1 | hd1
            · exact absurd hd1 h12
            rcases List.mem_cons.mp hd2 with hd2 | hd2
            · exact absurd hd2 h22
            exact h3 e1 h11 e2 h21 hd1 hd2
        by_cases hseen : v.ID ∈ st.2
        · rw [if_pos hseen] at hst'
          exact hdel st' hst'.symm
        · rw [if_neg hseen] at hst'
          by_cases hex : v.ID ∈ existing
          · rw [if_pos hex] at hst'
            exact hdel st' hst'.symm
          · rw [if_neg hex] at hst'
            subst hst'
            have hkv : ∀ e ∈ st.1, e.1 = k → e = (k, v) := by
              intro e he hek
              exact entry_unique st.1 hndst e (k, v) he (mapGet_mem _ _ _ hg) hek
            refine ⟨hsub, ?_, ?_⟩
            · intro e he hd
              rcases List.mem_cons.mp hd with hd | hd
              · rw [hkv e he hd]
                exact ⟨List.mem_cons_self _ _, hex⟩
              · exact ⟨List.mem_cons_of_mem _ (h2 e he hd).1, (h2 e he hd).2⟩
            · intro e1 he1 e2 he2 hd1 hd2 hid
              rcases List.mem_cons.mp hd1 with hd1 | hd1
              · rcases List.mem_cons.mp hd2 with hd2 | hd2
                · rw [hd1, hd2]
                · exfalso
                  have h1 := hkv e1 he1 hd1
                  rw [h1] at hid
                  exact hseen (hid ▸ (h2 e2 he2 hd2).1)
              · rcases List.mem_cons.mp hd2 with hd2 | hd2
                · exfalso
                  have h1 := hkv e2 he2 hd2
                  rw [h1] at hid
                  exact hseen (hid.symm ▸ (h2 e1 he1 hd1).1)
                · exact h3 e1 he1 e2 he2 hd1 hd2 hid
    obtain ⟨k1, k2, k3⟩ := key _ rfl
    have := ih (loader.stripStep existing st k) (k :: done) k1 k2 k3
    simp only [List.foldl_cons]
    refine ⟨this.1, ?_, ?_⟩
    · intro e he hd
      refine this.2.1 e he ?_
      simp only [List.mem_cons] at hd ⊢
      tauto
    · intro e1 he1 e2 he2 hd1 hd2
      refine this.2.2 e1 he1 e2 he2 ?_ ?_
      · simp only [List.mem_cons] at hd1 ⊢
        tauto
      · simp only [List.mem_cons] at hd2 ⊢
        tauto

/-- What `stripDuplicates` leaves of a map when its loop visits every key: a part of the
map in which no ID belongs to `existingPlugins` and no two entries share an ID. -/
theorem stripDuplicates_spec (order : List String) (f : GoMap JSONData)
    (existing : List String) (hnd : (mapKeys f).Nodup) (hcover : ∀ k ∈ mapKeys f, k ∈ order) :
    (loader.stripDuplicates order f existing).Sublist f ∧
      (mapKeys (loader.stripDuplicates order f existing)).Nodup ∧
      (∀ e ∈ loader.stripDuplicates order f existing, e.2.ID ∉ existing) ∧
      (∀ e1 ∈ loader.stripDuplicates order f existing,
        ∀ e2 ∈ loader.stripDuplicates order f existing, e1.2.ID = e2.2.ID → e1.1 = e2.1) := by
  have h := stripStep_inv existing f hnd order (f, []) [] (List.Sublist.refl _)
    (by intro e _ hd; simp at hd) (by intro e1 _ e2 _ hd; simp at hd)
  have hsub : (loader.stripDuplicates order f existing).Sublist f := h.1
  have hin : ∀ e ∈ loader.stripDuplicates order f existing, e.1 ∈ [] ∨ e.1 ∈ order := by
    intro e he
    exact Or.inr (hcover _ (List.mem_map_of_mem Prod.fst (hsub.subset he)))
  refine ⟨hsub, (hsub.map Prod.fst).nodup hnd, ?_, ?_⟩
  · intro e he
    exact h.2.1 e he (hin e he)
  · intro e1 he1 e2 he2
    exact h.2.2 e1 he1 e2 he2 (hin e1 he1) (hin e2 he2)

/-! ## Descriptors through the loops of a load -/

theorem SameDescriptors.refl (m : GoMap PluginV2) : SameDescriptors m m :=
  ⟨rfl, fun _ r' h => ⟨r', h, rfl⟩⟩

theorem SameDescriptors.trans {m1 m2 m3 : GoMap PluginV2} (h12 : SameDescriptors m1 m2)
    (h23 : SameDescriptors m2 m3) : SameDescriptors m1 m3 := by
  refine ⟨h23.1.trans h12.1, ?_⟩
  intro k r3 h3
  obtain ⟨r2, h2, e2⟩ := h23.2 k r3 h3
  obtain ⟨r1, h1, e1⟩ := h12.2 k r2 h2
  exact ⟨r1, h1, e2.trans e1⟩

theorem validate_JSONData (s : PluginSignatureValidator) (plugin : PluginV2)
    (parent : Option PluginV2) : (s.validate plugin parent).plugin.JSONData = plugin.JSONData := by
  unfold PluginSignatureValidator.validate
  by_cases h1 : plugin.Signature = PluginSignatureValid
  · simp [h1]
  · cases parent with
    | none => simp [h1, validateSwitch_plugin]
    | some root =>
      simp only [h1, if_false]
      split_ifs <;> simp [validateSwitch_plugin]

theorem calcStateStep_inv (cfg : Cfg) (env : LoaderEnv) (found : GoMap JSONData)
    (order : List String) (acc : GoMap PluginV2) (hnd : (mapKeys acc).Nodup)
    (hacc : ∀ e ∈ acc, mapGet found e.1 = some e.2.JSONData) :
    (mapKeys (rangeLoop (calcStateStep cfg env found) acc order).1).Nodup ∧
      ∀ e ∈ (rangeLoop (calcStateStep cfg env found) acc order).1,
        mapGet found e.1 = some e.2.JSONData := by
  refine rangeLoop_inv (calcStateStep cfg env found)
    (fun m => (mapKeys m).Nodup ∧ ∀ e ∈ m, mapGet found e.1 = some e.2.JSONData) ?_ order acc
    ⟨hnd, hacc⟩
  intro m k ⟨h1, h2⟩
  unfold calcStateStep
  cases hg : mapGet found k with
  | none => exact ⟨h1, h2⟩
  | some pluginJSON =>
    simp only []
    cases hc : env.calculateState
        { JSONData := pluginJSON, PluginDir := k, Class := pluginClass cfg k } with
    | error err => exact ⟨h1, h2⟩
    | ok signatureState =>
      refine ⟨nodup_mapKeys_mapSet _ _ _ h1, ?_⟩
      intro e he
      rcases mem_mapSet _ _ _ _ he with he | he
      · subst he
        exact hg
      · exact h2 e he

theorem linkStep_same (m : GoMap PluginV2) (dir : String) : SameDescriptors m (linkStep m dir) := by
  refine ⟨mapKeys_linkStep m dir, ?_⟩
  intro k r' h
  obtain ⟨r, hr, _, hj, _⟩ := mapGet_linkStep m dir k r' h
  exact ⟨r, hr, hj⟩

theorem linkDependencies_same (order : List String) :
    ∀ m : GoMap PluginV2, SameDescriptors m (linkDependencies order m) := by
  induction order with
  | nil => intro m; exact SameDescriptors.refl m
  | cons d order ih =>
    intro m
    exact (linkStep_same m d).trans (ih (linkStep m d))

theorem validateStep_same (cfg : Cfg) (env : LoaderEnv) (cond : Option (PluginV2 → Bool))
    (st : GoMap PluginV2 × GoMap PluginError) (dir : String) :
    SameDescriptors st.1 (validateStep cfg env cond st dir).1.1 := by
  unfold validateStep
  cases hg : mapGet st.1 dir with
  | none => exact SameDescriptors.refl _
  | some plugin =>
    have hmod : SameDescriptors st.1
        (mapModify st.1 dir (fun _ => (validateAt cfg env cond st.1 plugin).plugin)) := by
      refine ⟨mapKeys_mapModify _ _ _, ?_⟩
      intro k r' h
      rw [mapGet_mapModify] at h
      by_cases hk : dir = k
      · subst hk
        rw [if_pos rfl, hg] at h
        simp only [Option.map_some', Option.some.injEq] at h
        subst h
        exact ⟨plugin, hg, validate_JSONData _ _ _⟩
      · rw [if_neg hk] at h
        exact ⟨r', h, rfl⟩
    simp only []
    cases (validateAt cfg env cond st.1 plugin).err with
    | some signingError => exact hmod
    | none =>
      simp only []
      split_ifs
      · cases env.fileExists (Join (validateAt cfg env cond st.1 plugin).plugin.PluginDir "module.js")
        · exact hmod
        · exact hmod
      · exact hmod

theorem validateLoop_same (cfg : Cfg) (env : LoaderEnv) (cond : Option (PluginV2 → Bool))
    (order : List String) (st : GoMap PluginV2 × GoMap PluginError) :
    SameDescriptors st.1 (rangeLoop (validateStep cfg env cond) st order).1.1 :=
  rangeLoop_inv (validateStep cfg env cond) (fun st' => SameDescriptors st.1 st'.1)
    (fun st' k h => h.trans (validateStep_same cfg env cond st' k)) order st
    (SameDescriptors.refl _)

theorem initLoop_ok (env : LoaderEnv) (loaded : GoMap PluginV2) (order : List String) :
    ∀ (acc res : List PluginV2),
      rangeLoop (loader.initStep env loaded) acc order = (res, none) →
      res = acc ++ order.filterMap (mapGet loaded) := by
  induction order with
  | nil =>
    intro acc res h
    simp only [rangeLoop, Prod.mk.injEq] at h
    simp [h.1]
  | cons k order ih =>
    intro acc res h
    rcases hb : loader.initStep env loaded acc k with ⟨acc1, _ | e⟩
    · rw [rangeLoop_cons_ok _ _ _ _ _ hb] at h
      have := ih acc1 res h
      unfold loader.initStep at hb
      cases hg : mapGet loaded k with
      | none =>
        simp only [hg, Prod.mk.injEq] at hb
        rw [this, ← hb.1]
        simp [hg]
      | some p =>
        simp only [hg] at hb
        cases hi : env.pluginInitializer p with
        | error err => simp [hi] at hb
        | ok u =>
          simp only [hi, Prod.mk.injEq, and_true] at hb
          rw [this, ← hb]
          simp [hg]
    · rw [rangeLoop_cons_err _ _ _ _ _ e hb] at h
      simp at h

/-- The map `loadedPlugins` after the loop "wire up plugin dependencies" of a load whose
loops visit every key once: its keys are pairwise distinct, no record has an ID of
`existingPlugins`, and records under different keys have different IDs. -/
theorem wiredPlugins_spec (l : loader.Loader) (env : LoaderEnv) (paths existing : List String)
    (hord : OrderOK env) (wired : GoMap PluginV2)
    (hw : l.wiredPlugins env paths existing = .ok wired) :
    (mapKeys wired).Nodup ∧
      (∀ k r, mapGet wired k = some r → r.ID ∉ existing) ∧
      (∀ k1 r1 k2 r2, mapGet wired k1 = some r1 → mapGet wired k2 = some r2 →
        r1.ID = r2.ID → k1 = k2) := by
  unfold loader.Loader.wiredPlugins at hw
  cases hr : readAll env paths [] with
  | error e => rw [hr] at hw; simp at hw
  | ok found =>
    simp only [hr] at hw
    have hfnd : (mapKeys found).Nodup := readAll_nodup env paths [] found hr (by simp [mapKeys])
    obtain ⟨_, hsnd, hsex, hsinj⟩ :=
      stripDuplicates_spec (env.rangeOrder 0 (mapKeys found)) found existing hfnd
        (fun k hk => (hord 0 _).mem_iff.mpr hk)
    generalize loader.stripDuplicates (env.rangeOrder 0 (mapKeys found)) found existing = stripped
      at hw hsnd hsex hsinj
    have hcalc := calcStateStep_inv l.cfg env stripped (env.rangeOrder 1 (mapKeys stripped)) []
      (by simp [mapKeys]) (by simp)
    rcases hl : rangeLoop (calcStateStep l.cfg env stripped) []
        (env.rangeOrder 1 (mapKeys stripped)) with ⟨loaded, _ | e⟩
    · rw [hl] at hw hcalc
      simp only [Except.ok.injEq] at hw
      have hsame := linkDependencies_same (env.rangeOrder 2 (mapKeys loaded)) loaded
      rw [hw] at hsame
      have hback : ∀ k r, mapGet wired k = some r → (k, r.JSONData) ∈ stripped := by
        intro k r h
        obtain ⟨r0, h0, hj⟩ := hsame.2 k r h
        have := hcalc.2 (k, r0) (mapGet_mem _ _ _ h0)
        rw [hj]
        exact mapGet_mem _ _ _ this
      refine ⟨by rw [hsame.1]; exact hcalc.1, ?_, ?_⟩
      · intro k r h
        exact hsex _ (hback k r h)
      · intro k1 r1 k2 r2 h1 h2 hid
        exact hsinj _ (hback k1 r1 h1) _ (hback k2 r2 h2) hid
    · rw [hl] at hw
      simp at hw

/-- A successful `loadPlugins` returns the records of the final `loadedPlugins`, which has
the keys and descriptors of the map the loop "validate signatures" started from. -/
theorem loadPlugins_ok (l : loader.Loader) (env : LoaderEnv) (paths existing : List String)
    (res : List PluginV2) (h : (l.loadPlugins env paths existing).2 = .ok res) :
    ∃ wired final, l.wiredPlugins env paths existing = .ok wired ∧
      SameDescriptors wired final ∧
      res = (env.rangeOrder 4 (mapKeys final)).filterMap (mapGet final) := by
  unfold loader.Loader.loadPlugins at h
  cases hw : l.wiredPlugins env paths existing with
  | error e => rw [hw] at h; simp at h
  | ok wired =>
    simp only [hw] at h
    have hsame := validateLoop_same l.cfg env l.AllowUnsignedPluginsCondition
      (env.rangeOrder 3 (mapKeys wired)) (wired, l.errs)
    rcases hv : rangeLoop (validateStep l.cfg env l.AllowUnsignedPluginsCondition)
        (wired, l.errs) (env.rangeOrder 3 (mapKeys wired)) with ⟨⟨final, errs⟩, _ | e⟩
    · rw [hv] at h hsame
      simp only [] at h
      rcases hi : rangeLoop (loader.initStep env final) []
          (env.rangeOrder 4 (mapKeys final)) with ⟨res', _ | e⟩
      · rw [hi] at h
        simp only [Except.ok.injEq] at h
        subst h
        refine ⟨wired, final, rfl, hsame, ?_⟩
        simpa using initLoop_ok env final _ [] res' hi
      · rw [hi] at h
        simp at h
    · rw [hv] at h
      simp at h

theorem nodup_filterMap_map {α β γ : Type} (g : α → Option β) (f : β → γ) (ks : List α)
    (hnd : ks.Nodup)
    (hinj : ∀ k1 ∈ ks, ∀ k2 ∈ ks, ∀ b1 b2, g k1 = some b1 → g k2 = some b2 →
      f b1 = f b2 → k1 = k2) :
    ((ks.filterMap g).map f).Nodup := by
  induction ks with
  | nil => simp
  | cons k ks ih =>
    have hnd' := List.nodup_cons.mp hnd
    have ih' := ih hnd'.2 (fun k1 h1 k2 h2 => hinj k1 (List.mem_cons_of_mem _ h1) k2
      (List.mem_cons_of_mem _ h2))
    cases hg : g k with
    | none => simpa [List.filterMap_cons, hg] using ih'
    | some b =>
      simp only [List.filterMap_cons, hg, List.map_cons, List.nodup_cons]
      refine ⟨?_, ih'⟩
      intro hmem
      obtain ⟨b', hb', hfb⟩ := List.mem_map.mp hmem
      obtain ⟨k', hk', hgk'⟩ := List.mem_filterMap.mp hb'
      have := hinj k (List.mem_cons_self _ _) k' (List.mem_cons_of_mem _ hk') b b' hg hgk' hfb.symm
      exact hnd'.1 (this ▸ hk')

/-! ## Claims on the returned records -/

theorem scenarioEnv_orderOK : OrderOK scenarioEnv := fun _ _ => List.Perm.refl _

/-- Claim C8: whatever the scanned descriptors (any number of which may share an ID) and
whatever the iteration order, no two descriptors that survive `stripDuplicates` share an ID,
and the records returned by a load have pairwise distinct plugin IDs. -/
theorem C8_returned_ids_distinct (l : loader.Loader) (env : LoaderEnv)
    (paths existing : List String) (hord : OrderOK env) :
    (∀ (f : GoMap JSONData) (order : List String), (mapKeys f).Nodup →
        order.Perm (mapKeys f) →
        ((loader.stripDuplicates order f existing).map (fun e => e.2.ID)).Nodup) ∧
      (∀ res, (l.loadPlugins env paths existing).2 = .ok res →
        (res.map PluginV2.ID).Nodup) := by
  constructor
  · intro f order hnd hperm
    obtain ⟨_, hknd, _, hinj⟩ := stripDuplicates_spec order f existing hnd
      (fun k hk => hperm.mem_iff.mpr hk)
    have hent : (loader.stripDuplicates order f existing).Nodup := List.Nodup.of_map _ hknd
    refine List.Nodup.map_on ?_ hent
    intro e1 h1 e2 h2 hid
    exact entry_unique _ hknd e1 e2 h1 h2 (hinj e1 h1 e2 h2 hid)
  · intro res hres
    obtain ⟨wired, final, hw, hsame, rfl⟩ := loadPlugins_ok l env paths existing res hres
    obtain ⟨hnd, _, hinj⟩ := wiredPlugins_spec l env paths existing hord wired hw
    have hfnd : (mapKeys final).Nodup := by rw [hsame.1]; exact hnd
    refine nodup_filterMap_map (mapGet final) PluginV2.ID _
      ((hord 4 (mapKeys final)).nodup_iff.mpr hfnd) ?_
    intro k1 _ k2 _ r1 r2 h1 h2 hid
    obtain ⟨r1', h1', e1⟩ := hsame.2 k1 r1 h1
    obtain ⟨r2', h2', e2⟩ := hsame.2 k2 r2 h2
    refine hinj k1 r1' k2 r2' h1' h2' ?_
    unfold PluginV2.ID at hid ⊢
    rw [← e1, ← e2]
    exact hid

set_option maxRecDepth 100000 in
/-- Claim C8 at scenario S4: two descriptors with the ID `foo` at different paths; the load
returns one record. -/
theorem C8_returned_ids_distinct_witness :
    OrderOK scenarioEnv ∧
      (({ cfg := scenarioCfg } : loader.Loader).loadPlugins scenarioEnv
        ["/e/foo/plugin.json", "/c/app/plugins/datasource/foo/plugin.json"] []).2 =
        .ok [fooRecord] ∧
      ([fooRecord].map PluginV2.ID).Nodup :=
  ⟨scenarioEnv_orderOK, rfl,
    (C8_returned_ids_distinct { cfg := scenarioCfg } scenarioEnv
      ["/e/foo/plugin.json", "/c/app/plugins/datasource/foo/plugin.json"] []
      scenarioEnv_orderOK).2 [fooRecord] rfl⟩

/-- Claim C9: when `existingPlugins` contains the ID `X`, `stripDuplicates` removes every
descriptor with the ID `X`, however often `X` occurs in the scan, and no record returned by
`loadPlugins` or `LoadAll` has the ID `X`. -/
theorem C9_existing_ids_not_loaded (l : loader.Loader) (env : LoaderEnv)
    (existing : List String) (hord : OrderOK env) (X : String) (hX : X ∈ existing) :
    (∀ (f : GoMap JSONData) (order : List String), (mapKeys f).Nodup →
        order.Perm (mapKeys f) →
        ∀ e ∈ loader.stripDuplicates order f existing, e.2.ID ≠ X) ∧
      (∀ paths res, (l.loadPlugins env paths existing).2 = .ok res → ∀ r ∈ res, r.ID ≠ X) ∧
      (∀ path res, (l.LoadAll env path existing).2 = .ok res → ∀ r ∈ res, r.ID ≠ X) := by
  have hload : ∀ paths res, (l.loadPlugins env paths existing).2 = .ok res →
      ∀ r ∈ res, r.ID ≠ X := by
    intro paths res hres
    obtain ⟨wired, final, hw, hsame, rfl⟩ := loadPlugins_ok l env paths existing res hres
    obtain ⟨_, hex, _⟩ := wiredPlugins_spec l env paths existing hord wired hw
    intro r hr hid
    obtain ⟨k, _, hk⟩ := List.mem_filterMap.mp hr
    obtain ⟨r', hr', e⟩ := hsame.2 k r hk
    have : r'.ID = X := by
      unfold PluginV2.ID at hid ⊢
      rw [← e]; exact hid
    exact hex k r' hr' (this ▸ hX)
  refine ⟨?_, hload, ?_⟩
  · intro f order hnd hperm e he hid
    obtain ⟨_, _, hex, _⟩ := stripDuplicates_spec order f existing hnd
      (fun k hk => hperm.mem_iff.mpr hk)
    exact hex e he (hid ▸ hX)
  · intro path res hres
    exact hload (env.find path) res hres

set_option maxRecDepth 100000 in
/-- Claim C9 at a scan of `foo` (twice) and `parent`, with `foo` in the registry whose IDs
are passed as `existingPlugins`. -/
theorem C9_existing_ids_not_loaded_witness :
    OrderOK scenarioEnv ∧
      "foo" ∈ ({ Cfg := scenarioCfg, plugins := [("foo", fooRecord)] } :
        PluginManagerV2).registeredPlugins ∧
      (({ cfg := scenarioCfg } : loader.Loader).loadPlugins scenarioEnv
        ["/e/foo/plugin.json", "/e/parent/plugin.json",
          "/c/app/plugins/datasource/foo/plugin.json"]
        ({ Cfg := scenarioCfg, plugins := [("foo", fooRecord)] } :
          PluginManagerV2).registeredPlugins).2 = .ok [parentRecord] ∧
      ∀ r ∈ [parentRecord], r.ID ≠ "foo" :=
  ⟨scenarioEnv_orderOK, by decide, rfl,
    (C9_existing_ids_not_loaded { cfg := scenarioCfg } scenarioEnv
      ({ Cfg := scenarioCfg, plugins := [("foo", fooRecord)] } :
        PluginManagerV2).registeredPlugins
      scenarioEnv_orderOK "foo" (by decide)).2.1
      ["/e/foo/plugin.json", "/e/parent/plugin.json",
        "/c/app/plugins/datasource/foo/plugin.json"] [parentRecord] rfl⟩

/-! ## The error map -/

theorem loadPlugins_errs (l : loader.Loader) (env : LoaderEnv) (paths existing : List String)
    (wired : GoMap PluginV2) (hw : l.wiredPlugins env paths existing = .ok wired) :
    (l.loadPlugins env paths existing).1.errs =
      (rangeLoop (validateStep l.cfg env l.AllowUnsignedPluginsCondition) (wired, l.errs)
        (env.rangeOrder 3 (mapKeys wired))).1.2 := by
  unfold loader.Loader.loadPlugins
  simp only [hw]
  rcases hv : rangeLoop (validateStep l.cfg env l.AllowUnsignedPluginsCondition)
      (wired, l.errs) (env.rangeOrder 3 (mapKeys wired)) with ⟨⟨final, errs⟩, _ | e⟩
  · simp only []
    rcases hi : rangeLoop (loader.initStep env final) []
        (env.rangeOrder 4 (mapKeys final)) with ⟨res', _ | e⟩ <;> rfl
  · rfl

theorem validateStep_rejected (cfg : Cfg) (env : LoaderEnv) (cond : Option (PluginV2 → Bool))
    (st : GoMap PluginV2 × GoMap PluginError) (dir : String) (plugin : PluginV2)
    (signingError : PluginError) (hg : mapGet st.1 dir = some plugin)
    (hrej : (validateAt cfg env cond st.1 plugin).err = some signingError) :
    validateStep cfg env cond st dir =
      ((mapModify st.1 dir (fun _ => (validateAt cfg env cond st.1 plugin).plugin),
        mapSet st.2 plugin.ID signingError), none) := by
  have hid : (validateAt cfg env cond st.1 plugin).plugin.ID = plugin.ID := by
    unfold PluginV2.ID validateAt
    rw [validate_JSONData]
  unfold validateStep
  simp only [hg, hrej, hid]

theorem validateStep_errs (cfg : Cfg) (env : LoaderEnv) (cond : Option (PluginV2 → Bool))
    (st : GoMap PluginV2 × GoMap PluginError) (dir : String) :
    (validateStep cfg env cond st dir).1.2 = st.2 ∨
      ∃ plugin signingError, mapGet st.1 dir = some plugin ∧
        (validateStep cfg env cond st dir).1.2 = mapSet st.2 plugin.ID signingError := by
  cases hg : mapGet st.1 dir with
  | none => left; simp [validateStep, hg]
  | some plugin =>
    cases he : (validateAt cfg env cond st.1 plugin).err with
    | some signingError =>
      right
      refine ⟨plugin, signingError, rfl, ?_⟩
      rw [validateStep_rejected cfg env cond st dir plugin signingError hg he]
    | none =>
      left
      unfold validateStep
      simp only [hg, he]
      split_ifs
      · cases env.fileExists (Join (validateAt cfg env cond st.1 plugin).plugin.PluginDir "module.js")
          <;> rfl
      · rfl

/-- Passes of the loop "validate signatures" over records whose IDs differ from `X` leave
the entry of the error map under `X` as it is. -/
theorem validateLoop_errs_other (cfg : Cfg) (env : LoaderEnv) (cond : Option (PluginV2 → Bool))
    (X : String) (ks : List String) :
    ∀ st : GoMap PluginV2 × GoMap PluginError,
      (∀ d ∈ ks, ∀ r, mapGet st.1 d = some r → r.ID ≠ X) →
      mapGet (rangeLoop (validateStep cfg env cond) st ks).1.2 X = mapGet st.2 X := by
  induction ks with
  | nil => intro st _; rfl
  | cons k ks ih =>
    intro st h
    have hstep : mapGet (validateStep cfg env cond st k).1.2 X = mapGet st.2 X := by
      rcases validateStep_errs cfg env cond st k with h1 | ⟨plugin, e, hg, h1⟩
      · rw [h1]
      · rw [h1, mapGet_mapSet, if_neg (h k (List.mem_cons_self _ _) plugin hg)]
    have hsame := validateStep_same cfg env cond st k
    have hnext : ∀ d ∈ ks, ∀ r, mapGet (validateStep cfg env cond st k).1.1 d = some r →
        r.ID ≠ X := by
      intro d hd r hr
      obtain ⟨r0, hr0, e⟩ := hsame.2 d r hr
      have := h d (List.mem_cons_of_mem _ hd) r0 hr0
      unfold PluginV2.ID at this ⊢
      rw [e]; exact this
    rcases hb : validateStep cfg env cond st k with ⟨st1, _ | e⟩
    · rw [rangeLoop_cons_ok _ _ _ _ _ hb]
      rw [hb] at hstep hnext
      rw [ih st1 hnext, hstep]
    · rw [rangeLoop_cons_err _ _ _ _ _ e hb]
      rw [hb] at hstep
      exact hstep

theorem validateLoop_errs_nodup (cfg : Cfg) (env : LoaderEnv) (cond : Option (PluginV2 → Bool))
    (ks : List String) (st : GoMap PluginV2 × GoMap PluginError)
    (h : (mapKeys st.2).Nodup) :
    (mapKeys (rangeLoop (validateStep cfg env cond) st ks).1.2).Nodup := by
  refine rangeLoop_inv (validateStep cfg env cond) (fun st' => (mapKeys st'.2).Nodup) ?_ ks st h
  intro st' k h'
  rcases validateStep_errs cfg env cond st' k with h1 | ⟨plugin, e, _, h1⟩
  · rw [h1]; exact h'
  · rw [h1]; exact nodup_mapKeys_mapSet _ _ _ h'

/-- Claim C10: in every load, a record that the signature validator rejects, in the state in
which the loop "validate signatures" reaches it, has afterwards exactly one entry in the
map returned by `Errors()`, under its ID and holding the error the validator returned;
and every other record of the load has a different ID, so no other record of the load
writes to that key. -/
theorem C10_rejected_record_has_error_entry (l : loader.Loader) (env : LoaderEnv)
    (paths existing : List String) (hord : OrderOK env) (herrs : (mapKeys l.errs).Nodup)
    (wired : GoMap PluginV2) (hw : l.wiredPlugins env paths existing = .ok wired)
    (pre post : List String) (dir : String)
    (hsplit : env.rangeOrder 3 (mapKeys wired) = pre ++ dir :: post)
    (st : GoMap PluginV2 × GoMap PluginError)
    (hpre : rangeLoop (validateStep l.cfg env l.AllowUnsignedPluginsCondition)
      (wired, l.errs) pre = (st, none))
    (plugin : PluginV2) (hget : mapGet st.1 dir = some plugin)
    (signingError : PluginError)
    (hrej : (validateAt l.cfg env l.AllowUnsignedPluginsCondition st.1 plugin).err =
      some signingError) :
    mapGet (l.loadPlugins env paths existing).1.Errors plugin.ID = some signingError ∧
      (mapKeys (l.loadPlugins env paths existing).1.Errors).count plugin.ID = 1 ∧
      ∀ dir' plugin', dir' ∈ pre ++ post → mapGet wired dir' = some plugin' →
        plugin'.ID ≠ plugin.ID := by
  obtain ⟨hnd, _, hinj⟩ := wiredPlugins_spec l env paths existing hord wired hw
  have hordnd : (pre ++ dir :: post).Nodup := by
    rw [← hsplit]; exact (hord 3 (mapKeys wired)).nodup_iff.mpr hnd
  have hnotin : dir ∉ pre ++ post := (List.nodup_cons.mp (List.nodup_middle.mp hordnd)).1
  -- the record under `dir` has the descriptor it had after the dependency loop
  have hsame0 : SameDescriptors wired st.1 := by
    have := validateLoop_same l.cfg env l.AllowUnsignedPluginsCondition pre (wired, l.errs)
    rw [hpre] at this
    exact this
  obtain ⟨r0, hr0, e0⟩ := hsame0.2 dir plugin hget
  have hother : ∀ dir' plugin', dir' ∈ pre ++ post → mapGet wired dir' = some plugin' →
      plugin'.ID ≠ plugin.ID := by
    intro dir' plugin' hmem hg hid
    have : dir' = dir := by
      refine hinj dir' plugin' dir r0 hg hr0 ?_
      unfold PluginV2.ID at hid ⊢
      rw [← e0]; exact hid
    exact hnotin (this ▸ hmem)
  -- the run of the loop
  have hstep := validateStep_rejected l.cfg env l.AllowUnsignedPluginsCondition st dir plugin
    signingError hget hrej
  have hrun : rangeLoop (validateStep l.cfg env l.AllowUnsignedPluginsCondition) (wired, l.errs)
      (env.rangeOrder 3 (mapKeys wired)) =
      rangeLoop (validateStep l.cfg env l.AllowUnsignedPluginsCondition)
        (mapModify st.1 dir
          (fun _ => (validateAt l.cfg env l.AllowUnsignedPluginsCondition st.1 plugin).plugin),
          mapSet st.2 plugin.ID signingError) post := by
    rw [hsplit, rangeLoop_append, hpre]
    simp only []
    rw [rangeLoop_cons_ok _ _ _ _ _ hstep]
  have hsame1 : SameDescriptors st.1 (mapModify st.1 dir
      (fun _ => (validateAt l.cfg env l.AllowUnsignedPluginsCondition st.1 plugin).plugin)) := by
    have := validateStep_same l.cfg env l.AllowUnsignedPluginsCondition st dir
    rw [hstep] at this
    exact this
  have hpost : ∀ d ∈ post, ∀ r, mapGet (mapModify st.1 dir
      (fun _ => (validateAt l.cfg env l.AllowUnsignedPluginsCondition st.1 plugin).plugin))
        d = some r → r.ID ≠ plugin.ID := by
    intro d hd r hr
    obtain ⟨r1, hr1, e1⟩ := (hsame0.trans hsame1).2 d r hr
    have := hother d r1 (List.mem_append_right _ hd) hr1
    unfold PluginV2.ID at this ⊢
    rw [e1]; exact this
  have hE : (l.loadPlugins env paths existing).1.Errors =
      (rangeLoop (validateStep l.cfg env l.AllowUnsignedPluginsCondition)
        (mapModify st.1 dir
          (fun _ => (validateAt l.cfg env l.AllowUnsignedPluginsCondition st.1 plugin).plugin),
          mapSet st.2 plugin.ID signingError) post).1.2 := by
    unfold loader.Loader.Errors
    rw [loadPlugins_errs l env paths existing wired hw, hrun]
  have hentry : mapGet (l.loadPlugins env paths existing).1.Errors plugin.ID =
      some signingError := by
    rw [hE, validateLoop_errs_other _ _ _ plugin.ID post _ hpost, mapGet_mapSet, if_pos rfl]
  refine ⟨hentry, ?_, hother⟩
  have hnodup : (mapKeys (l.loadPlugins env paths existing).1.Errors).Nodup := by
    unfold loader.Loader.Errors
    rw [loadPlugins_errs l env paths existing wired hw]
    exact validateLoop_errs_nodup _ _ _ _ _ herrs
  have hmem : plugin.ID ∈ mapKeys (l.loadPlugins env paths existing).1.Errors := by
    rw [← mapGet_isSome_iff, hentry]; rfl
  exact List.count_eq_one_of_mem hnodup hmem

set_option maxRecDepth 100000 in
/-- Claim C10 at scenario S2 loaded together with the plugin `parent`: `foo` is rejected
with `signature-missing`, and `Errors()` holds exactly that entry for it. -/
theorem C10_rejected_record_has_error_entry_witness :
    OrderOK scenarioEnv ∧
      ({ cfg := scenarioCfg } : loader.Loader).wiredPlugins scenarioEnv
        ["/e/parent/plugin.json", "/e/foo/plugin.json"] [] =
        .ok [("/e/parent", parentRecord), ("/e/foo", fooRecord)] ∧
      (validateAt scenarioCfg scenarioEnv none
        [("/e/parent", parentRecord), ("/e/foo", fooRecord)] fooRecord).err =
        some { ErrorCode := ErrorCode.signatureMissing } ∧
      mapGet (({ cfg := scenarioCfg } : loader.Loader).loadPlugins scenarioEnv
        ["/e/parent/plugin.json", "/e/foo/plugin.json"] []).1.Errors fooRecord.ID =
        some { ErrorCode := ErrorCode.signatureMissing } ∧
      (mapKeys (({ cfg := scenarioCfg } : loader.Loader).loadPlugins scenarioEnv
        ["/e/parent/plugin.json", "/e/foo/plugin.json"] []).1.Errors).count fooRecord.ID = 1 ∧
      ∀ dir' plugin', dir' ∈ ["/e/parent"] ++ [] →
        mapGet [("/e/parent", parentRecord), ("/e/foo", fooRecord)] dir' = some plugin' →
        plugin'.ID ≠ fooRecord.ID :=
  ⟨scenarioEnv_orderOK, rfl, by decide,
    C10_rejected_record_has_error_entry { cfg := scenarioCfg } scenarioEnv
      ["/e/parent/plugin.json", "/e/foo/plugin.json"] [] scenarioEnv_orderOK (by decide)
      [("/e/parent", parentRecord), ("/e/foo", fooRecord)] rfl
      ["/e/parent"] [] "/e/foo" rfl
      ([("/e/parent", parentRecord), ("/e/foo", fooRecord)], []) rfl
      fooRecord rfl { ErrorCode := ErrorCode.signatureMissing } (by decide)⟩

/-! ## Registry -/

/-- Claim C12: when the registry already maps the ID of `p`, `register` returns an error and
leaves the registry as it is; otherwise `register` returns nil and the registry afterwards
maps the ID of `p` to `p` and every other ID as before. -/
theorem C12_register (m : PluginManagerV2) (p : PluginV2) :
    ((mapGet m.plugins p.ID).isSome = true →
        (m.register p).2 = some ("plugin " ++ p.ID ++ " already registered") ∧
          (m.register p).1 = m) ∧
      (mapGet m.plugins p.ID = none →
        (m.register p).2 = none ∧ (m.register p).1.Cfg = m.Cfg ∧
          (∀ k, mapGet (m.register p).1.plugins k =
              if k = p.ID then some p else mapGet m.plugins k) ∧
          ∀ k, k ∈ mapKeys (m.register p).1.plugins ↔ k = p.ID ∨ k ∈ mapKeys m.plugins) := by
  constructor
  · intro h
    simp [PluginManagerV2.register, h]
  · intro h
    have hs : (mapGet m.plugins p.ID).isSome = false := by rw [h]; rfl
    refine ⟨by simp [PluginManagerV2.register, hs], by simp [PluginManagerV2.register, hs],
      ?_, ?_⟩
    · intro k
      have hreg : (m.register p).1.plugins = mapSet m.plugins p.ID p := by
        simp [PluginManagerV2.register, hs]
      rw [hreg, mapGet_mapSet]
      by_cases hk : k = p.ID
      · simp [hk]
      · have : ¬ p.ID = k := fun h' => hk h'.symm
        simp [hk, this]
    · intro k
      have hreg : (m.register p).1.plugins = mapSet m.plugins p.ID p := by
        simp [PluginManagerV2.register, hs]
      rw [hreg]
      exact mem_mapKeys_mapSet _ _ _ _

/-- Claim C12 at a registry that holds `foo`: registering `foo` again fails, registering
`parent` succeeds. -/
theorem C12_register_witness :
    ((mapGet [("foo", fooRecord)] fooRecord.ID).isSome = true ∧
        (({ Cfg := scenarioCfg, plugins := [("foo", fooRecord)] } :
          PluginManagerV2).register fooRecord).2 =
          some ("plugin " ++ fooRecord.ID ++ " already registered")) ∧
      (mapGet [("foo", fooRecord)] parentRecord.ID = none ∧
        (({ Cfg := scenarioCfg, plugins := [("foo", fooRecord)] } :
          PluginManagerV2).register parentRecord).2 = none) :=
  ⟨⟨by decide,
      ((C12_register { Cfg := scenarioCfg, plugins := [("foo", fooRecord)] } fooRecord).1
        (by decide)).1⟩,
    by decide,
    ((C12_register { Cfg := scenarioCfg, plugins := [("foo", fooRecord)] } parentRecord).2
      (by decide)).1⟩

/-- A call of `Plugin` made while `pluginsMu` is not held for writing returns the lookup
and leaves the mutex as it was. -/
theorem lockedPlugin_free (m : PluginManagerV2) (mu : RWMutex) (pluginID : String)
    (hmu : mu.writer = false) : m.lockedPlugin mu pluginID = some (mu, m.Plugin pluginID) := by
  cases mu with
  | mk w r =>
    simp only at hmu
    subst hmu
    simp [PluginManagerV2.lockedPlugin, RWMutex.RLock, RWMutex.RUnlock]

/-- A call of `Plugin` made while `pluginsMu` is held for writing never returns. -/
theorem lockedPlugin_held (m : PluginManagerV2) (mu : RWMutex) (pluginID : String)
    (hmu : mu.writer = true) : m.lockedPlugin mu pluginID = none := by
  simp [PluginManagerV2.lockedPlugin, RWMutex.RLock, hmu]

/-- The mutex is held for writing after a successful `Lock`. -/
theorem Lock_writer (mu mu1 : RWMutex) (h : mu.Lock = some mu1) : mu1.writer = true := by
  unfold RWMutex.Lock at h
  split at h
  · exact absurd h (by simp)
  · cases h
    rfl

/-- The method `unregisterAndStop` never returns, whatever the state of the mutex at the
call, and it leaves the registry as it is: either its `Lock` has to wait, or its call of
`Plugin` waits for the lock that `unregisterAndStop` itself holds. -/
theorem unregisterAndStop_blocks (m : PluginManagerV2) (env : ManagerEnv) (mu : RWMutex)
    (pluginID : String) :
    (m.unregisterAndStop env mu pluginID).2.2 = Outcome.blocked ∧
      (m.unregisterAndStop env mu pluginID).1 = m := by
  unfold PluginManagerV2.unregisterAndStop
  cases h : mu.Lock with
  | none => exact ⟨rfl, rfl⟩
  | some mu1 =>
    simp [lockedPlugin_held m mu1 pluginID (Lock_writer mu mu1 h)]

/-- Called with the mutex free, `unregisterAndStop` is left waiting with the mutex held for
writing. -/
theorem unregisterAndStop_holds (m : PluginManagerV2) (env : ManagerEnv) (pluginID : String) :
    (m.unregisterAndStop env {} pluginID).2.1 = { writer := true } := by
  simp [PluginManagerV2.unregisterAndStop, RWMutex.Lock, PluginManagerV2.lockedPlugin,
    RWMutex.RLock]

/-- A record that `Plugin` returns does not have the decommissioned flag set. -/
theorem Plugin_not_decommissioned (m : PluginManagerV2) (pluginID : String) (plugin : PluginV2)
    (hp : m.Plugin pluginID = some plugin) : plugin.IsDecommissioned = false := by
  unfold PluginManagerV2.Plugin at hp
  cases hg : mapGet m.plugins pluginID with
  | none => simp [hg] at hp
  | some p =>
    simp only [hg] at hp
    by_cases hd : p.IsDecommissioned = true
    · simp [hd] at hp
    · simp only [hd] at hp
      cases hp
      simpa using hd

/-- When the path of the plugin directory relative to the external root cannot be made, or
begins with `../`, `Uninstall` returns `ErrUninstallOutsideOfPluginDir`, leaves the
registry and the mutex as they are and does not call the installer. -/
theorem Uninstall_outside (m : PluginManagerV2) (env : ManagerEnv) (mu : RWMutex)
    (pluginID : String) (plugin : PluginV2) (hmu : mu.writer = false)
    (hp : m.Plugin pluginID = some plugin) (hext : plugin.IsExternalPlugin = true)
    (hrel : Rel m.Cfg.PluginsPath plugin.PluginDir = none ∨
      ∃ path, Rel m.Cfg.PluginsPath plugin.PluginDir = some path ∧ HasPrefix path "../" = true) :
    (m.Uninstall env mu pluginID).outcome =
        Outcome.returned (some ManagerError.ErrUninstallOutsideOfPluginDir) ∧
      (m.Uninstall env mu pluginID).manager = m ∧
      (m.Uninstall env mu pluginID).pluginsMu = mu ∧
      (m.Uninstall env mu pluginID).uninstalled = [] := by
  unfold PluginManagerV2.Uninstall
  rw [lockedPlugin_free m mu pluginID hmu]
  rcases hrel with h | ⟨path, h, hpre⟩
  · simp [hp, hext, h]
  · simp [hp, hext, h, hpre]

/-- For a registered external plugin that passes the check of the relative path, a call of
`Uninstall` made with the mutex free never returns: it waits in `unregisterAndStop` with
the mutex held for writing, the registry as it was and the installer not called. -/
theorem Uninstall_past_check_blocks (m : PluginManagerV2) (env : ManagerEnv)
    (pluginID : String) (plugin : PluginV2) (path : String)
    (hp : m.Plugin pluginID = some plugin) (hext : plugin.IsExternalPlugin = true)
    (hrel : Rel m.Cfg.PluginsPath plugin.PluginDir = some path)
    (hpre : HasPrefix path "../" = false) :
    (m.Uninstall env {} pluginID).outcome = Outcome.blocked ∧
      (m.Uninstall env {} pluginID).manager = m ∧
      (m.Uninstall env {} pluginID).pluginsMu = { writer := true } ∧
      (m.Uninstall env {} pluginID).uninstalled = [] := by
  have hd := Plugin_not_decommissioned m pluginID plugin hp
  have hb := unregisterAndStop_blocks m env {} pluginID
  have hh := unregisterAndStop_holds m env pluginID
  have hl := lockedPlugin_free m {} pluginID rfl
  unfold PluginManagerV2.Uninstall PluginManagerV2.lockedIsRegistered
  simp only [hl, hp, hext, hrel, hpre, hd]
  rcases hs : m.unregisterAndStop env {} pluginID with ⟨m1, mu1, o⟩
  rw [hs] at hb hh
  simp only at hb hh
  obtain ⟨ho, hm⟩ := hb
  subst ho hm hh
  simp [hs]

/-- With the mutex free, `Uninstall` of a registered external plugin returns
`ErrUninstallOutsideOfPluginDir` exactly when the path of the plugin directory relative to
the external root cannot be made or begins with `../`. -/
theorem Uninstall_outside_iff (m : PluginManagerV2) (env : ManagerEnv) (pluginID : String)
    (plugin : PluginV2) (hp : m.Plugin pluginID = some plugin)
    (hext : plugin.IsExternalPlugin = true) :
    (m.Uninstall env {} pluginID).outcome =
        Outcome.returned (some ManagerError.ErrUninstallOutsideOfPluginDir) ↔
      (Rel m.Cfg.PluginsPath plugin.PluginDir = none ∨
        ∃ path, Rel m.Cfg.PluginsPath plugin.PluginDir = some path ∧
          HasPrefix path "../" = true) := by
  constructor
  · intro h
    cases hrel : Rel m.Cfg.PluginsPath plugin.PluginDir with
    | none => exact Or.inl rfl
    | some path =>
      right
      refine ⟨path, rfl, ?_⟩
      by_contra hpre
      have hpre : HasPrefix path "../" = false := by simpa using hpre
      have hb := (Uninstall_past_check_blocks m env pluginID plugin path hp hext hrel hpre).1
      rw [hb] at h
      cases h
  · intro h
    exact (Uninstall_outside m env {} pluginID plugin rfl hp hext h).1

/-- A path that does not begin with `..` does not begin with `../`. -/
theorem HasPrefix_dots_sep (path : String) (h : HasPrefix path ".." = false) :
    HasPrefix path "../" = false := by
  unfold HasPrefix at *
  have e1 : ("..".data : List Char) = ['.', '.'] := rfl
  have e2 : ("../".data : List Char) = ['.', '.', '/'] := rfl
  rw [e1] at h
  rw [e2]
  generalize path.data = l at h ⊢
  rcases l with _ | ⟨a, _ | ⟨b, l⟩⟩
  · rfl
  · simp [List.isPrefixOf]
  · simp only [List.isPrefixOf, Bool.and_true, Bool.and_eq_false_imp, beq_iff_eq] at h ⊢
    intro ha hb
    exact absurd hb (by simpa using h ha)

/-- A directory that the classifier puts in the external class passes the check of
`Uninstall` under the same configuration: the check can only reject a record whose class
and directory were not classified under the external root that the manager has now. -/
theorem external_class_passes_check (cfg : Cfg) (pluginDir : String)
    (h : pluginClass cfg pluginDir = PluginClass.External) :
    ∃ path, Rel cfg.PluginsPath pluginDir = some path ∧ HasPrefix path "../" = false := by
  unfold pluginClass at h
  simp only at h
  split at h
  · cases h
  · split at h
    · cases h
    · split at h
      · rename_i hsub
        unfold isSubDir at hsub
        cases hrel : Rel cfg.PluginsPath pluginDir with
        | none => simp [hrel] at hsub
        | some path =>
          simp only [hrel] at hsub
          exact ⟨path, rfl, HasPrefix_dots_sep path (by simpa using hsub)⟩
      · cases h

set_option maxRecDepth 100000 in
/-- Claim C17 is violated by the code. The registry holds a plugin at `/e` that the
classifier put in the external class when the external root was `/e`; the manager now has
the external root `/e/plugins`, so the path of the plugin directory relative to the
external root is exactly `..`. A call of `Uninstall`, made with the mutex free and whatever
the collaborators do, does not return `ErrUninstallOutsideOfPluginDir`: the path does not
have the prefix `../`, the call passes the check, enters `unregisterAndStop` and never
returns, waiting with `pluginsMu` held for writing, the registry as it was and the
installer not called. -/
theorem C17_parent_of_root_passes_the_check (env : ManagerEnv) :
    pluginClass rootAtLoad "/e" = PluginClass.External ∧
      escapedRegistry.Plugin "x" = some escapedRecord ∧
      escapedRecord.IsExternalPlugin = true ∧
      Rel escapedRegistry.Cfg.PluginsPath escapedRecord.PluginDir = some ".." ∧
      (escapedRegistry.Uninstall env {} "x").outcome ≠
        Outcome.returned (some ManagerError.ErrUninstallOutsideOfPluginDir) ∧
      (escapedRegistry.Uninstall env {} "x").outcome = Outcome.blocked ∧
      (escapedRegistry.Uninstall env {} "x").pluginsMu = { writer := true } ∧
      (escapedRegistry.Uninstall env {} "x").manager.plugins = escapedRegistry.plugins ∧
      (escapedRegistry.Uninstall env {} "x").uninstalled = [] := by
  have hout : (escapedRegistry.Uninstall env {} "x").outcome = Outcome.blocked := rfl
  refine ⟨by decide, rfl, by decide, by decide, ?_, hout, rfl, rfl, rfl⟩
  rw [hout]
  exact fun h => Outcome.noConfusion h

/-! ## Classifier and descriptor check -/

/-- The classifier returns the class of the first root, in the order core, bundled,
external, for which `isSubDir` holds, and unknown when it holds for none. -/
theorem pluginClass_first_match (cfg : Cfg) (pluginDir : String) :
    pluginClass cfg pluginDir =
      if isSubDir (Join cfg.StaticRootPath "app/plugins") pluginDir then PluginClass.Core
      else if isSubDir cfg.BundledPluginsPath pluginDir then PluginClass.Bundled
      else if isSubDir cfg.PluginsPath pluginDir then PluginClass.External
      else PluginClass.Unknown := rfl

/-- Claim C16 is violated by the code: with the roots `/c`, `/b`, `/e`, the directory
`/e/..foo` lies in the external root and in no other root; its path relative to the
external root is `..foo`, which has the prefix `..`, and the classifier returns unknown. -/
theorem C16_dotted_name_is_unknown :
    Join scenarioCfg.PluginsPath "..foo" = "/e/..foo" ∧
      Rel scenarioCfg.PluginsPath "/e/..foo" = some "..foo" ∧
      isSubDir scenarioCfg.PluginsPath "/e/..foo" = false ∧
      pluginClass scenarioCfg "/e/..foo" = PluginClass.Unknown ∧
      pluginClass scenarioCfg "/e/foo" = PluginClass.External := by
  decide

/-- Claim C18: `validatePluginJSON` returns the error `InvalidPluginJSON` iff the ID is empty
or the type is not one of datasource, panel, app, renderer, and returns nil otherwise; a
descriptor with an empty ID is rejected whatever its type. -/
theorem C18_validatePluginJSON (data : JSONData) :
    (validatePluginJSON data = some LoadError.InvalidPluginJSON ↔
        data.ID = "" ∨ data.Type_ ∉ ["datasource", "panel", "app", "renderer"]) ∧
      (validatePluginJSON data = none ↔
        data.ID ≠ "" ∧ data.Type_ ∈ ["datasource", "panel", "app", "renderer"]) ∧
      ∀ (t : PluginType) (version : String) (backend : Bool),
        validatePluginJSON { ID := "", Type_ := t, Version := version, Backend := backend } =
          some LoadError.InvalidPluginJSON := by
  unfold validatePluginJSON PluginType.IsValid PluginTypes
  refine ⟨?_, ?_, ?_⟩
  · by_cases h1 : data.ID = ""
    · simp [h1]
    · by_cases h2 : data.Type_ ∈ ["datasource", "panel", "app", "renderer"]
      · simp [h1, h2]
      · simp [h1, h2]
  · by_cases h1 : data.ID = ""
    · simp [h1]
    · by_cases h2 : data.Type_ ∈ ["datasource", "panel", "app", "renderer"]
      · simp [h1, h2]
      · simp [h1, h2]
  · intro t version backend
    simp

/-! ## Resource response stream -/

/-- Claim C13: `Close` on an open stream returns nil and marks the stream closed; `Close` on
a closed stream returns an error and leaves the stream as it is; `Send` on a closed stream
returns an error and hands no frame to the channel; the two errors differ; and after
`Close`, `Recv` with a context that is not done returns `io.EOF`. -/
theorem C13_stream_close_and_send (s : callResourceResponseStream) :
    (s.closed = false → s.Close = ({ s with closed := true }, none)) ∧
      (s.closed = true →
        s.Close = (s, some (StreamError.new "cannot close a closed stream"))) ∧
      (s.closed = true → ∀ (α : Type) (res : α) (receiverWaiting pick : Bool),
        s.Send res receiverWaiting pick =
          SendResult.error (StreamError.new "cannot send to a closed stream")) ∧
      StreamError.new "cannot close a closed stream" ≠
        StreamError.new "cannot send to a closed stream" ∧
      (s.closed = false → s.ctxDone = false →
        ∀ (α : Type) (offered : Option α) (pick : Bool),
          s.Close.1.Recv offered pick = RecvResult.error StreamError.EOF) := by
  refine ⟨?_, ?_, ?_, by decide, ?_⟩
  · intro h
    simp [callResourceResponseStream.Close, h]
  · intro h
    simp [callResourceResponseStream.Close, h]
  · intro h α res receiverWaiting pick
    simp [callResourceResponseStream.Send, h]
  · intro h hctx α offered pick
    simp [callResourceResponseStream.Close, callResourceResponseStream.Recv, select2, h, hctx]

/-- Claim C13 at a new stream with a live context, closed once and twice. -/
theorem C13_stream_close_and_send_witness :
    (newCallResourceResponseStream false).closed = false ∧
      (newCallResourceResponseStream false).Close =
        ({ newCallResourceResponseStream false with closed := true }, none) ∧
      (newCallResourceResponseStream false).Close.1.closed = true ∧
      (newCallResourceResponseStream false).Close.1.Close =
        ((newCallResourceResponseStream false).Close.1,
          some (StreamError.new "cannot close a closed stream")) ∧
      (newCallResourceResponseStream false).Close.1.Recv (none : Option CallResourceResponse)
        true = RecvResult.error StreamError.EOF :=
  ⟨rfl, (C13_stream_close_and_send (newCallResourceResponseStream false)).1 rfl, rfl,
    (C13_stream_close_and_send (newCallResourceResponseStream false).Close.1).2.1 rfl,
    (C13_stream_close_and_send (newCallResourceResponseStream false)).2.2.2.2 rfl rfl
      CallResourceResponse none true⟩

/-! ## `flushStream` -/

theorem flushLoop_nil (order : List String → List String) (closeResult : Option String)
    (n : Nat) (w : ResponseWriter) (ending : RecvEnd) :
    (flushLoop order closeResult n w [] ending).1 = w := by
  cases ending <;> (unfold flushLoop; split_ifs <;> rfl)

/-- The calls one pass of the loop makes on the writer: `WriteHeader` when the frame is the
first and has a header map, then `Write`, then `Flush` when the writer is a flusher. -/
theorem flushFrame_calls (order : List String → List String) (n : Nat) (w : ResponseWriter)
    (resp : CallResourceResponse) :
    (flushFrame order n w resp).calls =
      w.calls ++
        ((if n = 0 ∧ resp.Headers.isSome = true then [WriterCall.WriteHeader resp.Status]
          else []) ++
          (WriterCall.Write resp.Body :: if w.isFlusher then [WriterCall.Flush] else [])) := by
  unfold flushFrame
  cases hh : resp.Headers with
  | none =>
    cases hf : w.isFlusher <;> simp [hf]
  | some headers =>
    by_cases hn : n = 0
    · cases hf : w.isFlusher <;> simp [hf, hn]
    · cases hf : w.isFlusher <;> simp [hf, hn]

/-- After the first frame no pass of the loop calls `WriteHeader`. -/
theorem flushLoop_later (order : List String → List String) (closeResult : Option String)
    (frames : List CallResourceResponse) (ending : RecvEnd) :
    ∀ (n : Nat) (w : ResponseWriter), n ≠ 0 →
      ∃ new, (flushLoop order closeResult n w frames ending).1.calls = w.calls ++ new ∧
        ∀ c ∈ new, c.isWriteHeader = false := by
  induction frames with
  | nil =>
    intro n w _
    exact ⟨[], by rw [flushLoop_nil]; simp, by simp⟩
  | cons resp rest ih =>
    intro n w hn
    rw [flushLoop]
    obtain ⟨new, hnew, hall⟩ := ih (n + 1) (flushFrame order n w resp) (Nat.succ_ne_zero n)
    rw [flushFrame_calls] at hnew
    simp only [hn, false_and, if_false, List.nil_append] at hnew
    refine ⟨(WriterCall.Write resp.Body :: if w.isFlusher then [WriterCall.Flush] else []) ++ new,
      by rw [hnew, List.append_assoc], ?_⟩
    intro c hc
    rcases List.mem_append.mp hc with hc | hc
    · rcases List.mem_cons.mp hc with rfl | hc
      · rfl
      · split_ifs at hc
        · rw [List.mem_singleton] at hc; subst hc; rfl
        · simp at hc
    · exact hall c hc

theorem writeHeader_first (hd tl : List WriterCall)
    (hhd : hd = [] ∨ ∃ s, hd = [WriterCall.WriteHeader s])
    (htl : ∀ c ∈ tl, c.isWriteHeader = false) :
    ((hd ++ tl).filter WriterCall.isWriteHeader).length ≤ 1 ∧
      ∀ pre c post, hd ++ tl = pre ++ c :: post → c.isWriteHeader = true → pre = [] := by
  have hfil : tl.filter WriterCall.isWriteHeader = [] := by
    rw [List.filter_eq_nil_iff]
    intro c hc
    simp [htl c hc]
  have hno : ∀ pre c post, tl = pre ++ c :: post → c.isWriteHeader = true → False := by
    intro pre c post h hc
    have : c ∈ tl := by rw [h]; simp
    rw [htl c this] at hc
    exact absurd hc (by decide)
  rcases hhd with rfl | ⟨s, rfl⟩
  · refine ⟨by simp [hfil], ?_⟩
    intro pre c post h hc
    exact (hno pre c post (by simpa using h) hc).elim
  · refine ⟨by simp [List.filter_cons, WriterCall.isWriteHeader, hfil], ?_⟩
    intro pre c post h hc
    cases pre with
    | nil => rfl
    | cons p pre' =>
      simp only [List.singleton_append, List.cons_append, List.cons.injEq] at h
      exact (hno pre' c post h.2 hc).elim

/-- Claim C14: for every finite sequence of frames, with nil or non-nil header maps, ended
by EOF or by a receive error, `flushStream` calls `WriteHeader` on the outbound writer at
most once, and when it calls it, no other call that writes the response (no `Write`)
comes before. -/
theorem C14_status_written_once_and_first (order : List String → List String)
    (closeResult : Option String) (w : ResponseWriter) (frames : List CallResourceResponse)
    (ending : RecvEnd) :
    ∃ new, (flushStream order closeResult w frames ending).1.calls = w.calls ++ new ∧
      (new.filter WriterCall.isWriteHeader).length ≤ 1 ∧
      ∀ pre c post, new = pre ++ c :: post → c.isWriteHeader = true → pre = [] := by
  unfold flushStream
  cases frames with
  | nil =>
    refine ⟨[], by rw [flushLoop_nil]; simp, by simp, ?_⟩
    intro pre c post h
    simp at h
  | cons resp rest =>
    rw [flushLoop]
    obtain ⟨new, hnew, hall⟩ := flushLoop_later order closeResult rest ending 1
      (flushFrame order 0 w resp) (by decide)
    rw [flushFrame_calls] at hnew
    have hsplit := writeHeader_first
      (if 0 = 0 ∧ resp.Headers.isSome = true then [WriterCall.WriteHeader resp.Status] else [])
      ((WriterCall.Write resp.Body :: if w.isFlusher then [WriterCall.Flush] else []) ++ new)
      (by split_ifs
          · exact Or.inr ⟨_, rfl⟩
          · exact Or.inl rfl)
      (by
        intro c hc
        rcases List.mem_append.mp hc with hc | hc
        · rcases List.mem_cons.mp hc with rfl | hc
          · rfl
          · split_ifs at hc
            · rw [List.mem_singleton] at hc; subst hc; rfl
            · simp at hc
        · exact hall c hc)
    refine ⟨_, ?_, hsplit⟩
    rw [hnew]
    simp only [List.append_assoc]

set_option maxRecDepth 100000 in
/-- Claim C15 is violated by the code: a first frame with a cookie under the header key
`set-cookie` passes the test `k == "Set-Cookie"`, and `w.Header().Add` stores the cookie in
the outbound header under `Set-Cookie`. For the frame of scenario S5 the outbound response
has the status 200, the header `Content-Type: application/json` and the body `x`. -/
theorem C15_lowercase_cookie_is_forwarded :
    mapGet (flushStream id none {} [cookieFrame] RecvEnd.EOF).1.header "Set-Cookie" =
        some ["session=1"] ∧
      (flushStream id none {} [cookieFrame] RecvEnd.EOF).2 = none ∧
      (flushStream id none {} [frameS5] RecvEnd.EOF).1.header =
        [("Content-Type", ["application/json"])] ∧
      (flushStream id none {} [frameS5] RecvEnd.EOF).1.calls =
        [WriterCall.WriteHeader 200, WriterCall.Write "x", WriterCall.Flush] := by
  decide

/-! ## Parent pointers and children lists -/

theorem walkAncestors_mem (m : GoMap PluginV2) (rest : List String) :
    ∀ (pluginPath p : String), walkAncestors m pluginPath rest = some p → p ∈ mapKeys m := by
  induction rest with
  | nil => intro pluginPath p h; simp [walkAncestors] at h
  | cons a rest ih =>
    intro pluginPath p h
    unfold walkAncestors at h
    by_cases hs : (mapGet m (Join pluginPath a)).isSome = true
    · simp only [hs, if_true, Option.some.injEq] at h
      rw [← h]
      exact (mapGet_isSome_iff _ _).mp hs
    · rw [if_neg hs] at h
      exact ih _ p h

theorem findParent_mem (m : GoMap PluginV2) (dir p : String) (h : findParent m dir = some p) :
    p ∈ mapKeys m :=
  walkAncestors_mem m _ _ p h

/-- What one pass of the dependency loop does to the children list of the record stored
under `k`: the visited directory is appended when the walk for the visited record ends at
`k`, and nothing changes otherwise. -/
theorem mapGet_linkStep_children (m : GoMap PluginV2) (dir k : String) (r' : PluginV2)
    (h : mapGet (linkStep m dir) k = some r') :
    ∃ r, mapGet m k = some r ∧
      ((∀ plugin, mapGet m dir = some plugin → findParent m plugin.PluginDir ≠ some k) →
        r'.Children = r.Children) ∧
      (∀ plugin, mapGet m dir = some plugin → findParent m plugin.PluginDir = some k →
        r'.Children = r.Children ++ [dir]) := by
  cases hg : mapGet m dir with
  | none =>
    rw [linkStep_absent m dir hg] at h
    exact ⟨r', h, fun _ => rfl, fun plugin hp => absurd hp (by simp)⟩
  | some plugin =>
    cases hf : findParent m plugin.PluginDir with
    | none =>
      rw [linkStep_no_parent m dir plugin hg hf] at h
      refine ⟨r', h, fun _ => rfl, ?_⟩
      intro plugin' hp hfp
      injection hp with hp
      subst hp
      rw [hf] at hfp
      exact absurd hfp (by simp)
    | some parentDir =>
      rw [linkStep_parent m dir plugin parentDir hg hf] at h
      simp only [mapGet_mapModify] at h
      have hget : ∃ r, mapGet m k = some r := by
        cases hgk : mapGet m k with
        | none =>
          rw [hgk] at h
          split_ifs at h <;> simp at h
        | some r => exact ⟨r, rfl⟩
      obtain ⟨r, hr⟩ := hget
      refine ⟨r, hr, ?_, ?_⟩
      · intro hne
        have hpk : ¬ parentDir = k := by
          intro hpk
          exact hne plugin rfl (by rw [hf, hpk])
        rw [if_neg hpk, hr] at h
        split_ifs at h <;> (simp at h; subst h; rfl)
      · intro plugin' hp hfp
        injection hp with hp
        subst hp
        rw [hf] at hfp
        injection hfp with hfp
        rw [if_pos hfp, hr] at h
        split_ifs at h <;> (simp at h; subst h; rfl)

/-- The dependency loop, visited key after visited key, for an order without repetition:
the children list of the record under `k` holds exactly the visited directories whose walk
ended at `k`, each once. -/
theorem linkDependencies_children (loaded : GoMap PluginV2) (order : List String) :
    ∀ (m : GoMap PluginV2) (done : List String),
      order.Nodup → (∀ d ∈ order, d ∉ done) →
      mapKeys m = mapKeys loaded →
      (∀ k r, mapGet m k = some r → r.PluginDir = k) →
      (∀ k r c, mapGet m k = some r →
        r.Children.count c =
          if c ∈ done ∧ c ∈ mapKeys loaded ∧ findParent loaded c = some k then 1 else 0) →
      ∀ k r c, mapGet (linkDependencies order m) k = some r →
        r.Children.count c =
          if (c ∈ done ∨ c ∈ order) ∧ c ∈ mapKeys loaded ∧ findParent loaded c = some k
          then 1 else 0 := by
  induction order with
  | nil =>
    intro m done _ _ _ _ hcount k r c hr
    have := hcount k r c hr
    simpa using this
  | cons d order ih =>
    intro m done hnd hfresh hkeys hdir hcount k r c hr
    have hnd' := List.nodup_cons.mp hnd
    have hd : d ∉ done := hfresh d (List.mem_cons_self _ _)
    have hdir' : ∀ k r, mapGet (linkStep m d) k = some r → r.PluginDir = k := by
      intro k r' hr'
      obtain ⟨r, hr, hpd, _⟩ := mapGet_linkStep m d k r' hr'
      rw [hpd]; exact hdir k r hr
    have hcount' : ∀ k r c, mapGet (linkStep m d) k = some r →
        r.Children.count c =
          if c ∈ d :: done ∧ c ∈ mapKeys loaded ∧ findParent loaded c = some k then 1 else 0 := by
      intro k r' c hr'
      obtain ⟨r, hr, hsame, happ⟩ := mapGet_linkStep_children m d k r' hr'
      have hold := hcount k r c hr
      by_cases hcase : ∃ plugin, mapGet m d = some plugin ∧
          findParent m plugin.PluginDir = some k
      · obtain ⟨plugin, hp, hfp⟩ := hcase
        have hpd : plugin.PluginDir = d := hdir d plugin hp
        rw [hpd, findParent_congr m loaded hkeys] at hfp
        have hdk : d ∈ mapKeys loaded := by
          rw [← hkeys, ← mapGet_isSome_iff, hp]; rfl
        rw [happ plugin hp (by rw [hpd, findParent_congr m loaded hkeys]; exact hfp),
          List.count_append, hold]
        by_cases hcd : c = d
        · subst hcd
          have h1 : ¬ (c ∈ done ∧ c ∈ mapKeys loaded ∧ findParent loaded c = some k) :=
            fun h => hd h.1
          have h2 : c ∈ c :: done ∧ c ∈ mapKeys loaded ∧ findParent loaded c = some k :=
            ⟨List.mem_cons_self _ _, hdk, hfp⟩
          rw [if_neg h1, if_pos h2]
          simp
        · have h3 : (c ∈ d :: done ∧ c ∈ mapKeys loaded ∧ findParent loaded c = some k) ↔
              (c ∈ done ∧ c ∈ mapKeys loaded ∧ findParent loaded c = some k) := by
            simp [hcd]
          have h4 : List.count c [d] = 0 := by
            simp [List.count_cons, List.count_nil]
            exact fun h => hcd h.symm
          rw [h4]
          simp only [h3, Nat.add_zero]
      · have hne : ∀ plugin, mapGet m d = some plugin →
            findParent m plugin.PluginDir ≠ some k :=
          fun plugin hp hfp => hcase ⟨plugin, hp, hfp⟩
        rw [hsame hne, hold]
        have h3 : (c ∈ d :: done ∧ c ∈ mapKeys loaded ∧ findParent loaded c = some k) ↔
            (c ∈ done ∧ c ∈ mapKeys loaded ∧ findParent loaded c = some k) := by
          constructor
          · rintro ⟨h1, h2, h3⟩
            rcases List.mem_cons.mp h1 with h1 | h1
            · exfalso
              subst h1
              have hs : (mapGet m c).isSome = true := by
                rw [mapGet_isSome_iff, hkeys]; exact h2
              obtain ⟨plugin, hp⟩ := Option.isSome_iff_exists.mp hs
              refine hne plugin hp ?_
              rw [hdir c plugin hp, findParent_congr m loaded hkeys]
              exact h3
            · exact ⟨h1, h2, h3⟩
          · rintro ⟨h1, h2, h3⟩
            exact ⟨List.mem_cons_of_mem _ h1, h2, h3⟩
        simp only [h3]
    have hres := ih (linkStep m d) (d :: done) hnd'.2
      (by
        intro x hx hxd
        rcases List.mem_cons.mp hxd with hxd | hxd
        · exact hnd'.1 (hxd ▸ hx)
        · exact hfresh x (List.mem_cons_of_mem _ hx) hxd)
      (by rw [mapKeys_linkStep, hkeys]) hdir' hcount' k r c hr
    rw [hres]
    have h5 : ((c ∈ d :: done ∨ c ∈ order) ∧ c ∈ mapKeys loaded ∧
        findParent loaded c = some k) ↔
        ((c ∈ done ∨ c ∈ d :: order) ∧ c ∈ mapKeys loaded ∧ findParent loaded c = some k) := by
      simp only [List.mem_cons]
      tauto
    simp only [h5]

theorem calcStateStep_fresh (cfg : Cfg) (env : LoaderEnv) (found : GoMap JSONData)
    (order : List String) (acc : GoMap PluginV2)
    (hacc : ∀ e ∈ acc, e.2.PluginDir = e.1 ∧ e.2.Parent = none ∧ e.2.Children = []) :
    ∀ e ∈ (rangeLoop (calcStateStep cfg env found) acc order).1,
      e.2.PluginDir = e.1 ∧ e.2.Parent = none ∧ e.2.Children = [] := by
  refine rangeLoop_inv (calcStateStep cfg env found)
    (fun m => ∀ e ∈ m, e.2.PluginDir = e.1 ∧ e.2.Parent = none ∧ e.2.Children = []) ?_ order acc
    hacc
  intro m k h
  unfold calcStateStep
  cases hg : mapGet found k with
  | none => exact h
  | some pluginJSON =>
    simp only []
    cases hc : env.calculateState
        { JSONData := pluginJSON, PluginDir := k, Class := pluginClass cfg k } with
    | error err => exact h
    | ok signatureState =>
      intro e he
      rcases mem_mapSet _ _ _ _ he with he | he
      · subst he
        exact ⟨rfl, rfl, rfl⟩
      · exact h e he

theorem validate_plugin_eq (s : PluginSignatureValidator) (plugin : PluginV2)
    (parent : Option PluginV2) :
    (s.validate plugin parent).plugin =
      { plugin with Signature := (s.validate plugin parent).plugin.Signature } := by
  unfold PluginSignatureValidator.validate
  by_cases h1 : plugin.Signature = PluginSignatureValid
  · rw [if_pos h1]
  · cases parent with
    | none => simp [h1, validateSwitch_plugin]
    | some root =>
      simp only [h1, if_false]
      split_ifs <;> simp [validateSwitch_plugin]

theorem sameButSignature_refl (m : GoMap PluginV2) : SameButSignature m m :=
  ⟨rfl, fun _ r' h => ⟨r', h, rfl⟩⟩

theorem sameButSignature_trans {m1 m2 m3 : GoMap PluginV2} (h12 : SameButSignature m1 m2)
    (h23 : SameButSignature m2 m3) : SameButSignature m1 m3 := by
  refine ⟨h23.1.trans h12.1, ?_⟩
  intro k r3 h3
  obtain ⟨r2, h2, e2⟩ := h23.2 k r3 h3
  obtain ⟨r1, h1, e1⟩ := h12.2 k r2 h2
  refine ⟨r1, h1, ?_⟩
  rw [e2, e1]

theorem validateStep_sameBut (cfg : Cfg) (env : LoaderEnv) (cond : Option (PluginV2 → Bool))
    (st : GoMap PluginV2 × GoMap PluginError) (dir : String) :
    SameButSignature st.1 (validateStep cfg env cond st dir).1.1 := by
  unfold validateStep
  cases hg : mapGet st.1 dir with
  | none => exact sameButSignature_refl _
  | some plugin =>
    have hmod : SameButSignature st.1
        (mapModify st.1 dir (fun _ => (validateAt cfg env cond st.1 plugin).plugin)) := by
      refine ⟨mapKeys_mapModify _ _ _, ?_⟩
      intro k r' h
      rw [mapGet_mapModify] at h
      by_cases hk : dir = k
      · subst hk
        rw [if_pos rfl, hg] at h
        simp only [Option.map_some', Option.some.injEq] at h
        subst h
        exact ⟨plugin, hg, validate_plugin_eq _ _ _⟩
      · rw [if_neg hk] at h
        exact ⟨r', h, rfl⟩
    simp only []
    cases (validateAt cfg env cond st.1 plugin).err with
    | some signingError => exact hmod
    | none =>
      simp only []
      split_ifs
      · cases env.fileExists (Join (validateAt cfg env cond st.1 plugin).plugin.PluginDir "module.js")
        · exact hmod
        · exact hmod
      · exact hmod

theorem validateLoop_sameBut (cfg : Cfg) (env : LoaderEnv) (cond : Option (PluginV2 → Bool))
    (order : List String) (st : GoMap PluginV2 × GoMap PluginError) :
    SameButSignature st.1 (rangeLoop (validateStep cfg env cond) st order).1.1 :=
  rangeLoop_inv (validateStep cfg env cond) (fun st' => SameButSignature st.1 st'.1)
    (fun st' k h => sameButSignature_trans h (validateStep_sameBut cfg env cond st' k)) order st
    (sameButSignature_refl _)

/-- The links in the map `loadedPlugins` after the loop "wire up plugin dependencies" of a
load whose loops visit every key once: every record is stored under its directory; the
record a parent pointer refers to is in the map and has the child in its children list
exactly once; and every element of a children list is in the map and has that record as
its parent. -/
theorem wiredPlugins_links (l : loader.Loader) (env : LoaderEnv) (paths existing : List String)
    (hord : OrderOK env) (wired : GoMap PluginV2)
    (hw : l.wiredPlugins env paths existing = .ok wired) :
    (∀ k r, mapGet wired k = some r → r.PluginDir = k) ∧
      (∀ k r pd, mapGet wired k = some r → r.Parent = some pd →
        ∃ P, mapGet wired pd = some P ∧ P.Children.count k = 1) ∧
      (∀ k P c, mapGet wired k = some P → c ∈ P.Children →
        ∃ R, mapGet wired c = some R ∧ R.Parent = some k) := by
  unfold loader.Loader.wiredPlugins at hw
  cases hr : readAll env paths [] with
  | error e => rw [hr] at hw; simp at hw
  | ok found =>
    simp only [hr] at hw
    generalize loader.stripDuplicates (env.rangeOrder 0 (mapKeys found)) found existing = stripped
      at hw
    have hcalc := calcStateStep_inv l.cfg env stripped (env.rangeOrder 1 (mapKeys stripped)) []
      (by simp [mapKeys]) (by simp)
    have hfresh := calcStateStep_fresh l.cfg env stripped (env.rangeOrder 1 (mapKeys stripped)) []
      (by simp)
    rcases hl : rangeLoop (calcStateStep l.cfg env stripped) []
        (env.rangeOrder 1 (mapKeys stripped)) with ⟨loaded, _ | e⟩
    · rw [hl] at hw hcalc hfresh
      simp only [Except.ok.injEq] at hw
      have hperm := hord 2 (mapKeys loaded)
      have hinv := linkDependencies_inv loaded (env.rangeOrder 2 (mapKeys loaded)) loaded [] rfl
        (by
          intro k r hr
          have hm := hfresh (k, r) (mapGet_mem loaded k r hr)
          exact ⟨hm.1, by simpa using hm.2.1⟩)
      have hch := linkDependencies_children loaded (env.rangeOrder 2 (mapKeys loaded)) loaded []
        (hperm.nodup_iff.mpr hcalc.1) (by simp) rfl
        (fun k r hr => (hfresh (k, r) (mapGet_mem loaded k r hr)).1)
        (by
          intro k r c hr
          have hm : r.Children = [] := (hfresh (k, r) (mapGet_mem loaded k r hr)).2.2
          simp [hm])
      rw [hw] at hinv hch
      have hkey : ∀ k, k ∈ mapKeys wired ↔ k ∈ mapKeys loaded := fun k => by rw [hinv.1]
      have hget : ∀ k, k ∈ mapKeys loaded → ∃ r, mapGet wired k = some r := by
        intro k hk
        exact Option.isSome_iff_exists.mp ((mapGet_isSome_iff _ _).mpr ((hkey k).mpr hk))
      have hkin : ∀ k r, mapGet wired k = some r → k ∈ mapKeys loaded := by
        intro k r hr
        rw [← hkey, ← mapGet_isSome_iff, hr]; rfl
      have hpar : ∀ k r, mapGet wired k = some r → r.Parent = findParent loaded k := by
        intro k r hr
        rw [(hinv.2 k r hr).2, if_pos (Or.inr (hperm.mem_iff.mpr (hkin k r hr)))]
      refine ⟨fun k r hr => (hinv.2 k r hr).1, ?_, ?_⟩
      · intro k r pd hr hp
        have hfp : findParent loaded k = some pd := by rw [← hpar k r hr, hp]
        obtain ⟨P, hP⟩ := hget pd (findParent_mem loaded k pd hfp)
        refine ⟨P, hP, ?_⟩
        rw [hch pd P k hP, if_pos ⟨Or.inr (hperm.mem_iff.mpr (hkin k r hr)), hkin k r hr, hfp⟩]
      · intro k P c hP hc
        have hpos : 0 < P.Children.count c := List.count_pos_iff.mpr hc
        rw [hch k P c hP] at hpos
        have hcond : (c ∈ ([] : List String) ∨ c ∈ env.rangeOrder 2 (mapKeys loaded)) ∧
            c ∈ mapKeys loaded ∧ findParent loaded c = some k := by
          by_contra hcon
          rw [if_neg hcon] at hpos
          exact absurd hpos (by decide)
        obtain ⟨R, hR⟩ := hget c hcond.2.1
        exact ⟨R, hR, by rw [hpar c R hR]; exact hcond.2.2⟩
    · rw [hl] at hw
      simp at hw

/-- A successful `loadPlugins` returns the records of the final `loadedPlugins`, which
holds the records of the map after the dependency loop with at most their `Signature`
changed. -/
theorem loadPlugins_final (l : loader.Loader) (env : LoaderEnv) (paths existing : List String)
    (res : List PluginV2) (h : (l.loadPlugins env paths existing).2 = .ok res) :
    ∃ wired final, l.wiredPlugins env paths existing = .ok wired ∧
      SameButSignature wired final ∧
      res = (env.rangeOrder 4 (mapKeys final)).filterMap (mapGet final) := by
  unfold loader.Loader.loadPlugins at h
  cases hw : l.wiredPlugins env paths existing with
  | error e => rw [hw] at h; simp at h
  | ok wired =>
    simp only [hw] at h
    have hsame := validateLoop_sameBut l.cfg env l.AllowUnsignedPluginsCondition
      (env.rangeOrder 3 (mapKeys wired)) (wired, l.errs)
    rcases hv : rangeLoop (validateStep l.cfg env l.AllowUnsignedPluginsCondition)
        (wired, l.errs) (env.rangeOrder 3 (mapKeys wired)) with ⟨⟨final, errs⟩, _ | e⟩
    · rw [hv] at h hsame
      simp only [] at h
      rcases hi : rangeLoop (loader.initStep env final) []
          (env.rangeOrder 4 (mapKeys final)) with ⟨res', _ | e⟩
      · rw [hi] at h
        simp only [Except.ok.injEq] at h
        subst h
        refine ⟨wired, final, rfl, hsame, ?_⟩
        simpa using initLoop_ok env final _ [] res' hi
      · rw [hi] at h
        simp at h
    · rw [hv] at h
      simp at h

/-- Claim C11: in every load, the returned records have pairwise distinct directories;
for a returned record `R` whose parent pointer refers to the record with directory `pd`,
that record `P` is among the returned records and `R` occurs exactly once in the children
list of `P`; and every element of the children list of a returned record `P` is a returned
record whose parent pointer refers to `P`. -/
theorem C11_parent_and_children_agree (l : loader.Loader) (env : LoaderEnv)
    (paths existing : List String) (hord : OrderOK env) (res : List PluginV2)
    (hres : (l.loadPlugins env paths existing).2 = .ok res) :
    (res.map (fun r => r.PluginDir)).Nodup ∧
      (∀ R ∈ res, ∀ pd, R.Parent = some pd →
        ∃ P ∈ res, P.PluginDir = pd ∧ P.Children.count R.PluginDir = 1) ∧
      (∀ P ∈ res, ∀ c ∈ P.Children,
        ∃ R ∈ res, R.PluginDir = c ∧ R.Parent = some P.PluginDir) := by
  obtain ⟨wired, final, hw, hsame, rfl⟩ := loadPlugins_final l env paths existing res hres
  obtain ⟨hnd, _, _⟩ := wiredPlugins_spec l env paths existing hord wired hw
  obtain ⟨hdir, hpar, hchild⟩ := wiredPlugins_links l env paths existing hord wired hw
  have hfnd : (mapKeys final).Nodup := by rw [hsame.1]; exact hnd
  have hperm := hord 4 (mapKeys final)
  -- a record of the final map and the record it comes from
  have hback : ∀ k R, mapGet final k = some R →
      ∃ r, mapGet wired k = some r ∧ R.PluginDir = k ∧ R.Parent = r.Parent ∧
        R.Children = r.Children := by
    intro k R hR
    obtain ⟨r, hr, e⟩ := hsame.2 k R hR
    refine ⟨r, hr, ?_, ?_, ?_⟩
    · rw [e]; exact hdir k r hr
    · rw [e]
    · rw [e]
  have hfwd : ∀ k r, mapGet wired k = some r →
      ∃ R, mapGet final k = some R ∧ R.PluginDir = k ∧ R.Parent = r.Parent ∧
        R.Children = r.Children := by
    intro k r hr
    have hk : k ∈ mapKeys final := by
      rw [hsame.1, ← mapGet_isSome_iff, hr]; rfl
    obtain ⟨R, hR⟩ := Option.isSome_iff_exists.mp ((mapGet_isSome_iff _ _).mpr hk)
    obtain ⟨r', hr', h1, h2, h3⟩ := hback k R hR
    rw [hr] at hr'
    injection hr' with hr'
    subst hr'
    exact ⟨R, hR, h1, h2, h3⟩
  have hmem : ∀ k R, mapGet final k = some R →
      R ∈ (env.rangeOrder 4 (mapKeys final)).filterMap (mapGet final) := by
    intro k R hR
    refine List.mem_filterMap.mpr ⟨k, hperm.mem_iff.mpr ?_, hR⟩
    rw [← mapGet_isSome_iff, hR]; rfl
  refine ⟨?_, ?_, ?_⟩
  · refine nodup_filterMap_map (mapGet final) (fun r => r.PluginDir) _
      (hperm.nodup_iff.mpr hfnd) ?_
    intro k1 _ k2 _ r1 r2 h1 h2 hpd
    obtain ⟨_, _, e1, _⟩ := hback k1 r1 h1
    obtain ⟨_, _, e2, _⟩ := hback k2 r2 h2
    rw [← e1, ← e2]; exact hpd
  · intro R hR pd hp
    obtain ⟨k, _, hk⟩ := List.mem_filterMap.mp hR
    obtain ⟨r, hr, e1, e2, _⟩ := hback k R hk
    obtain ⟨P0, hP0, hcount⟩ := hpar k r pd hr (by rw [← e2]; exact hp)
    obtain ⟨P, hP, f1, _, f3⟩ := hfwd pd P0 hP0
    exact ⟨P, hmem pd P hP, f1, by rw [f3, e1]; exact hcount⟩
  · intro P hP c hc
    obtain ⟨k, _, hk⟩ := List.mem_filterMap.mp hP
    obtain ⟨p0, hp0, e1, _, e3⟩ := hback k P hk
    obtain ⟨R0, hR0, hRp⟩ := hchild k p0 c hp0 (by rw [← e3]; exact hc)
    obtain ⟨R, hR, f1, f2, _⟩ := hfwd c R0 hR0
    exact ⟨R, hmem c R hR, f1, by rw [f2, e1]; exact hRp⟩

set_option maxRecDepth 100000 in
/-- Claim C11 at scenario S3: the load returns the plugin `parent` and the plugin nested in
it. -/
theorem C11_parent_and_children_agree_witness :
    OrderOK scenarioEnv ∧
      (({ cfg := scenarioCfg } : loader.Loader).loadPlugins scenarioEnv
        ["/e/parent/plugin.json", "/e/parent/nested/plugin.json"] []).2 = .ok scenarioS3 ∧
      (scenarioS3.map (fun r => r.PluginDir)).Nodup ∧
      (∀ R ∈ scenarioS3, ∀ pd, R.Parent = some pd →
        ∃ P ∈ scenarioS3, P.PluginDir = pd ∧ P.Children.count R.PluginDir = 1) ∧
      (∀ P ∈ scenarioS3, ∀ c ∈ P.Children,
        ∃ R ∈ scenarioS3, R.PluginDir = c ∧ R.Parent = some P.PluginDir) :=
  ⟨scenarioEnv_orderOK, rfl,
    C11_parent_and_children_agree { cfg := scenarioCfg } scenarioEnv
      ["/e/parent/plugin.json", "/e/parent/nested/plugin.json"] [] scenarioEnv_orderOK
      scenarioS3 rfl⟩

/-! ## Depth of the forest -/

/-- Claim C19 is violated by the code: with loaded plugins at the filesystem root `/` and
at `/a`, the dependency loop makes the record at `/` the parent of the record at `/a` and
of itself, so a record that is a parent has a parent, whatever the order of the loop. -/
theorem C19_root_record_is_its_own_parent :
    (mapGet (linkDependencies ["/", "/a"] rootPlugins) "/a").map (fun p => p.Parent) =
        some (some "/") ∧
      (mapGet (linkDependencies ["/", "/a"] rootPlugins) "/").map (fun p => p.Parent) =
        some (some "/") ∧
      (mapGet (linkDependencies ["/a", "/"] rootPlugins) "/").map (fun p => p.Parent) =
        some (some "/") ∧
      (mapGet (linkDependencies ["/", "/a"] rootPlugins) "/").map (fun p => p.Children) =
        some ["/", "/a"] := by
  decide

theorem joinSep_eq_nil (xs : List (List Char)) (h : ∀ x ∈ xs, x ≠ []) (hj : joinSep xs = []) :
    xs = [] := by
  cases xs with
  | nil => rfl
  | cons x xs =>
    exfalso
    have hx := h x (List.mem_cons_self _ _)
    cases xs with
    | nil => exact hx (by simpa [joinSep] using hj)
    | cons y ys =>
      simp only [joinSep, List.append_eq_nil] at hj
      exact hx hj.1

/-- Cleaned absolute paths with different elements are different. -/
theorem absPath_inj (a b : List String) (ha : ∀ x ∈ a, IsElem x) (hb : ∀ x ∈ b, IsElem x)
    (h : absPath a = absPath b) : a = b := by
  have hdata : joinSep (a.map String.data) = joinSep (b.map String.data) := by
    have := congrArg String.data h
    simpa [absPath] using this
  have hne : ∀ (l : List String), (∀ x ∈ l, IsElem x) → ∀ x ∈ l.map String.data, x ≠ [] := by
    intro l hl x hx
    obtain ⟨y, hy, rfl⟩ := List.mem_map.mp hx
    exact (hl y hy).1
  by_cases ha0 : a = []
  · subst ha0
    have := joinSep_eq_nil (b.map String.data) (hne b hb) (by rw [← hdata]; rfl)
    simpa using this.symm
  · by_cases hb0 : b = []
    · subst hb0
      have := joinSep_eq_nil (a.map String.data) (hne a ha) (by rw [hdata]; rfl)
      simpa using this
    · have h1 := Split_absPath a ha0 ha
      have h2 := Split_absPath b hb0 hb
      rw [h] at h1
      rw [h1] at h2
      exact (List.cons.inj h2).2

/-- Away from the filesystem root the forest of the dependency loop has depth at most one,
and at the root the only record with a parent that is itself a parent is the record at
`/`, whose parent is the record itself: for cleaned absolute directories, a record that is
the parent of some record has no parent, or is the record at `/`. -/
theorem linked_forest_flat (loaded : GoMap PluginV2) (order : List String)
    (hdir : ∀ e ∈ loaded, e.2.PluginDir = e.1)
    (hfresh : ∀ e ∈ loaded, e.2.Parent = none)
    (hperm : order.Perm (mapKeys loaded))
    (hclean : ∀ k ∈ mapKeys loaded, ∃ elems, (∀ x ∈ elems, IsElem x) ∧ k = absPath elems)
    (k pd : String) (R P : PluginV2)
    (hR : mapGet (linkDependencies order loaded) k = some R) (hpar : R.Parent = some pd)
    (hP : mapGet (linkDependencies order loaded) pd = some P) :
    P.Parent = none ∨ (pd = "/" ∧ P.Parent = some "/") := by
  have hinv := linkDependencies_inv loaded order loaded [] rfl (by
    intro k r hr
    have hm := mapGet_mem loaded k r hr
    exact ⟨hdir _ hm, by simpa using hfresh _ hm⟩)
  have hkin : ∀ j r, mapGet (linkDependencies order loaded) j = some r → j ∈ mapKeys loaded := by
    intro j r hr
    rw [← hinv.1, ← mapGet_isSome_iff, hr]; rfl
  have hfp : ∀ j r, mapGet (linkDependencies order loaded) j = some r →
      r.Parent = findParent loaded j := by
    intro j r hr
    rw [(hinv.2 j r hr).2, if_pos (Or.inr (hperm.mem_iff.mpr (hkin j r hr)))]
  have hRp : findParent loaded k = some pd := by rw [← hfp k R hR, hpar]
  have hpdk : pd ∈ mapKeys loaded := findParent_mem loaded k pd hRp
  obtain ⟨pelems, hpe, rfl⟩ := hclean pd hpdk
  rw [hfp _ P hP]
  by_cases hp0 : pelems = []
  · subst hp0
    right
    exact ⟨rfl, findParent_root loaded hpdk⟩
  · left
    obtain ⟨elems, he, rfl⟩ := hclean k (hkin k R hR)
    have hne : elems ≠ [] := by
      intro h0
      subst h0
      have hroot := findParent_root loaded (hkin _ R hR)
      have : absPath [] = "/" := rfl
      rw [this, hroot] at hRp
      injection hRp with hRp
      exact hp0 (absPath_inj _ [] hpe (by simp) hRp.symm)
    obtain ⟨i, hi, hpi, _, hmin⟩ := (findParent_absPath loaded elems hne he _).mp hRp
    have hpeq : pelems = elems.take i :=
      absPath_inj _ _ hpe (fun x hx => he x (List.take_subset _ _ hx)) hpi
    cases hq : findParent loaded (absPath pelems) with
    | none => rfl
    | some q =>
      exfalso
      obtain ⟨j, hj, hqj, hqk, _⟩ := (findParent_absPath loaded pelems hp0 hpe q).mp hq
      have hji : j < i := by
        rw [hpeq, List.length_take] at hj
        omega
      have : pelems.take j = elems.take j := by
        rw [hpeq, List.take_take, Nat.min_eq_left (Nat.le_of_lt hji)]
      rw [this] at hqj
      exact hmin j hji (hqj ▸ hqk)

theorem validate_none_plugin (s : PluginSignatureValidator) (plugin : PluginV2) :
    (s.validate plugin none).plugin = plugin := by
  unfold PluginSignatureValidator.validate
  by_cases h1 : plugin.Signature = PluginSignatureValid
  · rw [if_pos h1]
  · simp [h1, validateSwitch_plugin]

theorem validate_self_plugin (s : PluginSignatureValidator) (plugin : PluginV2) :
    (s.validate plugin (some plugin)).plugin = plugin := by
  unfold PluginSignatureValidator.validate
  by_cases h1 : plugin.Signature = PluginSignatureValid
  · rw [if_pos h1]
  · simp only [h1, if_false]
    split_ifs <;> simp [validateSwitch_plugin]

theorem validateStep_heap (cfg : Cfg) (env : LoaderEnv) (cond : Option (PluginV2 → Bool))
    (st : GoMap PluginV2 × GoMap PluginError) (dir : String) :
    (validateStep cfg env cond st dir).1.1 =
      match mapGet st.1 dir with
      | none => st.1
      | some plugin => mapModify st.1 dir (fun _ => (validateAt cfg env cond st.1 plugin).plugin) := by
  unfold validateStep
  cases hg : mapGet st.1 dir with
  | none => rfl
  | some plugin =>
    simp only []
    cases (validateAt cfg env cond st.1 plugin).err with
    | some signingError => rfl
    | none =>
      simp only []
      split_ifs
      · cases env.fileExists (Join (validateAt cfg env cond st.1 plugin).plugin.PluginDir "module.js")
          <;> rfl
      · rfl

/-- The invariant behind `validate_outcome_order_free`: a record that has not been visited
yet, or that has no parent or is its own parent, is in the map as the dependency loop left
it. -/
theorem validateLoop_unvisited (cfg : Cfg) (env : LoaderEnv)
    (cond : Option (PluginV2 → Bool)) (wired : GoMap PluginV2)
    (hflat : ∀ k r pd P, mapGet wired k = some r → r.Parent = some pd →
      mapGet wired pd = some P → P.Parent = none ∨ P.Parent = some pd)
    (pre : List String) :
    ∀ (visited : List String) (st0 st : GoMap PluginV2 × GoMap PluginError),
      mapKeys st0.1 = mapKeys wired →
      (∀ j rj, mapGet wired j = some rj →
        (j ∉ visited ∨ rj.Parent = none ∨ rj.Parent = some j) → mapGet st0.1 j = some rj) →
      rangeLoop (validateStep cfg env cond) st0 pre = (st, none) →
      ∀ k r, k ∉ visited → k ∉ pre → mapGet wired k = some r →
        mapGet st.1 k = some r ∧
          validateAt cfg env cond st.1 r = validateAt cfg env cond wired r := by
  induction pre with
  | nil =>
    intro visited st0 st hkeys hinv hrun k r hkv _ hr
    simp only [rangeLoop, Prod.mk.injEq, and_true] at hrun
    subst hrun
    have hk := hinv k r hr (Or.inl hkv)
    refine ⟨hk, ?_⟩
    unfold validateAt
    congr 1
    unfold derefParent
    cases hp : r.Parent with
    | none => rfl
    | some pd =>
      simp only []
      cases hP : mapGet wired pd with
      | none =>
        rw [mapGet_eq_none_iff] at hP ⊢
        rw [hkeys]; exact hP
      | some P =>
        rcases hflat k r pd P hr hp hP with h | h
        · exact hinv pd P hP (Or.inr (Or.inl h))
        · exact hinv pd P hP (Or.inr (Or.inr h))
  | cons d pre ih =>
    intro visited st0 st hkeys hinv hrun k r hkv hk hr
    rcases hb : validateStep cfg env cond st0 d with ⟨st1, _ | e⟩
    · rw [rangeLoop_cons_ok _ _ _ _ _ hb] at hrun
      have hsame := validateStep_sameBut cfg env cond st0 d
      have hheap := validateStep_heap cfg env cond st0 d
      rw [hb] at hsame hheap
      have hkeys1 : mapKeys st1.1 = mapKeys wired := by rw [hsame.1, hkeys]
      have hinv1 : ∀ j rj, mapGet wired j = some rj →
          (j ∉ d :: visited ∨ rj.Parent = none ∨ rj.Parent = some j) →
          mapGet st1.1 j = some rj := by
        intro j rj hj hcase
        by_cases hjd : j = d
        · subst hjd
          have hroot : rj.Parent = none ∨ rj.Parent = some j := by
            rcases hcase with h | h
            · exact absurd (List.mem_cons_self _ _) h
            · exact h
          have h0 := hinv j rj hj (Or.inr hroot)
          have hval : (validateAt cfg env cond st0.1 rj).plugin = rj := by
            unfold validateAt derefParent
            rcases hroot with h | h
            · simp only [h]
              exact validate_none_plugin _ _
            · simp only [h, h0]
              exact validate_self_plugin _ _
          rw [hheap]
          simp only [h0]
          rw [mapGet_mapModify, if_pos rfl, h0]
          simp [hval]
        · have h0 := hinv j rj hj (by
            rcases hcase with h | h
            · exact Or.inl (fun hm => h (List.mem_cons_of_mem _ hm))
            · exact Or.inr h)
          rw [hheap]
          cases hgd : mapGet st0.1 d with
          | none => exact h0
          | some plugin =>
            simp only []
            rw [mapGet_mapModify, if_neg (fun h => hjd h.symm)]
            exact h0
      refine ih (d :: visited) st1 st hkeys1 hinv1 hrun k r ?_
        (fun h => hk (List.mem_cons_of_mem _ h)) hr
      intro hm
      rcases List.mem_cons.mp hm with hm | hm
      · exact hk (hm ▸ List.mem_cons_self _ _)
      · exact hkv hm
    · rw [rangeLoop_cons_err _ _ _ _ _ e hb] at hrun
      simp at hrun

/-- In a forest where every record that is a parent has no parent, or is its own parent,
the loop "validate signatures" finds every record, when it reaches it, as the dependency
loop left it, and the validator returns for it what it returns on the map the dependency
loop left: the error and the final signature state of a record do not depend on the
records visited before, that is, on the order of the loop. -/
theorem validate_outcome_order_free (cfg : Cfg) (env : LoaderEnv)
    (cond : Option (PluginV2 → Bool)) (wired : GoMap PluginV2) (errs : GoMap PluginError)
    (hflat : ∀ k r pd P, mapGet wired k = some r → r.Parent = some pd →
      mapGet wired pd = some P → P.Parent = none ∨ P.Parent = some pd)
    (pre : List String) (st : GoMap PluginV2 × GoMap PluginError)
    (hrun : rangeLoop (validateStep cfg env cond) (wired, errs) pre = (st, none))
    (k : String) (r : PluginV2) (hk : k ∉ pre) (hr : mapGet wired k = some r) :
    mapGet st.1 k = some r ∧
      validateAt cfg env cond st.1 r = validateAt cfg env cond wired r :=
  validateLoop_unvisited cfg env cond wired hflat pre [] (wired, errs) st rfl
    (fun _ _ h _ => h) hrun k r (by simp) hk hr

/-! ## `filepath.Rel` on cleaned absolute paths -/

theorem cleanChars_absPath (elems : List String) (h : ∀ x ∈ elems, IsElem x) :
    cleanChars (absPath elems).data = (absPath elems).data := by
  by_cases h0 : elems = []
  · subst h0; decide
  · have hne : elems.map String.data ≠ [] := by simpa using h0
    show cleanChars ('/' :: joinSep (elems.map String.data)) = '/' :: joinSep (elems.map String.data)
    rw [cons_joinSep _ hne]
    have := (cleanChars_rooted (elems.map String.data) hne (by
      intro x hx
      obtain ⟨y, hy, rfl⟩ := List.mem_map.mp hx
      exact isElem_data y (h y hy))).1
    rw [this, cons_joinSep _ hne]

theorem takeWhile_cons_true (p : Char → Bool) (c : Char) (l : List Char) (h : p c = true) :
    (c :: l).takeWhile p = c :: l.takeWhile p := by
  simp [List.takeWhile_cons, h]

theorem takeWhile_cons_false (p : Char → Bool) (c : Char) (l : List Char) (h : p c = false) :
    (c :: l).takeWhile p = [] := by
  simp [List.takeWhile_cons, h]

theorem takeWhile_append_slash (x rest : List Char) (hx : '/' ∉ x) :
    (x ++ '/' :: rest).takeWhile (fun c => decide (c ≠ '/')) = x := by
  induction x with
  | nil =>
    show ('/' :: rest).takeWhile (fun c => decide (c ≠ '/')) = []
    rw [takeWhile_cons_false (fun c => decide (c ≠ '/')) '/' _ (by decide)]
  | cons c x ih =>
    have hc : c ≠ '/' := fun h => hx (h ▸ List.mem_cons_self _ _)
    have hx' : '/' ∉ x := fun h => hx (List.mem_cons_of_mem _ h)
    show (c :: (x ++ '/' :: rest)).takeWhile (fun c => decide (c ≠ '/')) = c :: x
    rw [takeWhile_cons_true (fun c => decide (c ≠ '/')) c _ (decide_eq_true hc), ih hx']

theorem takeWhile_no_slash (x : List Char) (hx : '/' ∉ x) :
    x.takeWhile (fun c => decide (c ≠ '/')) = x := by
  induction x with
  | nil => rfl
  | cons c x ih =>
    have hc : c ≠ '/' := fun h => hx (h ▸ List.mem_cons_self _ _)
    have hx' : '/' ∉ x := fun h => hx (List.mem_cons_of_mem _ h)
    rw [takeWhile_cons_true (fun c => decide (c ≠ '/')) c _ (decide_eq_true hc), ih hx']

/-- The first element of a joined path and what follows its separator. -/
theorem joinSep_head (x : List Char) (xs : List (List Char)) (hx : '/' ∉ x) :
    (joinSep (x :: xs)).takeWhile (fun c => decide (c ≠ '/')) = x ∧
      ((joinSep (x :: xs)).drop x.length).drop 1 = joinSep xs := by
  cases xs with
  | nil =>
    simp only [joinSep]
    exact ⟨takeWhile_no_slash x hx, by simp⟩
  | cons y ys =>
    simp only [joinSep]
    exact ⟨takeWhile_append_slash x _ hx, by simp⟩

theorem joinSep_ne_nil (x : List Char) (xs : List (List Char)) (hx : x ≠ []) :
    joinSep (x :: xs) ≠ [] := by
  cases xs with
  | nil => simpa [joinSep] using hx
  | cons y ys => simp [joinSep, hx]

theorem length_le_joinSep (xs : List (List Char)) (h : ∀ x ∈ xs, x ≠ []) :
    xs.length ≤ (joinSep xs).length := by
  induction xs with
  | nil => simp
  | cons x xs ih =>
    have hx : 0 < x.length := List.length_pos.mpr (h x (List.mem_cons_self _ _))
    have ih' := ih (fun y hy => h y (List.mem_cons_of_mem _ hy))
    cases xs with
    | nil => simp [joinSep]; omega
    | cons y ys =>
      simp only [joinSep, List.length_append, List.length_cons] at ih' ⊢
      omega

/-- The loop of `filepath.Rel` on two joined lists of path elements: when the elements of
the base are a prefix of the elements of the target, the base runs out and the rest of the
target is left; otherwise the loop stops with base elements left, at an element of the
base (or at nothing, when the target ran out). -/
theorem relLoop_joinSep (xs : List (List Char)) :
    ∀ (ys : List (List Char)) (fuel : Nat),
      (∀ x ∈ xs, x ≠ [] ∧ '/' ∉ x) → (∀ y ∈ ys, y ≠ [] ∧ '/' ∉ y) → xs.length < fuel →
      (xs <+: ys →
        relLoop fuel (joinSep xs) (joinSep ys) = ([], [], joinSep (ys.drop xs.length))) ∧
      (¬ xs <+: ys →
        ∃ eb b t, relLoop fuel (joinSep xs) (joinSep ys) = (eb, b, t) ∧ b ≠ [] ∧
          (eb = [] ∨ eb ∈ xs)) := by
  induction xs with
  | nil =>
    intro ys fuel _ _ hf
    refine ⟨fun _ => ?_, fun h => absurd (List.nil_prefix) h⟩
    cases fuel with
    | zero => exact absurd hf (Nat.lt_irrefl 0)
    | succ n => simp [relLoop, joinSep]
  | cons x xs ih =>
    intro ys fuel hxs hys hf
    have hx := hxs x (List.mem_cons_self _ _)
    have hxs' : ∀ z ∈ xs, z ≠ [] ∧ '/' ∉ z := fun z hz => hxs z (List.mem_cons_of_mem _ hz)
    cases fuel with
    | zero => exact absurd hf (Nat.not_lt_zero _)
    | succ n =>
      have hbne : joinSep (x :: xs) ≠ [] := joinSep_ne_nil x xs hx.1
      cases ys with
      | nil =>
        refine ⟨fun h => ?_, fun _ => ?_⟩
        · have := h.length_le
          simp at this
        · exact ⟨[], joinSep (x :: xs), [], by simp [relLoop, joinSep], hbne, Or.inl rfl⟩
      | cons y ys =>
        have hy := hys y (List.mem_cons_self _ _)
        have hys' : ∀ z ∈ ys, z ≠ [] ∧ '/' ∉ z := fun z hz => hys z (List.mem_cons_of_mem _ hz)
        have htne : joinSep (y :: ys) ≠ [] := joinSep_ne_nil y ys hy.1
        have hbx := joinSep_head x xs hx.2
        have hty := joinSep_head y ys hy.2
        by_cases hxy : x = y
        · subst hxy
          have hstep : relLoop (n + 1) (joinSep (x :: xs)) (joinSep (x :: ys)) =
              relLoop n (joinSep xs) (joinSep ys) := by
            rw [relLoop]
            simp only [hbne, htne, or_self, if_false, hbx.1, hty.1, ne_eq, not_true_eq_false,
              hbx.2, hty.2]
          have hih := ih ys n hxs' hys' (by simpa using hf)
          rw [hstep]
          refine ⟨fun h => ?_, fun h => ?_⟩
          · have h' : xs <+: ys := (List.cons_prefix_cons.mp h).2
            simpa using hih.1 h'
          · have h' : ¬ xs <+: ys := fun hp => h (List.cons_prefix_cons.mpr ⟨rfl, hp⟩)
            obtain ⟨eb, b, t, h1, h2, h3⟩ := hih.2 h'
            exact ⟨eb, b, t, h1, h2, h3.imp id (List.mem_cons_of_mem _)⟩
        · refine ⟨fun h => absurd (List.cons_prefix_cons.mp h).1 hxy, fun _ => ?_⟩
          refine ⟨x, joinSep (x :: xs), joinSep (y :: ys), ?_, hbne, Or.inr (List.mem_cons_self _ _)⟩
          rw [relLoop]
          simp only [hbne, htne, or_self, if_false, hbx.1, hty.1, ne_eq, hxy, not_false_eq_true,
            if_true]

theorem relLoop_first (n : Nat) (b t : List Char) :
    relLoop (n + 1) ('/' :: b) ('/' :: t) = relLoop n b t := by
  rw [relLoop]
  simp [takeWhile_cons_false (fun c => decide (c ≠ '/')) '/' _ (by decide)]

theorem isPrefixOf_dots_joinSep (e : List Char) (xs : List (List Char)) (he : e ≠ []) :
    ['.', '.'].isPrefixOf (joinSep (e :: xs)) = ['.', '.'].isPrefixOf e := by
  cases xs with
  | nil => rfl
  | cons y ys =>
    simp only [joinSep]
    match e, he with
    | [c], _ =>
      by_cases hc : c = '.'
      · subst hc; simp [List.isPrefixOf]
      · simp [List.isPrefixOf, hc]
    | c1 :: c2 :: cs, _ => simp [List.isPrefixOf]

/-- The function `filepath.Rel` on cleaned absolute paths: `.` for equal paths, the rest of
the target when the base is a proper ancestor of the target, and a path that begins with
`..` in every other case; it never fails. -/
theorem Rel_absPath (r t : List String) (hr : ∀ x ∈ r, IsElem x) (ht : ∀ x ∈ t, IsElem x) :
    (t = r → Rel (absPath r) (absPath t) = some ".") ∧
      (r <+: t → t ≠ r →
        Rel (absPath r) (absPath t) = some ⟨joinSep ((t.drop r.length).map String.data)⟩) ∧
      (¬ r <+: t → ∃ p, Rel (absPath r) (absPath t) = some p ∧ HasPrefix p ".." = true) := by
  have hgood : ∀ (l : List String), (∀ x ∈ l, IsElem x) →
      ∀ x ∈ l.map String.data, x ≠ [] ∧ '/' ∉ x := by
    intro l hl x hx
    obtain ⟨y, hy, rfl⟩ := List.mem_map.mp hx
    exact ⟨(hl y hy).1, (hl y hy).2.1⟩
  have hbase : cleanChars (absPath r).data = '/' :: joinSep (r.map String.data) :=
    cleanChars_absPath r hr
  have htarg : cleanChars (absPath t).data = '/' :: joinSep (t.map String.data) :=
    cleanChars_absPath t ht
  have heq : ('/' :: joinSep (t.map String.data) = '/' :: joinSep (r.map String.data)) ↔ t = r := by
    constructor
    · intro h
      exact absPath_inj t r ht hr (by unfold absPath; rw [h])
    · intro h; rw [h]
  have hfuel : (r.map String.data).length < ('/' :: joinSep (r.map String.data)).length := by
    have := length_le_joinSep (r.map String.data) (fun x hx => (hgood r hr x hx).1)
    simp only [List.length_cons]
    omega
  have hloop := relLoop_joinSep (r.map String.data) (t.map String.data)
    ('/' :: joinSep (r.map String.data)).length (hgood r hr) (hgood t ht) hfuel
  have hpre : (r.map String.data) <+: (t.map String.data) ↔ r <+: t := by
    constructor
    · rintro ⟨s, hs⟩
      have : r = t.take r.length := by
        have h1 : (r.map String.data) = (t.map String.data).take r.length := by
          rw [← hs]; simp
        rw [← List.map_take] at h1
        refine List.map_injective_iff.mpr ?_ h1
        intro a b hab
        exact String.ext hab
      rw [this]
      exact List.take_prefix _ _
    · intro h
      exact h.map _
  have hunfold : ¬ t = r → Rel (absPath r) (absPath t) =
      match relLoop ('/' :: joinSep (r.map String.data)).length (joinSep (r.map String.data))
          (joinSep (t.map String.data)) with
      | (eb, b, t') =>
        if eb = ['.', '.'] then none
        else if b ≠ [] then
          some ⟨['.', '.'] ++ (List.replicate (b.count '/') ['/', '.', '.']).flatten ++
            (if t' ≠ [] then '/' :: t' else [])⟩
        else some ⟨t'⟩ := by
    intro hne
    unfold Rel
    simp only [hbase, htarg]
    rw [if_neg (fun h => hne (heq.mp h))]
    simp only [List.cons_ne_self, List.head?_cons, ne_eq, not_true_eq_false, if_false,
      relLoop_first, reduceCtorEq]
    rfl
  refine ⟨?_, ?_, ?_⟩
  · intro h
    unfold Rel
    simp only [hbase, htarg]
    rw [if_pos (heq.mpr h)]
  · intro hp hne
    rw [hunfold hne, hloop.1 (hpre.mpr hp)]
    simp [List.map_drop]
  · intro hnp
    have hne : ¬ t = r := fun h => hnp (h ▸ List.prefix_refl _)
    obtain ⟨eb, b, t', hl, hb, heb⟩ := hloop.2 (fun h => hnp (hpre.mp h))
    rw [hunfold hne, hl]
    have hdots : eb ≠ ['.', '.'] := by
      rcases heb with h | h
      · rw [h]; simp
      · obtain ⟨y, hy, rfl⟩ := List.mem_map.mp h
        exact (hr y hy).2.2.2
    simp only [hdots, if_false, hb, ne_eq, not_false_eq_true, if_true]
    exact ⟨_, rfl, by simp [HasPrefix, List.isPrefixOf]⟩

/-- The closure `isSubDir` on cleaned absolute paths: it holds iff the target is the base or
a descendant of it and the first path element below the base, if any, does not begin with
two dots. -/
theorem isSubDir_absPath (r t : List String) (hr : ∀ x ∈ r, IsElem x)
    (ht : ∀ x ∈ t, IsElem x) :
    isSubDir (absPath r) (absPath t) = true ↔
      r <+: t ∧ ∀ e, (t.drop r.length).head? = some e → HasPrefix e ".." = false := by
  obtain ⟨h1, h2, h3⟩ := Rel_absPath r t hr ht
  unfold isSubDir
  by_cases hp : r <+: t
  · by_cases hne : t = r
    · rw [h1 hne]
      subst hne
      simp only [hp, true_and]
      constructor
      · intro _ e he
        simp at he
      · intro _; decide
    · rw [h2 hp hne]
      have hlen : r.length < t.length := by
        rcases Nat.lt_or_ge r.length t.length with h | h
        · exact h
        · exact absurd (hp.eq_of_length (Nat.le_antisymm hp.length_le h)).symm hne
      obtain ⟨e, rest, hd⟩ : ∃ e rest, t.drop r.length = e :: rest := by
        cases hdrop : t.drop r.length with
        | nil =>
          have := congrArg List.length hdrop
          simp at this
          omega
        | cons e rest => exact ⟨e, rest, rfl⟩
      have he : IsElem e := ht e (List.drop_subset _ _ (by rw [hd]; exact List.mem_cons_self _ _))
      rw [hd]
      simp only [hp, true_and, List.map_cons, List.head?_cons, Option.some.injEq,
        forall_eq']
      unfold HasPrefix
      show (!(".." : String).data.isPrefixOf (joinSep (e.data :: rest.map String.data))) = true ↔ _
      have := isPrefixOf_dots_joinSep e.data (rest.map String.data) he.1
      have hd2 : (".." : String).data = ['.', '.'] := rfl
      rw [hd2, this]
      cases ['.', '.'].isPrefixOf e.data <;> simp
  · obtain ⟨p, hrel, hpre⟩ := h3 hp
    rw [hrel]
    simp [hpre, hp]

end PluginManager
